import Mathlib

/-!
# RedditClone: the post stores

A shallow embedding of `internal/post/post.go`, `internal/post/memory_repo.go` and
`internal/post/mongo_repo.go`.

* A Go slice of pointers (`[]*Post`, `[]*Vote`) is a `List` of values; the store is
  passed explicitly and every method returns the new store next to its Go result.
* An `error` result is `Option PostError`, with `none` for `nil`.
* Go `int` fields (`Views`, `Value`, `UpvotesCount`, `DownvotesCount`, `Score`) are
  `GoInt`, the integers from `-2^63` to `2^63 - 1`, whose `+` and `-` wrap around
  modulo `2^64` as Go's do; `a.toInt` is the integer an `int` holds.  `uint` ids are
  `Nat` and only compared; the `uint` counter `idCount` is reduced modulo `2^64`.
* `MemoryRepo` keeps the posts as values.  `HeapRepo` keeps them as the pointers they
  are; its methods are those of `MemoryRepo` as long as no post is stored twice, which
  `Create` on a stored pointer alone brings about.
* The mutex is not modelled: every method is one critical section.
* `time.Now()` is a parameter of `Create`, and so is `primitive.NewObjectID()`.
* A method that can stop in a run-time panic returns an `Option`, `none` for the panic.
-/

namespace RedditClone

/-! ## Go's `int` -/

/-- The value a 64-bit two's complement `int` holds when the exact result of an operation
is `x`: the integer congruent to `x` modulo `2^64` from `-2^63` to `2^63 - 1`. -/
def wrapInt (x : Int) : Int :=
  (x + 2 ^ 63) % 2 ^ 64 - 2 ^ 63

/-- Go's `int` on a 64-bit platform: an integer from `-2^63` to `2^63 - 1`. -/
structure GoInt where
  toInt : Int
  inRange : -2 ^ 63 ≤ toInt ∧ toInt < 2 ^ 63
  deriving DecidableEq, Repr

/-- The `int` that an operation with the exact result `x` leaves. -/
def GoInt.ofInt (x : Int) : GoInt :=
  ⟨wrapInt x, by unfold wrapInt; omega⟩

/-- An integer constant as an `int`. -/
instance (n : Nat) : OfNat GoInt n := ⟨GoInt.ofInt n⟩

/-- Go's `a + b` on `int`: the sum, wrapped around. -/
instance : Add GoInt := ⟨fun a b => GoInt.ofInt (a.toInt + b.toInt)⟩

/-- Go's `a - b` on `int`: the difference, wrapped around. -/
instance : Sub GoInt := ⟨fun a b => GoInt.ofInt (a.toInt - b.toInt)⟩

/-- Go's `-a` on `int`, wrapped around. -/
instance : Neg GoInt := ⟨fun a => GoInt.ofInt (-a.toInt)⟩

/-- The largest `int`, `math.MaxInt64`. -/
def MaxInt64 : GoInt := 9223372036854775807

/-- The least `int`, `math.MinInt64`. -/
def MinInt64 : GoInt := -9223372036854775808

/-! ## post.go -/

/-- The constant `Like = 1` (post.go:8). -/
def Like : GoInt := 1

/-- The constant `Unlike = -1` (post.go:9). -/
def Unlike : GoInt := -1

/-- The package error values (post.go:12-17). -/
inductive PostError where
  | ErrNotExist
  | ErrCommentNotExist
  | ErrNoAccess
  | ErrInvalidID
  deriving DecidableEq, Repr

/-- The struct `Vote` (post.go:19-22). -/
structure Vote where
  UserID : Nat
  Value : GoInt
  deriving DecidableEq, Repr

/-- The struct `Post` (post.go:24-38).  The field `Type` is spelled `Type_`, since
`Type` is reserved. -/
structure Post where
  ID : String
  Category : String
  CreateDate : String
  Text : String
  URL : String
  Title : String
  Type_ : String
  Views : GoInt
  Votes : List Vote
  CommentIDs : List String
  AuthorID : Nat
  UpvotesCount : GoInt
  DownvotesCount : GoInt
  deriving DecidableEq, Repr

/-! ## memory_repo.go -/

/-- The struct `MemoryRepo` (memory_repo.go:9-13), without its mutex. -/
structure MemoryRepo where
  idCount : Nat
  posts : List Post
  deriving DecidableEq, Repr

/-- The constructor `NewMemoryRepo` (memory_repo.go:17-23). -/
def NewMemoryRepo : MemoryRepo :=
  { idCount := 0, posts := [] }

/-- The conversion `int(r.idCount)` of a 64-bit `uint` to a 64-bit `int`. -/
def uintToInt (n : Nat) : Int :=
  if n % 2 ^ 64 < 2 ^ 63 then ((n % 2 ^ 64 : Nat) : Int) else ((n % 2 ^ 64 : Nat) : Int) - 2 ^ 64

/-- The method `Create` (memory_repo.go:36-57) for a pointer to a post that is not
stored: the post is passed by value, and the post stored is the post written through
the pointer.  `HeapRepo.Create` is the method on any pointer.  `now` is the formatted
`time.Now()`.  Only the fields assigned in the source are overwritten; `DownvotesCount`
is not. -/
def MemoryRepo.Create (r : MemoryRepo) (p : Post) (now : String) : MemoryRepo × String :=
  let idCount := (r.idCount + 1) % 2 ^ 64
  let id := toString (uintToInt idCount)
  let q : Post :=
    { p with
      ID := id
      CreateDate := now
      Views := 0
      Votes := [{ UserID := p.AuthorID, Value := Like }]
      UpvotesCount := 1
      CommentIDs := [] }
  ({ idCount := idCount, posts := r.posts ++ [q] }, id)

/-- Inner loop of `Upvote` (memory_repo.go:133-143): the first entry of `voter` gets
the value `Like`; `none` when the loop ends without finding one. -/
def upvoteVotes (voter : Nat) : List Vote → Option (List Vote)
  | [] => none
  | v :: vs =>
    if v.UserID ≠ voter then (upvoteVotes voter vs).map (fun r => v :: r)
    else some ({ v with Value := Like } :: vs)

/-- Body of the outer loop of `Upvote` for the post with the wanted id
(memory_repo.go:133-151). -/
def upvotePost (p : Post) (voter : Nat) : Post :=
  match upvoteVotes voter p.Votes with
  | some vs =>
    { p with Votes := vs, UpvotesCount := p.UpvotesCount + 1, DownvotesCount := p.DownvotesCount - 1 }
  | none =>
    { p with Votes := p.Votes ++ [{ UserID := voter, Value := Like }], UpvotesCount := p.UpvotesCount + 1 }

/-- Outer loop of `Upvote` (memory_repo.go:128-152); `none` when no post has the id. -/
def upvotePosts (postID : String) (voter : Nat) : List Post → Option (List Post)
  | [] => none
  | p :: ps =>
    if p.ID ≠ postID then (upvotePosts postID voter ps).map (fun r => p :: r)
    else some (upvotePost p voter :: ps)

/-- The method `Upvote` (memory_repo.go:124-155). -/
def MemoryRepo.Upvote (r : MemoryRepo) (postID : String) (voter : Nat) :
    MemoryRepo × Option PostError :=
  match upvotePosts postID voter r.posts with
  | some ps => ({ r with posts := ps }, none)
  | none => (r, some PostError.ErrNotExist)

/-- Inner loop of `Downvote` (memory_repo.go:166-176). -/
def downvoteVotes (voter : Nat) : List Vote → Option (List Vote)
  | [] => none
  | v :: vs =>
    if v.UserID ≠ voter then (downvoteVotes voter vs).map (fun r => v :: r)
    else some ({ v with Value := Unlike } :: vs)

/-- Body of the outer loop of `Downvote` for the post with the wanted id
(memory_repo.go:166-184). -/
def downvotePost (p : Post) (voter : Nat) : Post :=
  match downvoteVotes voter p.Votes with
  | some vs =>
    { p with Votes := vs, DownvotesCount := p.DownvotesCount + 1, UpvotesCount := p.UpvotesCount - 1 }
  | none =>
    { p with Votes := p.Votes ++ [{ UserID := voter, Value := Unlike }], DownvotesCount := p.DownvotesCount + 1 }

/-- Outer loop of `Downvote` (memory_repo.go:161-185). -/
def downvotePosts (postID : String) (voter : Nat) : List Post → Option (List Post)
  | [] => none
  | p :: ps =>
    if p.ID ≠ postID then (downvotePosts postID voter ps).map (fun r => p :: r)
    else some (downvotePost p voter :: ps)

/-- The method `Downvote` (memory_repo.go:157-188). -/
def MemoryRepo.Downvote (r : MemoryRepo) (postID : String) (voter : Nat) :
    MemoryRepo × Option PostError :=
  match downvotePosts postID voter r.posts with
  | some ps => ({ r with posts := ps }, none)
  | none => (r, some PostError.ErrNotExist)

/-- Inner loop of `Unvote` (memory_repo.go:199-214) on the ledger and the two
counters: the first entry of `voter` is cut out of the slice (`copy`, clear the
last cell, reslice) and the counter chosen by `Value == Like` goes down by one;
`none` when the loop ends without finding an entry. -/
def unvoteVotes (voter : Nat) :
    List Vote → GoInt → GoInt → Option (List Vote × GoInt × GoInt)
  | [], _, _ => none
  | v :: vs, up, down =>
    if v.UserID ≠ voter then
      (unvoteVotes voter vs up down).map (fun r => (v :: r.1, r.2.1, r.2.2))
    else if v.Value = Like then some (vs, up - 1, down)
    else some (vs, up, down - 1)

/-- Body of the outer loop of `Unvote` for a post with the wanted id. -/
def unvotePost (p : Post) (voter : Nat) : Option Post :=
  (unvoteVotes voter p.Votes p.UpvotesCount p.DownvotesCount).map
    (fun r => { p with Votes := r.1, UpvotesCount := r.2.1, DownvotesCount := r.2.2 })

/-- Outer loop of `Unvote` (memory_repo.go:194-215).  When the inner loop finds no
entry the source does not return: the outer loop goes on to the next post. -/
def unvotePosts (postID : String) (voter : Nat) : List Post → Option (List Post)
  | [] => none
  | p :: ps =>
    if p.ID ≠ postID then (unvotePosts postID voter ps).map (fun r => p :: r)
    else
      match unvotePost p voter with
      | some q => some (q :: ps)
      | none => (unvotePosts postID voter ps).map (fun r => p :: r)

/-- The method `Unvote` (memory_repo.go:190-218). -/
def MemoryRepo.Unvote (r : MemoryRepo) (postID : String) (voter : Nat) :
    MemoryRepo × Option PostError :=
  match unvotePosts postID voter r.posts with
  | some ps => ({ r with posts := ps }, none)
  | none => (r, some PostError.ErrNotExist)

/-- Loop of `GetByID` (memory_repo.go:63-70): the first post with the id gets
`viewsUpdate` added to `Views` and is returned; `none` when no post has the id. -/
def getByIDPosts (id : String) (viewsUpdate : GoInt) : List Post → Option (List Post × Post)
  | [] => none
  | p :: ps =>
    if p.ID ≠ id then (getByIDPosts id viewsUpdate ps).map (fun r => (p :: r.1, r.2))
    else some ({ p with Views := p.Views + viewsUpdate } :: ps,
               { p with Views := p.Views + viewsUpdate })

/-- The method `GetByID` (memory_repo.go:59-73); the Go result pair `(*Post, error)` is
the pair of options. -/
def MemoryRepo.GetByID (r : MemoryRepo) (id : String) (viewsUpdate : GoInt) :
    MemoryRepo × Option Post × Option PostError :=
  match getByIDPosts id viewsUpdate r.posts with
  | some (ps, p) => ({ r with posts := ps }, some p, none)
  | none => (r, none, some PostError.ErrNotExist)

/-- Loop of `AddComment` (memory_repo.go:111-119). -/
def addCommentPosts (postID commentID : String) : List Post → Option (List Post)
  | [] => none
  | p :: ps =>
    if p.ID ≠ postID then (addCommentPosts postID commentID ps).map (fun r => p :: r)
    else some ({ p with CommentIDs := p.CommentIDs ++ [commentID] } :: ps)

/-- The method `AddComment` (memory_repo.go:107-122). -/
def MemoryRepo.AddComment (r : MemoryRepo) (postID commentID : String) :
    MemoryRepo × Option PostError :=
  match addCommentPosts postID commentID r.posts with
  | some ps => ({ r with posts := ps }, none)
  | none => (r, some PostError.ErrNotExist)

/-- Loop of `Delete` (memory_repo.go:224-239): at the first post with the id, either
`ErrNoAccess` (author differs) or the post is cut out of the slice. -/
def deletePosts (postID : String) (userID : Nat) : List Post → List Post × Option PostError
  | [] => ([], some PostError.ErrNotExist)
  | p :: ps =>
    if p.ID ≠ postID then ((p :: (deletePosts postID userID ps).1), (deletePosts postID userID ps).2)
    else if p.AuthorID ≠ userID then (p :: ps, some PostError.ErrNoAccess)
    else (ps, none)

/-- The method `Delete` (memory_repo.go:220-240). -/
def MemoryRepo.Delete (r : MemoryRepo) (postID : String) (userID : Nat) :
    MemoryRepo × Option PostError :=
  ({ r with posts := (deletePosts postID userID r.posts).1 }, (deletePosts postID userID r.posts).2)

/-- First loop of `DeleteComment` (memory_repo.go:246-251), run over the posts from
index `i` on; the result is the value of `i` when the loop ends.  The body is only
`if r.posts[i].ID != postID { continue }`: both ways round go on to `i++`. -/
def deleteCommentScan (postID : String) : List Post → Nat → Nat
  | [], i => i
  | p :: ps, i =>
    if p.ID ≠ postID then deleteCommentScan postID ps (i + 1)
    else deleteCommentScan postID ps (i + 1)

/-- Second loop of `DeleteComment` (memory_repo.go:257-267): the first occurrence of
the comment id is cut out of the slice; `none` when the loop ends without one. -/
def deleteCommentIDs (commentID : String) : List String → Option (List String)
  | [] => none
  | c :: cs =>
    if c ≠ commentID then (deleteCommentIDs commentID cs).map (fun r => c :: r)
    else some cs

/-- The method `DeleteComment` (memory_repo.go:242-270).  The outer `none` stands for
the run-time panic of an out-of-range `r.posts[i]`. -/
def MemoryRepo.DeleteComment (r : MemoryRepo) (postID commentID : String) :
    Option (MemoryRepo × Option PostError) :=
  let i := deleteCommentScan postID r.posts 0
  if i = r.posts.length then some (r, some PostError.ErrNotExist)
  else
    match r.posts[i]? with
    | none => none
    | some p =>
      match deleteCommentIDs commentID p.CommentIDs with
      | some cs => some ({ r with posts := r.posts.set i { p with CommentIDs := cs } }, none)
      | none => some (r, some PostError.ErrCommentNotExist)

/-- The stores that can be reached from `NewMemoryRepo` by calls of the methods that
write to the store, `Create` being passed a post that is not stored.  `GetAll`,
`GetByCategory` and `GetByAuthor` only read. -/
inductive Reachable : MemoryRepo → Prop
  | init : Reachable NewMemoryRepo
  | create (r : MemoryRepo) (p : Post) (now : String) :
      Reachable r → Reachable (r.Create p now).1
  | getByID (r : MemoryRepo) (id : String) (viewsUpdate : GoInt) :
      Reachable r → Reachable (r.GetByID id viewsUpdate).1
  | addComment (r : MemoryRepo) (postID commentID : String) :
      Reachable r → Reachable (r.AddComment postID commentID).1
  | upvote (r : MemoryRepo) (postID : String) (voter : Nat) :
      Reachable r → Reachable (r.Upvote postID voter).1
  | downvote (r : MemoryRepo) (postID : String) (voter : Nat) :
      Reachable r → Reachable (r.Downvote postID voter).1
  | unvote (r : MemoryRepo) (postID : String) (voter : Nat) :
      Reachable r → Reachable (r.Unvote postID voter).1
  | delete (r : MemoryRepo) (postID : String) (userID : Nat) :
      Reachable r → Reachable (r.Delete postID userID).1
  | deleteComment (r s : MemoryRepo) (postID commentID : String) (e : Option PostError) :
      Reachable r → r.DeleteComment postID commentID = some (s, e) → Reachable s

/-! ## memory_repo.go, with the posts as pointers

`r.posts` is a slice of pointers, and `Create` stores the pointer it is given.  Here a
pointer is an address, a number, and `heap` gives the post at each address: the posts
that are stored and those that a caller holds.  The loops are those of `MemoryRepo`,
reading and writing the posts through their addresses. -/

/-- The struct `MemoryRepo` (memory_repo.go:9-13) with `posts` as the slice of pointers
it is, together with the posts the pointers lead to. -/
structure HeapRepo where
  idCount : Nat
  posts : List Nat
  heap : Nat → Post

/-- The constructor `NewMemoryRepo` (memory_repo.go:17-23), next to the posts that
callers hold. -/
def NewHeapRepo (heap : Nat → Post) : HeapRepo :=
  { idCount := 0, posts := [], heap := heap }

/-- An assignment through the pointer `a`. -/
def store (heap : Nat → Post) (a : Nat) (p : Post) : Nat → Post :=
  fun b => if b = a then p else heap b

/-- The posts of the store in the order of the slice, read through the pointers. -/
def HeapRepo.view (r : HeapRepo) : MemoryRepo :=
  { idCount := r.idCount, posts := r.posts.map r.heap }

/-- The method `Create` (memory_repo.go:36-57) on the pointer `a`: the fields are written
through the pointer, and the pointer is appended to the slice. -/
def HeapRepo.Create (r : HeapRepo) (a : Nat) (now : String) : HeapRepo × String :=
  let idCount := (r.idCount + 1) % 2 ^ 64
  let id := toString (uintToInt idCount)
  let q : Post :=
    { r.heap a with
      ID := id
      CreateDate := now
      Views := 0
      Votes := [{ UserID := (r.heap a).AuthorID, Value := Like }]
      UpvotesCount := 1
      CommentIDs := [] }
  ({ idCount := idCount, posts := r.posts ++ [a], heap := store r.heap a q }, id)

/-- The loop header shared by `GetByID`, `AddComment`, `Upvote` and `Downvote`: the
pointer to the first post with the id. -/
def findPost (heap : Nat → Post) (postID : String) : List Nat → Option Nat
  | [] => none
  | a :: as => if (heap a).ID ≠ postID then findPost heap postID as else some a

/-- The method `Upvote` (memory_repo.go:124-155) on pointers. -/
def HeapRepo.Upvote (r : HeapRepo) (postID : String) (voter : Nat) :
    HeapRepo × Option PostError :=
  match findPost r.heap postID r.posts with
  | some a => ({ r with heap := store r.heap a (upvotePost (r.heap a) voter) }, none)
  | none => (r, some PostError.ErrNotExist)

/-- The method `Downvote` (memory_repo.go:157-188) on pointers. -/
def HeapRepo.Downvote (r : HeapRepo) (postID : String) (voter : Nat) :
    HeapRepo × Option PostError :=
  match findPost r.heap postID r.posts with
  | some a => ({ r with heap := store r.heap a (downvotePost (r.heap a) voter) }, none)
  | none => (r, some PostError.ErrNotExist)

/-- The loops of `Unvote` (memory_repo.go:194-215) on pointers: the pointer to the first
post with the id that holds an entry of the voter, and that post after the removal. -/
def findUnvote (heap : Nat → Post) (postID : String) (voter : Nat) :
    List Nat → Option (Nat × Post)
  | [] => none
  | a :: as =>
    if (heap a).ID ≠ postID then findUnvote heap postID voter as
    else
      match unvotePost (heap a) voter with
      | some q => some (a, q)
      | none => findUnvote heap postID voter as

/-- The method `Unvote` (memory_repo.go:190-218) on pointers. -/
def HeapRepo.Unvote (r : HeapRepo) (postID : String) (voter : Nat) :
    HeapRepo × Option PostError :=
  match findUnvote r.heap postID voter r.posts with
  | some (a, q) => ({ r with heap := store r.heap a q }, none)
  | none => (r, some PostError.ErrNotExist)

/-- The method `GetByID` (memory_repo.go:59-73) on pointers; the post returned is the
one the returned pointer leads to. -/
def HeapRepo.GetByID (r : HeapRepo) (id : String) (viewsUpdate : GoInt) :
    HeapRepo × Option Post × Option PostError :=
  match findPost r.heap id r.posts with
  | some a =>
    ({ r with
        heap := store r.heap a ({ r.heap a with Views := (r.heap a).Views + viewsUpdate }) },
      some { r.heap a with Views := (r.heap a).Views + viewsUpdate }, none)
  | none => (r, none, some PostError.ErrNotExist)

/-- The method `AddComment` (memory_repo.go:107-122) on pointers. -/
def HeapRepo.AddComment (r : HeapRepo) (postID commentID : String) :
    HeapRepo × Option PostError :=
  match findPost r.heap postID r.posts with
  | some a =>
    ({ r with
        heap := store r.heap a
          ({ r.heap a with CommentIDs := (r.heap a).CommentIDs ++ [commentID] }) }, none)
  | none => (r, some PostError.ErrNotExist)

/-- Loop of `Delete` (memory_repo.go:224-239) on pointers: at the first post with the id,
either `ErrNoAccess` or the pointer is cut out of the slice. -/
def deleteAddrs (heap : Nat → Post) (postID : String) (userID : Nat) :
    List Nat → List Nat × Option PostError
  | [] => ([], some PostError.ErrNotExist)
  | a :: as =>
    if (heap a).ID ≠ postID then
      (a :: (deleteAddrs heap postID userID as).1, (deleteAddrs heap postID userID as).2)
    else if (heap a).AuthorID ≠ userID then (a :: as, some PostError.ErrNoAccess)
    else (as, none)

/-- The method `Delete` (memory_repo.go:220-240) on pointers. -/
def HeapRepo.Delete (r : HeapRepo) (postID : String) (userID : Nat) :
    HeapRepo × Option PostError :=
  ({ r with posts := (deleteAddrs r.heap postID userID r.posts).1 },
    (deleteAddrs r.heap postID userID r.posts).2)

/-- The method `DeleteComment` (memory_repo.go:242-270) on pointers.  The outer `none`
stands for the run-time panic of an out-of-range `r.posts[i]`. -/
def HeapRepo.DeleteComment (r : HeapRepo) (postID commentID : String) :
    Option (HeapRepo × Option PostError) :=
  let i := deleteCommentScan postID (r.posts.map r.heap) 0
  if i = r.posts.length then some (r, some PostError.ErrNotExist)
  else
    match r.posts[i]? with
    | none => none
    | some a =>
      match deleteCommentIDs commentID (r.heap a).CommentIDs with
      | some cs =>
        some ({ r with heap := store r.heap a ({ r.heap a with CommentIDs := cs }) }, none)
      | none => some (r, some PostError.ErrCommentNotExist)

/-- The stores that can be reached from `NewMemoryRepo` by a call sequence with exactly
`n` calls of `Create`, each on a pointer to a post that is not stored.  Between the calls
a caller may write to a post that is not stored (`prepare`); the stored posts are written
by the methods only. -/
inductive HeapReachableWith : Nat → HeapRepo → Prop
  | init (heap : Nat → Post) : HeapReachableWith 0 (NewHeapRepo heap)
  | prepare (n : Nat) (r : HeapRepo) (a : Nat) (p : Post) :
      HeapReachableWith n r → a ∉ r.posts →
      HeapReachableWith n { r with heap := store r.heap a p }
  | create (n : Nat) (r : HeapRepo) (a : Nat) (now : String) :
      HeapReachableWith n r → a ∉ r.posts → HeapReachableWith (n + 1) (r.Create a now).1
  | getByID (n : Nat) (r : HeapRepo) (id : String) (viewsUpdate : GoInt) :
      HeapReachableWith n r → HeapReachableWith n (r.GetByID id viewsUpdate).1
  | addComment (n : Nat) (r : HeapRepo) (postID commentID : String) :
      HeapReachableWith n r → HeapReachableWith n (r.AddComment postID commentID).1
  | upvote (n : Nat) (r : HeapRepo) (postID : String) (voter : Nat) :
      HeapReachableWith n r → HeapReachableWith n (r.Upvote postID voter).1
  | downvote (n : Nat) (r : HeapRepo) (postID : String) (voter : Nat) :
      HeapReachableWith n r → HeapReachableWith n (r.Downvote postID voter).1
  | unvote (n : Nat) (r : HeapRepo) (postID : String) (voter : Nat) :
      HeapReachableWith n r → HeapReachableWith n (r.Unvote postID voter).1
  | delete (n : Nat) (r : HeapRepo) (postID : String) (userID : Nat) :
      HeapReachableWith n r → HeapReachableWith n (r.Delete postID userID).1
  | deleteComment (n : Nat) (r s : HeapRepo) (postID commentID : String)
      (e : Option PostError) :
      HeapReachableWith n r → r.DeleteComment postID commentID = some (s, e) →
      HeapReachableWith n s

/-- The ids of the stored posts, in the order of the slice. -/
def HeapRepo.ids (r : HeapRepo) : List String :=
  r.posts.map (fun a => (r.heap a).ID)

/-! ## mongo_repo.go

The document store is the collection's list of documents together with the log of
the commands issued to it.  The storage engine may fail any command: an `Engine` says,
for the position of a command in the log, whether that command fails and with which
message. -/

/-- Modelled from the spec: the driver's object identifier `primitive.ObjectID`, a
fixed-width binary of 12 bytes, kept as the values of its 24 hexadecimal digits. -/
structure ObjectID where
  digits : List Nat
  deriving DecidableEq, Repr

/-- Modelled from the spec: the value of one hexadecimal digit, either case; `none`
for any other character. -/
def hexDigitValue (c : Char) : Option Nat :=
  if 48 ≤ c.toNat ∧ c.toNat ≤ 57 then some (c.toNat - 48)
  else if 97 ≤ c.toNat ∧ c.toNat ≤ 102 then some (c.toNat - 87)
  else if 65 ≤ c.toNat ∧ c.toNat ≤ 70 then some (c.toNat - 55)
  else none

/-- Modelled from the spec: decoding of a hexadecimal string, failing on the first
character that is not a hexadecimal digit. -/
def decodeHex : List Char → Option (List Nat)
  | [] => some []
  | c :: cs =>
    match hexDigitValue c with
    | none => none
    | some d =>
      match decodeHex cs with
      | none => none
      | some ds => some (d :: ds)

/-- Modelled from the spec: the driver function `primitive.ObjectIDFromHex`, which
accepts exactly the strings of 24 hexadecimal digits (such a string is ASCII, so its
byte length is its number of characters); `none` is the driver's error. -/
def ObjectIDFromHex (s : String) : Option ObjectID :=
  if s.length ≠ 24 then none
  else
    match decodeHex s.data with
    | none => none
    | some ds => some { digits := ds }

/-- Modelled from the spec: the lower-case digit of a value below 16. -/
def hexDigitChar (d : Nat) : Char :=
  if d < 10 then Char.ofNat (48 + d) else Char.ofNat (87 + d)

/-- Modelled from the spec: the driver method `ObjectID.Hex`, the lower-case
hexadecimal spelling. -/
def ObjectID.Hex (o : ObjectID) : String :=
  String.mk (o.digits.map hexDigitChar)

/-- The struct `Item` (mongo_repo.go:12-26): a post document, with its numbers as the
`int` fields they are decoded into. -/
structure Item where
  ID : ObjectID
  Category : String
  CreateDate : String
  Text : String
  URL : String
  Title : String
  Type_ : String
  Views : GoInt
  Votes : List Vote
  CommentIDs : List String
  AuthorID : Nat
  UpvotesCount : GoInt
  DownvotesCount : GoInt
  deriving DecidableEq, Repr

/-- An `error` returned by a `MongoRepo` method: one of the package's error values, or
an error of the driver passed on unchanged. -/
inductive StoreError where
  | repo (e : PostError)
  | driver (msg : String)
  deriving DecidableEq, Repr

/-- The driver commands the methods issue. -/
inductive Command where
  | Find
  | FindOne
  | FindOneAndUpdate
  | UpdateByID
  | InsertOne
  | DeleteOne
  deriving DecidableEq, Repr

/-- Modelled from the spec: the collection `posts` of the document store, with the log
of the commands issued so far, oldest first. -/
structure Collection where
  docs : List Item
  log : List Command
  deriving DecidableEq, Repr

/-- Modelled from the spec: the storage engine's failures.  `eng k = some msg` makes the
command that is issued when the log holds `k` commands fail with `msg`. -/
abbrev Engine := Nat → Option String

/-- The engine that never fails. -/
def healthy : Engine := fun _ => none

/-- Modelled from the spec: the outcome of a command that looks one document up: the
document, the driver's `mongo.ErrNoDocuments`, or a failure of the engine. -/
inductive FindResult where
  | found (item : Item)
  | noDocuments
  | failed (msg : String)
  deriving DecidableEq, Repr

/-- Modelled from the spec: the driver command `FindOne(filter)` with `Decode`: the first
document that matches. -/
def Collection.FindOne (c : Collection) (eng : Engine) (filter : Item → Bool) :
    Collection × FindResult :=
  match eng c.log.length with
  | some msg => ({ c with log := c.log ++ [Command.FindOne] }, FindResult.failed msg)
  | none =>
    match c.docs.find? filter with
    | some item => ({ c with log := c.log ++ [Command.FindOne] }, FindResult.found item)
    | none => ({ c with log := c.log ++ [Command.FindOne] }, FindResult.noDocuments)

/-- Modelled from the spec: one atomic update of the first matching document; the
result holds that document as it was before the update, and the new documents. -/
def updateFirst (filter : Item → Bool) (update : Item → Item) :
    List Item → Option (Item × List Item)
  | [] => none
  | d :: ds =>
    if filter d then some (d, update d :: ds)
    else (updateFirst filter update ds).map (fun r => (r.1, d :: r.2))

/-- Modelled from the spec: the driver command `FindOneAndUpdate(filter, update)`, an
atomic update of the first matching document that returns the document as it was. -/
def Collection.FindOneAndUpdate (c : Collection) (eng : Engine) (filter : Item → Bool)
    (update : Item → Item) : Collection × FindResult :=
  match eng c.log.length with
  | some msg => ({ c with log := c.log ++ [Command.FindOneAndUpdate] }, FindResult.failed msg)
  | none =>
    match updateFirst filter update c.docs with
    | some res =>
      ({ docs := res.2, log := c.log ++ [Command.FindOneAndUpdate] }, FindResult.found res.1)
    | none => ({ c with log := c.log ++ [Command.FindOneAndUpdate] }, FindResult.noDocuments)

/-- Modelled from the spec: the document `{_id: id}` an upsert starts from; read back
into an `Item`, every absent field is the zero value of its type. -/
def emptyItem (id : ObjectID) : Item :=
  { ID := id, Category := "", CreateDate := "", Text := "", URL := "", Title := "",
    Type_ := "", Views := 0, Votes := [], CommentIDs := [], AuthorID := 0,
    UpvotesCount := 0, DownvotesCount := 0 }

/-- Modelled from the spec: the driver command `UpdateByID(id, update)` with the option
`SetUpsert(true)`: an atomic update of the document with that `_id`, and the insertion
of the updated `{_id: id}` when there is none.  The result is the command's error. -/
def Collection.UpdateByID (c : Collection) (eng : Engine) (id : ObjectID)
    (update : Item → Item) : Collection × Option String :=
  match eng c.log.length with
  | some msg => ({ c with log := c.log ++ [Command.UpdateByID] }, some msg)
  | none =>
    match updateFirst (fun d => d.ID = id) update c.docs with
    | some res => ({ docs := res.2, log := c.log ++ [Command.UpdateByID] }, none)
    | none =>
      ({ docs := c.docs ++ [update (emptyItem id)], log := c.log ++ [Command.UpdateByID] }, none)

/-- Modelled from the spec: the driver command `InsertOne(document)`. -/
def Collection.InsertOne (c : Collection) (eng : Engine) (item : Item) :
    Collection × Option String :=
  match eng c.log.length with
  | some msg => ({ c with log := c.log ++ [Command.InsertOne] }, some msg)
  | none => ({ docs := c.docs ++ [item], log := c.log ++ [Command.InsertOne] }, none)

/-- Modelled from the spec: removal of the first matching document. -/
def deleteFirst (filter : Item → Bool) : List Item → List Item
  | [] => []
  | d :: ds => if filter d then ds else d :: deleteFirst filter ds

/-- Modelled from the spec: the driver command `DeleteOne(filter)`. -/
def Collection.DeleteOne (c : Collection) (eng : Engine) (filter : Item → Bool) :
    Collection × Option String :=
  match eng c.log.length with
  | some msg => ({ c with log := c.log ++ [Command.DeleteOne] }, some msg)
  | none =>
    ({ docs := deleteFirst filter c.docs, log := c.log ++ [Command.DeleteOne] }, none)

/-- Modelled from the spec: the positional update `"votes.$.value": val`, which writes
the first ledger entry matched by the filter's condition `"votes.user_id": voter`. -/
def setFirstValue (voter : Nat) (val : GoInt) : List Vote → List Vote
  | [] => []
  | v :: vs =>
    if v.UserID = voter then { v with Value := val } :: vs
    else v :: setFirstValue voter val vs

/-- The filter `bson.M{"_id": itemID}`. -/
def filterID (itemID : ObjectID) (d : Item) : Bool :=
  d.ID = itemID

/-- The filter `bson.M{"_id": itemID, "votes.user_id": voter}`: the document has the id
and some ledger entry of the voter. -/
def filterIDVoter (itemID : ObjectID) (voter : Nat) (d : Item) : Bool :=
  d.ID = itemID ∧ ∃ v ∈ d.Votes, v.UserID = voter

/-- The struct `MongoRepo` (mongo_repo.go:28-31); only `Posts` is used by the methods. -/
structure MongoRepo where
  Posts : Collection
  deriving DecidableEq, Repr

/-- The post built from a document (mongo_repo.go:131-145 and the like), with the
given `Views`. -/
def Item.toPost (item : Item) (views : GoInt) : Post :=
  { ID := item.ID.Hex, Category := item.Category, CreateDate := item.CreateDate,
    Text := item.Text, URL := item.URL, Title := item.Title, Type_ := item.Type_,
    Views := views, Votes := item.Votes, CommentIDs := item.CommentIDs,
    AuthorID := item.AuthorID, UpvotesCount := item.UpvotesCount,
    DownvotesCount := item.DownvotesCount }

/-- The method `MongoRepo.Create` (mongo_repo.go:79-107).  `oid` is the result of
`primitive.NewObjectID()` and `now` the formatted `time.Now()`; the Go result pair
`(string, error)` is a pair. -/
def MongoRepo.Create (r : MongoRepo) (eng : Engine) (post : Post) (oid : ObjectID)
    (now : String) : MongoRepo × String × Option StoreError :=
  let item : Item :=
    { ID := oid, Category := post.Category, CreateDate := now, Text := post.Text,
      URL := post.URL, Title := post.Title, Type_ := post.Type_, Views := 0,
      AuthorID := post.AuthorID, UpvotesCount := 1, DownvotesCount := 0,
      Votes := [{ UserID := post.AuthorID, Value := Like }], CommentIDs := [] }
  match (r.Posts.InsertOne eng item).2 with
  | some msg => ({ Posts := (r.Posts.InsertOne eng item).1 }, "", some (StoreError.driver msg))
  | none => ({ Posts := (r.Posts.InsertOne eng item).1 }, item.ID.Hex, none)

/-- The method `MongoRepo.GetByID` (mongo_repo.go:109-148). -/
def MongoRepo.GetByID (r : MongoRepo) (eng : Engine) (id : String) (viewsUpdate : GoInt) :
    MongoRepo × Option Post × Option StoreError :=
  match ObjectIDFromHex id with
  | none => (r, none, some (StoreError.repo PostError.ErrInvalidID))
  | some itemID =>
    let res := r.Posts.FindOneAndUpdate eng (filterID itemID)
      (fun d => { d with Views := d.Views + viewsUpdate })
    match res.2 with
    | FindResult.failed msg => ({ Posts := res.1 }, none, some (StoreError.driver msg))
    | FindResult.noDocuments =>
      ({ Posts := res.1 }, none, some (StoreError.repo PostError.ErrNotExist))
    | FindResult.found item =>
      ({ Posts := res.1 }, some (item.toPost (item.Views + viewsUpdate)), none)

/-- The method `MongoRepo.AddComment` (mongo_repo.go:222-236). -/
def MongoRepo.AddComment (r : MongoRepo) (eng : Engine) (postID commentID : String) :
    MongoRepo × Option StoreError :=
  match ObjectIDFromHex postID with
  | none => (r, some (StoreError.repo PostError.ErrInvalidID))
  | some itemID =>
    let res := r.Posts.FindOneAndUpdate eng (filterID itemID)
      (fun d => { d with CommentIDs := d.CommentIDs ++ [commentID] })
    match res.2 with
    | FindResult.noDocuments => ({ Posts := res.1 }, some (StoreError.repo PostError.ErrNotExist))
    | FindResult.failed msg => ({ Posts := res.1 }, some (StoreError.driver msg))
    | FindResult.found _ => ({ Posts := res.1 }, none)

/-- The method `MongoRepo.Upvote` (mongo_repo.go:238-275). -/
def MongoRepo.Upvote (r : MongoRepo) (eng : Engine) (postID : String) (voter : Nat) :
    MongoRepo × Option StoreError :=
  match ObjectIDFromHex postID with
  | none => (r, some (StoreError.repo PostError.ErrInvalidID))
  | some itemID =>
    let res := r.Posts.FindOneAndUpdate eng (filterIDVoter itemID voter)
      (fun d => { d with Votes := setFirstValue voter Like d.Votes,
                         UpvotesCount := d.UpvotesCount + 1,
                         DownvotesCount := d.DownvotesCount + -1 })
    match res.2 with
    | FindResult.found _ => ({ Posts := res.1 }, none)
    | FindResult.failed msg => ({ Posts := res.1 }, some (StoreError.driver msg))
    | FindResult.noDocuments =>
      let upd := res.1.UpdateByID eng itemID
        (fun d => { d with Votes := d.Votes ++ [{ UserID := voter, Value := Like }],
                           UpvotesCount := d.UpvotesCount + 1 })
      ({ Posts := upd.1 }, upd.2.map StoreError.driver)

/-- The method `MongoRepo.Downvote` (mongo_repo.go:277-314). -/
def MongoRepo.Downvote (r : MongoRepo) (eng : Engine) (postID : String) (voter : Nat) :
    MongoRepo × Option StoreError :=
  match ObjectIDFromHex postID with
  | none => (r, some (StoreError.repo PostError.ErrInvalidID))
  | some itemID =>
    let res := r.Posts.FindOneAndUpdate eng (filterIDVoter itemID voter)
      (fun d => { d with Votes := setFirstValue voter Unlike d.Votes,
                         UpvotesCount := d.UpvotesCount + -1,
                         DownvotesCount := d.DownvotesCount + 1 })
    match res.2 with
    | FindResult.found _ => ({ Posts := res.1 }, none)
    | FindResult.failed msg => ({ Posts := res.1 }, some (StoreError.driver msg))
    | FindResult.noDocuments =>
      let upd := res.1.UpdateByID eng itemID
        (fun d => { d with Votes := d.Votes ++ [{ UserID := voter, Value := Unlike }],
                           DownvotesCount := d.DownvotesCount + 1 })
      ({ Posts := upd.1 }, upd.2.map StoreError.driver)

/-- The method `MongoRepo.Unvote` (mongo_repo.go:316-357).  The update is chosen by
`item.Votes[0].Value`, the first entry of the ledger of the document read; the outer
`none` stands for the run-time panic of `item.Votes[0]` on an empty ledger.  `$pull`
takes out every entry of the voter. -/
def MongoRepo.Unvote (r : MongoRepo) (eng : Engine) (postID : String) (voter : Nat) :
    Option (MongoRepo × Option StoreError) :=
  match ObjectIDFromHex postID with
  | none => some (r, some (StoreError.repo PostError.ErrInvalidID))
  | some itemID =>
    let res := r.Posts.FindOne eng (filterIDVoter itemID voter)
    match res.2 with
    | FindResult.noDocuments =>
      some ({ Posts := res.1 }, some (StoreError.repo PostError.ErrNotExist))
    | FindResult.failed msg => some ({ Posts := res.1 }, some (StoreError.driver msg))
    | FindResult.found item =>
      match item.Votes with
      | [] => none
      | v0 :: _ =>
        let upd :=
          if v0.Value = Like then
            res.1.UpdateByID eng itemID
              (fun d => { d with Votes := d.Votes.filter (fun v => v.UserID ≠ voter),
                                 UpvotesCount := d.UpvotesCount + -1 })
          else
            res.1.UpdateByID eng itemID
              (fun d => { d with Votes := d.Votes.filter (fun v => v.UserID ≠ voter),
                                 DownvotesCount := d.DownvotesCount + -1 })
        some ({ Posts := upd.1 }, upd.2.map StoreError.driver)

/-- The method `MongoRepo.Delete` (mongo_repo.go:359-383). -/
def MongoRepo.Delete (r : MongoRepo) (eng : Engine) (postID : String) (userID : Nat) :
    MongoRepo × Option StoreError :=
  match ObjectIDFromHex postID with
  | none => (r, some (StoreError.repo PostError.ErrInvalidID))
  | some itemID =>
    let res := r.Posts.FindOne eng (filterID itemID)
    match res.2 with
    | FindResult.noDocuments => ({ Posts := res.1 }, some (StoreError.repo PostError.ErrNotExist))
    | FindResult.failed msg => ({ Posts := res.1 }, some (StoreError.driver msg))
    | FindResult.found item =>
      if item.AuthorID ≠ userID then
        ({ Posts := res.1 }, some (StoreError.repo PostError.ErrNoAccess))
      else
        let del := res.1.DeleteOne eng (filterID itemID)
        ({ Posts := del.1 }, del.2.map StoreError.driver)

/-- The method `MongoRepo.DeleteComment` (mongo_repo.go:385-399); `$pull` takes out
every occurrence of the comment id. -/
def MongoRepo.DeleteComment (r : MongoRepo) (eng : Engine) (postID commentID : String) :
    MongoRepo × Option StoreError :=
  match ObjectIDFromHex postID with
  | none => (r, some (StoreError.repo PostError.ErrInvalidID))
  | some itemID =>
    let res := r.Posts.FindOneAndUpdate eng (filterID itemID)
      (fun d => { d with CommentIDs := d.CommentIDs.filter (fun c => c ≠ commentID) })
    match res.2 with
    | FindResult.noDocuments => ({ Posts := res.1 }, some (StoreError.repo PostError.ErrNotExist))
    | FindResult.failed msg => ({ Posts := res.1 }, some (StoreError.driver msg))
    | FindResult.found _ => ({ Posts := res.1 }, none)

/-! ## The HTTP layer: pkg/handlers/post.go, pkg/middleware/authentication.go and
internal/session

The stores are interfaces to the handlers, so the result of each store call is a
parameter of the handler; so are the success of the JSON encoder and the rest of the
handler after the store call. -/

/-- The error values of package `comment` (comment.go:7-11). -/
inductive CommentError where
  | ErrNotExist
  | ErrNoAccess
  | ErrInvalidID
  deriving DecidableEq, Repr

/-- An `error` as a handler receives it from a store: an error value of package `post`,
one of package `comment`, or any other error. -/
inductive GoError where
  | post (e : PostError)
  | comment (e : CommentError)
  | other (msg : String)
  deriving DecidableEq, Repr

/-- The standard library's `http.ResponseWriter` as far as the handlers use it: the
status of the response, once it has been sent. -/
structure ResponseWriter where
  status : Option Nat
  deriving DecidableEq, Repr

/-- The call `w.WriteHeader(code)`: the first call sends the status, a later one is
ignored. -/
def ResponseWriter.WriteHeader (w : ResponseWriter) (code : Nat) : ResponseWriter :=
  match w.status with
  | some _ => w
  | none => { status := some code }

/-- A write of the body: it sends status 200 when no status has been sent. -/
def ResponseWriter.Write (w : ResponseWriter) : ResponseWriter :=
  w.WriteHeader 200

/-- The call `http.Error(w, msg, code)`. -/
def httpError (w : ResponseWriter) (code : Nat) : ResponseWriter :=
  (w.WriteHeader code).Write

/-- The call `json.NewEncoder(w).Encode(v)` followed by the handlers' common reaction to
its error, `http.Error(w, msg, 500)`. -/
def encodeOrError (w : ResponseWriter) (encodeFails : Bool) : ResponseWriter :=
  if encodeFails then httpError w 500 else w.Write

/-- The method `PostHandler.Upvote` (post.go:540-634) up to the end of the error
branches of the store call; `rest` is the handler from `GetByID` on. -/
def PostHandler.Upvote (w : ResponseWriter) (sessionMissing : Bool) (storeErr : Option GoError)
    (encodeFails : Bool) (rest : ResponseWriter → ResponseWriter) : ResponseWriter :=
  if sessionMissing then w.WriteHeader 401
  else
    match storeErr with
    | some (GoError.post PostError.ErrNotExist) => encodeOrError (w.WriteHeader 400) encodeFails
    | some _ => httpError w 500
    | none => rest w

/-- The method `PostHandler.Downvote` (post.go:636-737), in the same way. -/
def PostHandler.Downvote (w : ResponseWriter) (sessionMissing : Bool)
    (storeErr : Option GoError) (encodeFails : Bool) (rest : ResponseWriter → ResponseWriter) :
    ResponseWriter :=
  if sessionMissing then w.WriteHeader 401
  else
    match storeErr with
    | some (GoError.post PostError.ErrNotExist) => encodeOrError (w.WriteHeader 400) encodeFails
    | some _ => httpError w 500
    | none => rest w

/-- The method `PostHandler.Unvote` (post.go:739-831), in the same way: the branch is
`if err != nil`. -/
def PostHandler.Unvote (w : ResponseWriter) (sessionMissing : Bool) (storeErr : Option GoError)
    (encodeFails : Bool) (rest : ResponseWriter → ResponseWriter) : ResponseWriter :=
  if sessionMissing then w.WriteHeader 401
  else
    match storeErr with
    | some _ => encodeOrError (w.WriteHeader 400) encodeFails
    | none => rest w

/-- The method `PostHandler.Delete` (post.go:833-910); `rest` is the success answer. -/
def PostHandler.Delete (w : ResponseWriter) (sessionMissing : Bool) (storeErr : Option GoError)
    (encodeFails : Bool) (rest : ResponseWriter → ResponseWriter) : ResponseWriter :=
  if sessionMissing then w.WriteHeader 401
  else
    match storeErr with
    | some (GoError.post PostError.ErrNotExist) => encodeOrError (w.WriteHeader 400) encodeFails
    | some (GoError.post PostError.ErrNoAccess) => encodeOrError (w.WriteHeader 400) encodeFails
    | some _ => httpError w 500
    | none => rest w

/-- The method `PostHandler.AddComment` (post.go:406-538).  `bodyErr` says that reading
or unmarshalling the request body failed, `addErr` is the error of `CommentRepo.Add`
and `storeErr` that of `PostRepo.AddComment`, whose branch is `if err != nil`. -/
def PostHandler.AddComment (w : ResponseWriter) (sessionMissing bodyErr : Bool)
    (addErr storeErr : Option GoError) (encodeFails : Bool)
    (rest : ResponseWriter → ResponseWriter) : ResponseWriter :=
  if sessionMissing then w.WriteHeader 401
  else if bodyErr then httpError w 500
  else
    match addErr with
    | some _ => httpError w 500
    | none =>
      match storeErr with
      | some _ => encodeOrError (w.WriteHeader 400) encodeFails
      | none => rest w

/-- The method `PostHandler.DeleteComment` (post.go:912-1036).  `commentErr` is the error
of `CommentRepo.Delete` and `storeErr` that of `PostRepo.DeleteComment`, whose branch is
`if err != nil`. -/
def PostHandler.DeleteComment (w : ResponseWriter) (sessionMissing : Bool)
    (commentErr storeErr : Option GoError) (encodeFails : Bool)
    (rest : ResponseWriter → ResponseWriter) : ResponseWriter :=
  if sessionMissing then w.WriteHeader 401
  else
    match commentErr with
    | some (GoError.comment CommentError.ErrNotExist) =>
      encodeOrError (w.WriteHeader 400) encodeFails
    | some (GoError.comment CommentError.ErrNoAccess) =>
      encodeOrError (w.WriteHeader 400) encodeFails
    | some _ => httpError w 500
    | none =>
      match storeErr with
      | some _ => encodeOrError (w.WriteHeader 400) encodeFails
      | none => rest w

/-- The struct `Session` (session.go:26-30). -/
structure Session where
  UserID : Nat
  Username : String
  ExpirationDate : String
  deriving DecidableEq, Repr

/-- The struct `User` (user.go:11-15). -/
structure User where
  ID : Nat
  Username : String
  Password : String
  deriving DecidableEq, Repr

/-- The errors of session creation that `Authenticate` tells apart (session.go:15-24);
`other` is any other error. -/
inductive SessionError where
  | ErrBadSigningMethod
  | ErrBadToken
  | ErrEmptyPayload
  | ErrEmptyUserInfo
  | other (msg : String)
  deriving DecidableEq, Repr

/-- The result of `userRepo.GetByID`: a user, `user.ErrNoExist`, or another error. -/
inductive UserLookup where
  | found (u : User)
  | noExist
  | failed (msg : String)
  deriving DecidableEq, Repr

/-- The method `Manager.HasUserExist` (manager.go:23-37), on the result of the
`userRepo.GetByID` call. -/
def Manager.HasUserExist (lookup : UserLookup) (s : Session) : Bool × Option String :=
  match lookup with
  | UserLookup.noExist => (false, none)
  | UserLookup.failed msg => (false, some msg)
  | UserLookup.found u => if u.Username ≠ s.Username then (false, none) else (true, none)

/-- The handler built by `Authentication.Authenticate` (authentication.go:22-107).
`create` is the result of `manager.Create`, `lookup` that of the user lookup inside
`HasUserExist`, and `next` the wrapped handler; the result holds the response and
whether `next` was called.  After the answer to `!isExist` the source has no `return`. -/
def Authentication.Authenticate (w : ResponseWriter) (create : Except SessionError Session)
    (lookup : UserLookup) (encodeFails : Bool) (next : ResponseWriter → ResponseWriter) :
    ResponseWriter × Bool :=
  match create with
  | Except.error err =>
    if err = SessionError.ErrEmptyPayload ∨ err = SessionError.ErrEmptyUserInfo ∨
        err = SessionError.ErrBadToken then
      (encodeOrError (w.WriteHeader 401) encodeFails, false)
    else if err = SessionError.ErrBadSigningMethod then
      (encodeOrError (w.WriteHeader 400) encodeFails, false)
    else (httpError w 500, false)
  | Except.ok sess =>
    match (Manager.HasUserExist lookup sess).2 with
    | some _ => (httpError w 500, false)
    | none =>
      if (Manager.HasUserExist lookup sess).1 = false then
        if encodeFails then (httpError (w.WriteHeader 401) 500, false)
        else (next (w.WriteHeader 401).Write, true)
      else (next w, true)

/-- The standard library's `strings.Split(s, " ")`: the pieces of `s` between its
spaces, one more than the number of spaces. -/
def splitSpace : List Char → List (List Char)
  | [] => [[]]
  | c :: cs =>
    if c = ' ' then [] :: splitSpace cs
    else
      match splitSpace cs with
      | [] => [[c]]
      | x :: xs => (c :: x) :: xs

/-- The method `JWTRepo.Get` (jwt_repo.go:21-56).  The outer `none` stands for the
run-time panic of an out-of-range `tokenParts[1]`; `parse` is the rest of the method,
from `jwt.Parse` on, applied to that element. -/
def JWTRepo.Get (parse : String → Except SessionError Session) (accessToken : String) :
    Option (Except SessionError Session) :=
  match (splitSpace accessToken.data)[1]? with
  | none => none
  | some token => some (parse (String.mk token))

/-- The method `MySQLRepo.Get` (mysql_repo.go:25-51), in the same way; `query` is the
rest of the method, from the `QueryRow` on. -/
def MySQLRepo.Get (query : String → Except SessionError Session) (accessToken : String) :
    Option (Except SessionError Session) :=
  match (splitSpace accessToken.data)[1]? with
  | none => none
  | some token => some (query (String.mk token))

/-! ## createResponse (pkg/handlers/post.go:60-119)

A `float64` value that is finite and not negative is kept as a fraction of two natural
numbers whose denominator is a power of two.  The values that occur in `createResponse`
lie far inside the exponent range of `float64`, so only the rounding of the significand
to 53 bits is modelled, to nearest with ties to even. -/

/-- Number of binary digits of `n`, by halving; `fuel` bounds the number of steps. -/
def bitLength : Nat → Nat → Nat
  | 0, _ => 0
  | fuel + 1, n => if n = 0 then 0 else bitLength fuel (n / 2) + 1

/-- Number of binary digits of `n`: `0` for `0`, else the `a` with `2^(a-1) ≤ n < 2^a`. -/
def bits (n : Nat) : Nat :=
  bitLength n n

/-- The integer nearest to `n / d`, a tie going to the even one. -/
def roundDiv (n d : Nat) : Nat :=
  if 2 * (n % d) < d then n / d
  else if d < 2 * (n % d) then n / d + 1
  else if (n / d) % 2 = 0 then n / d else n / d + 1

/-- The conversion `float64(n)` of a non-negative integer: `n` itself below `2^53`, else
`n` rounded to 53 significant bits.  The result is again an integer. -/
def f64OfNat (n : Nat) : Nat :=
  if n < 2 ^ 53 then n
  else roundDiv n (2 ^ (bits n - 53)) * 2 ^ (bits n - 53)

/-- The `float64` nearest to the fraction `n / d`, as a fraction: the fraction is scaled
by a power of two into `[2^52, 2^53)`, rounded to an integer, and scaled back.  The
exponent is not bounded: the operands of the percentage, built from 64-bit counters, are
far from the overflow and the subnormal range of `float64`. -/
def roundFrac (n d : Nat) : Nat × Nat :=
  let su := (53 + bits d) - bits n
  let sd := bits n - (53 + bits d)
  let c := if n * 2 ^ su < d * 2 ^ sd * 2 ^ 53 then 1 else 2
  (roundDiv (n * 2 ^ su) (c * (d * 2 ^ sd)) * c * 2 ^ sd, 2 ^ su)

/-- The integer nearest to `n / d`, a tie going away from zero: `math.Round` on the
magnitude of a value. -/
def roundHalfAway (n d : Nat) : Nat :=
  (2 * n + d) / (2 * d)

/-- The magnitude of `math.Round(float64(a) / float64(s) * 100)` for integers of the
magnitudes `a` and `s`, with `s` not 0: the conversions, the division and the
multiplication each round to the nearest `float64`, and `math.Round` rounds the product
to an integer. -/
def roundedPercent (a s : Nat) : Nat :=
  let q := roundFrac (f64OfNat a) (f64OfNat s)
  let p := roundFrac (q.1 * 100) q.2
  roundHalfAway p.1 p.2

/-- The conversion `uint(v)` of a `float64` with an integer value, given by its sign and
its magnitude `r`, as the compiler lowers it for amd64: a value below `2^63` goes
through the signed conversion, so that a negative one comes out as `2^64 - r`; a value
from `2^63` on is converted after `2^63` is taken off; and the signed conversion of a
value out of its range gives the bit pattern `2^63`.  (The language leaves the result for
a value outside `uint` to the implementation.) -/
def uintOfFloat (negative : Bool) (r : Nat) : Nat :=
  if negative then
    if r ≤ 2 ^ 63 then (2 ^ 64 - r) % 2 ^ 64 else 2 ^ 63
  else
    if r < 2 ^ 64 then r else 2 ^ 63

/-- The field `UpvotePercentage` (post.go:77-81):
`uint(math.Round(float64(up) / float64(up+down) * 100))` when `up + down != 0`, else 0.
The sum `up + down` is that of `int` and wraps around.  The magnitude is computed on the
absolute values, division, multiplication and `math.Round` being symmetric; the value is
negative when `up` and `up + down` differ in sign. -/
def upvotePercentage (up down : GoInt) : Nat :=
  if up + down ≠ 0 then
    uintOfFloat (xor (decide (up.toInt < 0)) (decide ((up + down).toInt < 0)))
      (roundedPercent up.toInt.natAbs (up + down).toInt.natAbs)
  else 0

/-- The struct `Comment` (comment.go:13-18). -/
structure Comment where
  ID : String
  AuthorID : Nat
  CreateDate : String
  Body : String
  deriving DecidableEq, Repr

/-- The struct `CommentResponse` (post.go:33-38). -/
structure CommentResponse where
  ID : String
  Author : User
  CreateDate : String
  Body : String
  deriving DecidableEq, Repr

/-- The struct `PostResponse` (post.go:17-31). -/
structure PostResponse where
  ID : String
  Category : String
  CreateDate : String
  Text : String
  URL : String
  Title : String
  Type_ : String
  Score : GoInt
  UpvotePercentage : Nat
  Views : GoInt
  Votes : List Vote
  Comments : List CommentResponse
  Author : User
  deriving DecidableEq, Repr

/-- Go's `a < b` on strings, the lexicographic order of their bytes, which for UTF-8 is
the lexicographic order of their characters. -/
def charsLess : List Char → List Char → Bool
  | _, [] => false
  | [], _ :: _ => true
  | a :: as, b :: bs =>
    if a.toNat < b.toNat then true
    else if b.toNat < a.toNat then false
    else charsLess as bs

/-- The `less` function of the sort in `createResponse` (post.go:104-106). -/
def dateLess (a b : CommentResponse) : Bool :=
  charsLess a.CreateDate.data b.CreateDate.data

/-- One step of the stable sort: `c` is put in front of the first element that is not
less than it. -/
def insertByDate (c : CommentResponse) : List CommentResponse → List CommentResponse
  | [] => [c]
  | d :: ds => if dateLess d c then d :: insertByDate c ds else c :: d :: ds

/-- The standard library's `sort.SliceStable` with `dateLess`.  The result of a stable
sort does not depend on the algorithm; this one inserts from the right. -/
def sortStableByDate : List CommentResponse → List CommentResponse
  | [] => []
  | c :: cs => insertByDate c (sortStableByDate cs)

/-- The response built for one comment (post.go:90-99). -/
def commentResponse (c : Comment) (author : User) : CommentResponse :=
  { ID := c.ID, Author := { author with Password := "" }, CreateDate := c.CreateDate,
    Body := c.Body }

/-- The loop over `p.CommentIDs` in `createResponse` (post.go:84-102), with the two
repository lookups as parameters; the first failing lookup ends it. -/
def buildComments (getComment : String → Except GoError Comment)
    (getUser : Nat → Except GoError User) : List String → Except GoError (List CommentResponse)
  | [] => Except.ok []
  | id :: ids =>
    match getComment id with
    | Except.error e => Except.error e
    | Except.ok c =>
      match getUser c.AuthorID with
      | Except.error e => Except.error e
      | Except.ok u =>
        match buildComments getComment getUser ids with
        | Except.error e => Except.error e
        | Except.ok rest => Except.ok (commentResponse c u :: rest)

/-- The body of the loop over the posts in `createResponse` (post.go:63-116). -/
def createResponseOne (getComment : String → Except GoError Comment)
    (getUser : Nat → Except GoError User) (p : Post) : Except GoError PostResponse :=
  match buildComments getComment getUser p.CommentIDs with
  | Except.error e => Except.error e
  | Except.ok comments =>
    match getUser p.AuthorID with
    | Except.error e => Except.error e
    | Except.ok author =>
      Except.ok
        { ID := p.ID, Category := p.Category, CreateDate := p.CreateDate, Text := p.Text,
          URL := p.URL, Title := p.Title, Type_ := p.Type_, Views := p.Views, Votes := p.Votes,
          Score := p.UpvotesCount - p.DownvotesCount,
          UpvotePercentage := upvotePercentage p.UpvotesCount p.DownvotesCount,
          Comments := sortStableByDate comments,
          Author := { author with Password := "" } }

/-- The method `createResponse` (post.go:60-119). -/
def createResponse (getComment : String → Except GoError Comment)
    (getUser : Nat → Except GoError User) : List Post → Except GoError (List PostResponse)
  | [] => Except.ok []
  | p :: ps =>
    match createResponseOne getComment getUser p with
    | Except.error e => Except.error e
    | Except.ok r =>
      match createResponse getComment getUser ps with
      | Except.error e => Except.error e
      | Except.ok rs => Except.ok (r :: rs)

/-! ## Specification vocabulary -/

/-- Number of ledger entries carrying the value `val`. -/
def countValue (val : GoInt) (votes : List Vote) : Int :=
  ((votes.filter (fun v => v.Value = val)).length : Int)

/-- The counter invariant of the data model: each counter equals the number of
ledger entries of its kind. -/
def CountersMatch (p : Post) : Prop :=
  p.UpvotesCount.toInt = countValue Like p.Votes ∧
    p.DownvotesCount.toInt = countValue Unlike p.Votes

instance (p : Post) : Decidable (CountersMatch p) := by
  unfold CountersMatch; infer_instance

/-- The vote state of a post: its ledger and its two counters. -/
def voteState (p : Post) : List Vote × GoInt × GoInt :=
  (p.Votes, p.UpvotesCount, p.DownvotesCount)

/-- A post as a handler test would build it: id, author, ledger and counters given,
everything else fixed. -/
def mkPost (id : String) (author : Nat) (votes : List Vote) (up down : GoInt) : Post :=
  { ID := id, Category := "music", CreateDate := "2022-09-10T00:00:00Z", Text := "text",
    URL := "", Title := "title", Type_ := "self", Views := 0, Votes := votes,
    CommentIDs := [], AuthorID := author, UpvotesCount := up, DownvotesCount := down }

/-- The ledger condition of the data model: no two entries share a voter, and every
entry is `Like` or `Unlike`. -/
def LedgerOK (p : Post) : Prop :=
  (p.Votes.map (fun v => v.UserID)).Nodup ∧ ∀ v ∈ p.Votes, v.Value = Like ∨ v.Value = Unlike

/-- A post document as a repository test would build it: id, author, ledger and
counters given, everything else fixed. -/
def mkItem (id : ObjectID) (author : Nat) (votes : List Vote) (up down : GoInt) : Item :=
  { ID := id, Category := "music", CreateDate := "2022-09-10T00:00:00Z", Text := "text",
    URL := "", Title := "title", Type_ := "self", Views := 0, Votes := votes,
    CommentIDs := [], AuthorID := author, UpvotesCount := up, DownvotesCount := down }

/-- The object id spelled "5f1d7c3a9b2e4f6081a3c5e7". -/
def oidA : ObjectID :=
  { digits := [5, 15, 1, 13, 7, 12, 3, 10, 9, 11, 2, 14, 4, 15, 6, 0, 8, 1, 10, 3, 12, 5,
      14, 7] }

/-- The object id spelled "a1b2c3d4e5f6a7b8c9d0e1f2". -/
def oidB : ObjectID :=
  { digits := [10, 1, 11, 2, 12, 3, 13, 4, 14, 5, 15, 6, 10, 7, 11, 8, 12, 9, 13, 0, 14, 1,
      15, 2] }

/-- The spec's exchange of the two vote kinds on a value: `Like` and `Unlike` trade
places, any other value stays. -/
def swapValue (x : GoInt) : GoInt :=
  if x = Like then Unlike else if x = Unlike then Like else x

/-- The exchange on a ledger entry. -/
def swapVote (v : Vote) : Vote :=
  { v with Value := swapValue v.Value }

/-- The exchange on a post: every ledger entry is exchanged and the two counters
trade places. -/
def swapPost (p : Post) : Post :=
  { p with Votes := p.Votes.map swapVote,
           UpvotesCount := p.DownvotesCount,
           DownvotesCount := p.UpvotesCount }

/-- The exchange on a store: every post is exchanged. -/
def swapRepo (r : MemoryRepo) : MemoryRepo :=
  { r with posts := r.posts.map swapPost }

/-- The post `q` differs from `p` at most in `Votes`, `UpvotesCount` and
`DownvotesCount`: its ten other fields are those of `p`. -/
def SameFrame (p q : Post) : Prop :=
  q = { p with Votes := q.Votes, UpvotesCount := q.UpvotesCount,
               DownvotesCount := q.DownvotesCount }

/-- The store `s` is `r`, or it is `r` with one post of the given id replaced, at its
place, by a post that differs from it at most in the vote fields; the id counter, the
number and order of the posts and every other post are those of `r`. -/
def VoteFrame (r s : MemoryRepo) (postID : String) : Prop :=
  s = r ∨
    ∃ pre p q suf, r.posts = pre ++ p :: suf ∧
      s = { idCount := r.idCount, posts := pre ++ q :: suf } ∧ p.ID = postID ∧ SameFrame p q

/-- The number that a string of decimal digits spells, read from the left after `acc`. -/
def digitsValue (acc : Nat) (cs : List Char) : Nat :=
  cs.foldl (fun a c => a * 10 + (c.toNat - 48)) acc

/-- A comment store for examples: "c1" of user 3 dated 2022-09-12, "c2" of user 5 dated
2022-09-11, "c3" of user 3 dated 2022-09-12, and no other comment. -/
def sampleComments (id : String) : Except GoError Comment :=
  if id = "c1" then Except.ok ⟨"c1", 3, "2022-09-12", "first"⟩
  else if id = "c2" then Except.ok ⟨"c2", 5, "2022-09-11", "second"⟩
  else if id = "c3" then Except.ok ⟨"c3", 3, "2022-09-12", "third"⟩
  else Except.error (GoError.comment CommentError.ErrNotExist)

/-- A user store for examples: every id is known, with name "user" and a password. -/
def sampleUsers (id : Nat) : Except GoError User :=
  Except.ok ⟨id, "user", "secret"⟩

/-- A post for examples: post "1" of user 7 with the comment ids "c1", "c2", "c3". -/
def samplePost : Post :=
  { mkPost "1" 7 [⟨7, Like⟩] 1 0 with CommentIDs := ["c1", "c2", "c3"] }

/-- The response `createResponse` builds for `samplePost` over the example stores. -/
def sampleResponse : PostResponse :=
  { ID := "1", Category := samplePost.Category, CreateDate := samplePost.CreateDate,
    Text := samplePost.Text, URL := samplePost.URL, Title := samplePost.Title,
    Type_ := samplePost.Type_, Score := 1,
    UpvotePercentage := 100, Views := samplePost.Views, Votes := [⟨7, Like⟩],
    Comments :=
      [⟨"c2", ⟨5, "user", ""⟩, "2022-09-11", "second"⟩,
       ⟨"c1", ⟨3, "user", ""⟩, "2022-09-12", "first"⟩,
       ⟨"c3", ⟨3, "user", ""⟩, "2022-09-12", "third"⟩],
    Author := ⟨7, "user", ""⟩ }

/-- A post for examples with the counters 0 and 1. -/
def downPost : Post :=
  mkPost "3" 7 [⟨7, Unlike⟩] 0 1

/-- A post for examples as `Create` stores it when the post passed has the
`DownvotesCount` `MinInt64`: the counters are 1 and `MinInt64`. -/
def minPost : Post :=
  mkPost "4" 7 [⟨7, Like⟩] 1 MinInt64

/-- A post for examples with the counters `MaxInt64` and 1, whose sum wraps around. -/
def maxPost : Post :=
  mkPost "5" 7 [⟨7, Like⟩] MaxInt64 1

/-- The response `createResponse` builds for `downPost` over the example stores. -/
def downResponse : PostResponse :=
  { ID := "3", Category := downPost.Category, CreateDate := downPost.CreateDate,
    Text := downPost.Text, URL := downPost.URL, Title := downPost.Title,
    Type_ := downPost.Type_, Score := -1,
    UpvotePercentage := 0, Views := downPost.Views, Votes := [⟨7, Unlike⟩],
    Comments := [], Author := ⟨7, "user", ""⟩ }

/-- A post for examples whose ledger holds 23 `Like` entries, of the users 1 to 23, and 17
`Unlike` entries, of the users 24 to 40, with the counters 23 and 17. -/
def tiePost : Post :=
  mkPost "2" 7
    ((List.range 23).map (fun i => ⟨i + 1, Like⟩) ++
      (List.range 17).map (fun i => ⟨i + 24, Unlike⟩)) 23 17

/-- The spec's percentage: the rational `100 * up / (up + down)` rounded to the nearest
integer, a half going away from zero, for counters that are not negative. -/
def exactPercentage (up down : Nat) : Nat :=
  roundHalfAway (100 * up) (up + down)

/-! ## The arithmetic of `int` -/

theorem GoInt.ext {a b : GoInt} (h : a.toInt = b.toInt) : a = b := by
  cases a; cases b; simp only at h; subst h; rfl

theorem GoInt.toInt_add (a b : GoInt) : (a + b).toInt = wrapInt (a.toInt + b.toInt) := rfl

theorem GoInt.toInt_sub (a b : GoInt) : (a - b).toInt = wrapInt (a.toInt - b.toInt) := rfl

/-- A sum that fits in 64 bits is the exact sum. -/
theorem GoInt.toInt_add_exact (a b : GoInt)
    (h : -2 ^ 63 ≤ a.toInt + b.toInt ∧ a.toInt + b.toInt < 2 ^ 63) :
    (a + b).toInt = a.toInt + b.toInt := by
  rw [GoInt.toInt_add]
  unfold wrapInt
  omega

/-- A difference that fits in 64 bits is the exact difference. -/
theorem GoInt.toInt_sub_exact (a b : GoInt)
    (h : -2 ^ 63 ≤ a.toInt - b.toInt ∧ a.toInt - b.toInt < 2 ^ 63) :
    (a - b).toInt = a.toInt - b.toInt := by
  rw [GoInt.toInt_sub]
  unfold wrapInt
  omega

theorem GoInt.ne_iff (a b : GoInt) : a ≠ b ↔ a.toInt ≠ b.toInt :=
  ⟨fun h e => h (GoInt.ext e), fun h e => h (congrArg GoInt.toInt e)⟩

/-- Below `MaxInt64` the increment is exact. -/
theorem GoInt.toInt_add_one (a : GoInt) (h : a ≠ MaxInt64) : (a + 1).toInt = a.toInt + 1 := by
  have ha := a.inRange
  have h1 : a.toInt ≠ 2 ^ 63 - 1 := (GoInt.ne_iff a MaxInt64).1 h
  have h2 : (1 : GoInt).toInt = 1 := rfl
  rw [GoInt.toInt_add_exact a 1 (by rw [h2]; omega), h2]

/-- Above `MinInt64` the decrement is exact. -/
theorem GoInt.toInt_sub_one (a : GoInt) (h : a ≠ MinInt64) : (a - 1).toInt = a.toInt - 1 := by
  have ha := a.inRange
  have h1 : a.toInt ≠ -2 ^ 63 := (GoInt.ne_iff a MinInt64).1 h
  have h2 : (1 : GoInt).toInt = 1 := rfl
  rw [GoInt.toInt_sub_exact a 1 (by rw [h2]; omega), h2]

/-- The increment of `MaxInt64` is `MinInt64`. -/
theorem GoInt.max_add_one : MaxInt64 + 1 = MinInt64 := by decide

/-- The decrement of `MinInt64` is `MaxInt64`. -/
theorem GoInt.min_sub_one : MinInt64 - 1 = MaxInt64 := by decide

@[simp] theorem GoInt.add_sub_cancel_right (a b : GoInt) : a + b - b = a := by
  apply GoInt.ext
  have ha := a.inRange
  simp only [GoInt.toInt_add, GoInt.toInt_sub]
  unfold wrapInt
  omega

@[simp] theorem GoInt.sub_add_cancel (a b : GoInt) : a - b + b = a := by
  apply GoInt.ext
  have ha := a.inRange
  simp only [GoInt.toInt_add, GoInt.toInt_sub]
  unfold wrapInt
  omega

@[simp] theorem GoInt.add_zero (a : GoInt) : a + 0 = a := by
  apply GoInt.ext
  have ha := a.inRange
  have h0 : (0 : GoInt).toInt = 0 := rfl
  rw [GoInt.toInt_add, h0]
  unfold wrapInt
  omega

theorem GoInt.add_one_add_one (a : GoInt) : a + 1 + 1 = a + 2 := by
  apply GoInt.ext
  have h1 : (1 : GoInt).toInt = 1 := rfl
  have h2 : (2 : GoInt).toInt = 2 := rfl
  simp only [GoInt.toInt_add, h1, h2]
  unfold wrapInt
  omega

theorem GoInt.add_neg_one (a : GoInt) : a + -1 = a - 1 := by
  apply GoInt.ext
  have h1 : (1 : GoInt).toInt = 1 := rfl
  have h2 : (-1 : GoInt).toInt = -1 := rfl
  simp only [GoInt.toInt_add, GoInt.toInt_sub, h1, h2]
  rfl

@[simp] theorem GoInt.neg_one_ne_one : ((-1 : GoInt) = 1) = False := by decide

@[simp] theorem GoInt.one_ne_neg_one : ((1 : GoInt) = -1) = False := by decide

/-! ## Loop lemmas -/

theorem upvoteVotes_eq_none_iff (voter : Nat) (vs : List Vote) :
    upvoteVotes voter vs = none ↔ ∀ v ∈ vs, v.UserID ≠ voter := by
  induction vs with
  | nil => simp [upvoteVotes]
  | cons v vs ih =>
    by_cases h : v.UserID = voter
    · simp [upvoteVotes, h]
    · simp [upvoteVotes, h, ih]

theorem upvoteVotes_split (voter : Nat) (a b : List Vote) (v : Vote)
    (ha : ∀ w ∈ a, w.UserID ≠ voter) (hv : v.UserID = voter) :
    upvoteVotes voter (a ++ v :: b) = some (a ++ { v with Value := Like } :: b) := by
  induction a with
  | nil => simp [upvoteVotes, hv]
  | cons w a ih =>
    have hw : w.UserID ≠ voter := ha w (List.mem_cons_self _ _)
    have ih2 := ih (fun x hx => ha x (List.mem_cons_of_mem _ hx))
    simp [upvoteVotes, hw, ih2]

theorem downvoteVotes_eq_none_iff (voter : Nat) (vs : List Vote) :
    downvoteVotes voter vs = none ↔ ∀ v ∈ vs, v.UserID ≠ voter := by
  induction vs with
  | nil => simp [downvoteVotes]
  | cons v vs ih =>
    by_cases h : v.UserID = voter
    · simp [downvoteVotes, h]
    · simp [downvoteVotes, h, ih]

theorem downvoteVotes_split (voter : Nat) (a b : List Vote) (v : Vote)
    (ha : ∀ w ∈ a, w.UserID ≠ voter) (hv : v.UserID = voter) :
    downvoteVotes voter (a ++ v :: b) = some (a ++ { v with Value := Unlike } :: b) := by
  induction a with
  | nil => simp [downvoteVotes, hv]
  | cons w a ih =>
    have hw : w.UserID ≠ voter := ha w (List.mem_cons_self _ _)
    have ih2 := ih (fun x hx => ha x (List.mem_cons_of_mem _ hx))
    simp [downvoteVotes, hw, ih2]

theorem unvoteVotes_eq_none_iff (voter : Nat) (vs : List Vote) (up down : GoInt) :
    unvoteVotes voter vs up down = none ↔ ∀ v ∈ vs, v.UserID ≠ voter := by
  induction vs with
  | nil => simp [unvoteVotes]
  | cons v vs ih =>
    by_cases h : v.UserID = voter
    · by_cases hl : v.Value = Like <;> simp [unvoteVotes, h, hl]
    · simp [unvoteVotes, h, ih]

theorem unvoteVotes_split (voter : Nat) (a b : List Vote) (v : Vote) (up down : GoInt)
    (ha : ∀ w ∈ a, w.UserID ≠ voter) (hv : v.UserID = voter) :
    unvoteVotes voter (a ++ v :: b) up down =
      some (a ++ b, if v.Value = Like then up - 1 else up,
        if v.Value = Like then down else down - 1) := by
  induction a with
  | nil => by_cases hl : v.Value = Like <;> simp [unvoteVotes, hv, hl]
  | cons w a ih =>
    have hw : w.UserID ≠ voter := ha w (List.mem_cons_self _ _)
    have ih2 := ih (fun x hx => ha x (List.mem_cons_of_mem _ hx))
    simp [unvoteVotes, hw, ih2]

theorem upvotePosts_eq_none_iff (postID : String) (voter : Nat) (ps : List Post) :
    upvotePosts postID voter ps = none ↔ ∀ p ∈ ps, p.ID ≠ postID := by
  induction ps with
  | nil => simp [upvotePosts]
  | cons p ps ih =>
    by_cases h : p.ID = postID
    · simp [upvotePosts, h]
    · simp [upvotePosts, h, ih]

theorem upvotePosts_split (postID : String) (voter : Nat) (pre suf : List Post) (p : Post)
    (hpre : ∀ q ∈ pre, q.ID ≠ postID) (hp : p.ID = postID) :
    upvotePosts postID voter (pre ++ p :: suf) = some (pre ++ upvotePost p voter :: suf) := by
  induction pre with
  | nil => simp [upvotePosts, hp]
  | cons q pre ih =>
    have hq : q.ID ≠ postID := hpre q (List.mem_cons_self _ _)
    have ih2 := ih (fun x hx => hpre x (List.mem_cons_of_mem _ hx))
    simp [upvotePosts, hq, ih2]

theorem downvotePosts_eq_none_iff (postID : String) (voter : Nat) (ps : List Post) :
    downvotePosts postID voter ps = none ↔ ∀ p ∈ ps, p.ID ≠ postID := by
  induction ps with
  | nil => simp [downvotePosts]
  | cons p ps ih =>
    by_cases h : p.ID = postID
    · simp [downvotePosts, h]
    · simp [downvotePosts, h, ih]

theorem downvotePosts_split (postID : String) (voter : Nat) (pre suf : List Post) (p : Post)
    (hpre : ∀ q ∈ pre, q.ID ≠ postID) (hp : p.ID = postID) :
    downvotePosts postID voter (pre ++ p :: suf) =
      some (pre ++ downvotePost p voter :: suf) := by
  induction pre with
  | nil => simp [downvotePosts, hp]
  | cons q pre ih =>
    have hq : q.ID ≠ postID := hpre q (List.mem_cons_self _ _)
    have ih2 := ih (fun x hx => hpre x (List.mem_cons_of_mem _ hx))
    simp [downvotePosts, hq, ih2]

theorem unvotePost_eq_none_iff (p : Post) (voter : Nat) :
    unvotePost p voter = none ↔ ∀ v ∈ p.Votes, v.UserID ≠ voter := by
  simp [unvotePost, unvoteVotes_eq_none_iff]

theorem unvotePosts_eq_none_iff (postID : String) (voter : Nat) (ps : List Post) :
    unvotePosts postID voter ps = none ↔
      ∀ p ∈ ps, p.ID = postID → ∀ v ∈ p.Votes, v.UserID ≠ voter := by
  induction ps with
  | nil => simp [unvotePosts]
  | cons p ps ih =>
    by_cases h : p.ID = postID
    · cases hu : unvotePost p voter with
      | none =>
        have hn := (unvotePost_eq_none_iff p voter).1 hu
        simp [unvotePosts, h, hu, ih]
        intro _
        exact hn
      | some q =>
        have hne : ¬ ∀ v ∈ p.Votes, v.UserID ≠ voter := by
          intro hall
          rw [(unvotePost_eq_none_iff p voter).2 hall] at hu
          exact Option.noConfusion hu
        simp [unvotePosts, h, hu]
        intro hall
        exact absurd hall hne
    · simp [unvotePosts, h, ih]

theorem unvotePosts_split (postID : String) (voter : Nat) (pre suf : List Post) (p q : Post)
    (hpre : ∀ x ∈ pre, x.ID ≠ postID) (hp : p.ID = postID)
    (hq : unvotePost p voter = some q) :
    unvotePosts postID voter (pre ++ p :: suf) = some (pre ++ q :: suf) := by
  induction pre with
  | nil => simp [unvotePosts, hp, hq]
  | cons x pre ih =>
    have hx : x.ID ≠ postID := hpre x (List.mem_cons_self _ _)
    have ih2 := ih (fun y hy => hpre y (List.mem_cons_of_mem _ hy))
    simp [unvotePosts, hx, ih2]

/-! ## Upvote and Downvote on a post found by the scan -/

theorem upvotePost_fresh (p : Post) (voter : Nat) (hno : ∀ v ∈ p.Votes, v.UserID ≠ voter) :
    upvotePost p voter =
      { p with Votes := p.Votes ++ [{ UserID := voter, Value := Like }],
               UpvotesCount := p.UpvotesCount + 1 } := by
  simp [upvotePost, (upvoteVotes_eq_none_iff voter p.Votes).2 hno]

theorem downvotePost_fresh (p : Post) (voter : Nat) (hno : ∀ v ∈ p.Votes, v.UserID ≠ voter) :
    downvotePost p voter =
      { p with Votes := p.Votes ++ [{ UserID := voter, Value := Unlike }],
               DownvotesCount := p.DownvotesCount + 1 } := by
  simp [downvotePost, (downvoteVotes_eq_none_iff voter p.Votes).2 hno]

theorem upvotePost_found (p : Post) (a b : List Vote) (v : Vote)
    (hvotes : p.Votes = a ++ v :: b) (ha : ∀ w ∈ a, w.UserID ≠ v.UserID) :
    upvotePost p v.UserID =
      { p with Votes := a ++ { UserID := v.UserID, Value := Like } :: b,
               UpvotesCount := p.UpvotesCount + 1,
               DownvotesCount := p.DownvotesCount - 1 } := by
  simp [upvotePost, hvotes, upvoteVotes_split v.UserID a b v ha rfl]

theorem unvotePost_found (p : Post) (a b : List Vote) (v : Vote)
    (hvotes : p.Votes = a ++ v :: b) (ha : ∀ w ∈ a, w.UserID ≠ v.UserID) :
    unvotePost p v.UserID =
      some { p with Votes := a ++ b,
                    UpvotesCount := if v.Value = Like then p.UpvotesCount - 1 else p.UpvotesCount,
                    DownvotesCount :=
                      if v.Value = Like then p.DownvotesCount else p.DownvotesCount - 1 } := by
  simp [unvotePost, hvotes, unvoteVotes_split v.UserID a b v _ _ ha rfl]

theorem Upvote_found (n : Nat) (pre suf : List Post) (p : Post) (voter : Nat)
    (hpre : ∀ q ∈ pre, q.ID ≠ p.ID) :
    (MemoryRepo.mk n (pre ++ p :: suf)).Upvote p.ID voter =
      (MemoryRepo.mk n (pre ++ upvotePost p voter :: suf), none) := by
  simp [MemoryRepo.Upvote, upvotePosts_split p.ID voter pre suf p hpre rfl]

theorem Downvote_found (n : Nat) (pre suf : List Post) (p : Post) (voter : Nat)
    (hpre : ∀ q ∈ pre, q.ID ≠ p.ID) :
    (MemoryRepo.mk n (pre ++ p :: suf)).Downvote p.ID voter =
      (MemoryRepo.mk n (pre ++ downvotePost p voter :: suf), none) := by
  simp [MemoryRepo.Downvote, downvotePosts_split p.ID voter pre suf p hpre rfl]

theorem Unvote_found (n : Nat) (pre suf : List Post) (p q : Post) (voter : Nat)
    (hpre : ∀ x ∈ pre, x.ID ≠ p.ID) (hq : unvotePost p voter = some q) :
    (MemoryRepo.mk n (pre ++ p :: suf)).Unvote p.ID voter =
      (MemoryRepo.mk n (pre ++ q :: suf), none) := by
  simp [MemoryRepo.Unvote, unvotePosts_split p.ID voter pre suf p q hpre rfl hq]

/-! ## The mirror between Upvote and Downvote -/

theorem swapValue_swapValue (x : GoInt) : swapValue (swapValue x) = x := by
  by_cases h1 : x = 1
  · subst h1; decide
  · by_cases h2 : x = -1
    · subst h2; decide
    · simp [swapValue, Like, Unlike, h1, h2]

theorem swapVote_swapVote (v : Vote) : swapVote (swapVote v) = v := by
  simp [swapVote, swapValue_swapValue]

theorem swapVote_comp_swapVote : swapVote ∘ swapVote = id :=
  funext swapVote_swapVote

theorem map_swapVote_swapVote (vs : List Vote) : (vs.map swapVote).map swapVote = vs := by
  simp [swapVote_comp_swapVote]

theorem swapPost_swapPost (p : Post) : swapPost (swapPost p) = p := by
  simp [swapPost, swapVote_comp_swapVote]

theorem swapPost_comp_swapPost : swapPost ∘ swapPost = id :=
  funext swapPost_swapPost

theorem map_swapPost_swapPost (ps : List Post) : (ps.map swapPost).map swapPost = ps := by
  simp [swapPost_comp_swapPost]

theorem upvoteVotes_swap (voter : Nat) (vs : List Vote) :
    upvoteVotes voter (vs.map swapVote) =
      (downvoteVotes voter vs).map (fun r => r.map swapVote) := by
  induction vs with
  | nil => simp [upvoteVotes, downvoteVotes]
  | cons v vs ih =>
    by_cases h : v.UserID = voter
    · simp [upvoteVotes, downvoteVotes, swapVote, swapValue, h, Like, Unlike]
    · cases hd : downvoteVotes voter vs <;>
        simp [upvoteVotes, downvoteVotes, swapVote, h, ih, hd]

theorem swapPost_upvotePost_swapPost (p : Post) (voter : Nat) :
    swapPost (upvotePost (swapPost p) voter) = downvotePost p voter := by
  have hs : upvoteVotes voter (p.Votes.map swapVote) =
      (downvoteVotes voter p.Votes).map (fun r => r.map swapVote) := upvoteVotes_swap voter p.Votes
  cases hd : downvoteVotes voter p.Votes with
  | none =>
    simp [upvotePost, downvotePost, swapPost, hs, hd, swapVote_comp_swapVote, swapVote,
      swapValue, Like, Unlike]
  | some vs =>
    simp [upvotePost, downvotePost, swapPost, hs, hd, swapVote_comp_swapVote]

theorem upvotePosts_swap (postID : String) (voter : Nat) (ps : List Post) :
    (upvotePosts postID voter (ps.map swapPost)).map (fun r => r.map swapPost) =
      downvotePosts postID voter ps := by
  induction ps with
  | nil => simp [upvotePosts, downvotePosts]
  | cons p ps ih =>
    by_cases h : p.ID = postID
    · have hswap : (swapPost p).ID = postID := h
      simp only [List.map_cons, upvotePosts, downvotePosts, hswap, h, ne_eq, not_true_eq_false,
        if_false, Option.map_some', swapPost_upvotePost_swapPost, map_swapPost_swapPost]
    · have hswap : (swapPost p).ID ≠ postID := h
      have hne : p.ID ≠ postID := h
      simp only [List.map_cons, upvotePosts, downvotePosts]
      rw [← ih]
      cases hu : upvotePosts postID voter (ps.map swapPost) <;>
        simp [swapPost_swapPost, hswap, hne]

/-! ## Claims about the vote operations of the in-memory store -/

/-- C1 (the invariant is broken by the code): starting from `NewMemoryRepo`, author 7
creates a post and then upvotes it.  `Create` leaves ledger `[{7, Like}]` with
counters (1, 0), where the invariant holds; the `Upvote` finds the author's entry,
rewrites it to `Like` and moves both counters, leaving the same ledger with counters
(2, -1), so neither counter equals the number of ledger entries of its kind. -/
theorem C1_author_upvote_breaks_counters :
    (NewMemoryRepo.Create (mkPost "" 7 [] 0 0) "2022-09-10T00:00:00Z")
        = (MemoryRepo.mk 1 [mkPost "1" 7 [⟨7, Like⟩] 1 0], "1") ∧
      CountersMatch (mkPost "1" 7 [⟨7, Like⟩] 1 0) ∧
      (MemoryRepo.mk 1 [mkPost "1" 7 [⟨7, Like⟩] 1 0]).Upvote "1" 7
        = (MemoryRepo.mk 1 [mkPost "1" 7 [⟨7, Like⟩] 2 (-1)], none) ∧
      ¬ CountersMatch (mkPost "1" 7 [⟨7, Like⟩] 2 (-1)) ∧
      countValue Like [⟨7, Like⟩] = 1 ∧ countValue Unlike [⟨7, Like⟩] = 0 := by
  decide

/-- C2 (re-upvoting is not a no-op in the code): voter 3 already holds a `Like` entry
in a post with ledger `[{7, Like}, {3, Like}]` and counters (2, 0).  `Upvote` returns
nil and keeps the ledger, but the counters become (3, -1). -/
theorem C2_reupvote_moves_counters :
    (MemoryRepo.mk 1 [mkPost "1" 7 [⟨7, Like⟩, ⟨3, Like⟩] 2 0]).Upvote "1" 3
      = (MemoryRepo.mk 1 [mkPost "1" 7 [⟨7, Like⟩, ⟨3, Like⟩] 3 (-1)], none) := by
  decide

/-- C3 (upvoting twice differs from upvoting once in the code): on a post with ledger
`[{7, Like}]` and counters (1, 0), one `Upvote` by voter 3 gives ledger
`[{7, Like}, {3, Like}]` with counters (2, 0); a second one gives the same ledger with
counters (3, -1). -/
theorem C3_second_upvote_moves_counters :
    ((MemoryRepo.mk 1 [mkPost "1" 7 [⟨7, Like⟩] 1 0]).Upvote "1" 3).1.posts.map voteState
        = [([⟨7, Like⟩, ⟨3, Like⟩], 2, 0)] ∧
      (((MemoryRepo.mk 1 [mkPost "1" 7 [⟨7, Like⟩] 1 0]).Upvote "1" 3).1.Upvote "1" 3).1.posts.map
          voteState
        = [([⟨7, Like⟩, ⟨3, Like⟩], 3, -1)] ∧
      ((MemoryRepo.mk 1 [mkPost "1" 7 [⟨7, Like⟩] 1 0]).Upvote "1" 3).1.Upvote "1" 3
        ≠ (MemoryRepo.mk 1 [mkPost "1" 7 [⟨7, Like⟩] 1 0]).Upvote "1" 3 := by
  decide

/-- C4 as stated fails when the counter is `MaxInt64`.  `Create` keeps the
`DownvotesCount` of the post it is given, so `Create` of a post with
`DownvotesCount = MaxInt64` stores post "1" with the counters (1, `MaxInt64`) and no entry
of voter 3; `Downvote` by voter 3 then appends `{3, Unlike}` and leaves
`DownvotesCount = MinInt64 = -2^63`, not `MaxInt64 + 1 = 2^63`. -/
theorem C4_downvote_wraps_at_max :
    Reachable ((NewMemoryRepo.Create (mkPost "" 7 [] 0 MaxInt64) "t").1.Downvote "1" 3).1 ∧
      (NewMemoryRepo.Create (mkPost "" 7 [] 0 MaxInt64) "t").1.posts.map
          (fun q => (q.ID, voteState q)) = [("1", [⟨7, Like⟩], 1, MaxInt64)] ∧
      ((NewMemoryRepo.Create (mkPost "" 7 [] 0 MaxInt64) "t").1.Downvote "1" 3).2 = none ∧
      ((NewMemoryRepo.Create (mkPost "" 7 [] 0 MaxInt64) "t").1.Downvote "1" 3).1.posts.map
          (fun q => (q.ID, voteState q)) = [("1", [⟨7, Like⟩, ⟨3, Unlike⟩], 1, MinInt64)] ∧
      MinInt64.toInt = -2 ^ 63 ∧ MaxInt64.toInt + 1 = 2 ^ 63 :=
  ⟨Reachable.downvote _ _ _ (Reachable.create _ _ _ Reachable.init), by decide, by decide,
    by decide, by decide, by decide⟩

/-- C4 (amended): when `p` is the first stored post with its id and its ledger has no entry
for `voter`, `Upvote` returns nil and replaces `p` by `p` with `{voter, Like}` appended to
the ledger and `UpvotesCount + 1` for `UpvotesCount`, and `Downvote` returns nil and
replaces `p` by `p` with `{voter, Unlike}` appended and `DownvotesCount + 1` for
`DownvotesCount`; every other field, every earlier ledger entry and every other post stay
as they were.  The sum is that of `int`: it is the counter plus 1 unless the counter is
`MaxInt64`, and then it is `MinInt64`. -/
theorem C4_first_vote_appends (n : Nat) (pre suf : List Post) (p : Post) (voter : Nat)
    (hpre : ∀ q ∈ pre, q.ID ≠ p.ID) (hno : ∀ v ∈ p.Votes, v.UserID ≠ voter) :
    (MemoryRepo.mk n (pre ++ p :: suf)).Upvote p.ID voter =
        (MemoryRepo.mk n
          (pre ++ { p with Votes := p.Votes ++ [{ UserID := voter, Value := Like }],
                           UpvotesCount := p.UpvotesCount + 1 } :: suf), none) ∧
      (MemoryRepo.mk n (pre ++ p :: suf)).Downvote p.ID voter =
        (MemoryRepo.mk n
          (pre ++ { p with Votes := p.Votes ++ [{ UserID := voter, Value := Unlike }],
                           DownvotesCount := p.DownvotesCount + 1 } :: suf), none) ∧
      (p.UpvotesCount ≠ MaxInt64 → (p.UpvotesCount + 1).toInt = p.UpvotesCount.toInt + 1) ∧
      (p.UpvotesCount = MaxInt64 → p.UpvotesCount + 1 = MinInt64) ∧
      (p.DownvotesCount ≠ MaxInt64 →
        (p.DownvotesCount + 1).toInt = p.DownvotesCount.toInt + 1) ∧
      (p.DownvotesCount = MaxInt64 → p.DownvotesCount + 1 = MinInt64) := by
  refine ⟨?_, ?_, GoInt.toInt_add_one _, ?_, GoInt.toInt_add_one _, ?_⟩
  · rw [Upvote_found n pre suf p voter hpre, upvotePost_fresh p voter hno]
  · rw [Downvote_found n pre suf p voter hpre, downvotePost_fresh p voter hno]
  · intro h
    rw [h]
    exact GoInt.max_add_one
  · intro h
    rw [h]
    exact GoInt.max_add_one

/-- C4 at Scenario B: in a store holding post "1" and then post "2" with ledger
`[{7, Like}]` and counters (1, 0), voter 3 downvoting post "2" gives ledger
`[{7, Like}, {3, Unlike}]` with counters (1, 1). -/
theorem C4_scenario_B :
    (∀ q ∈ [mkPost "1" 5 [⟨5, Like⟩] 1 0], q.ID ≠ (mkPost "2" 7 [⟨7, Like⟩] 1 0).ID) ∧
      (∀ v ∈ (mkPost "2" 7 [⟨7, Like⟩] 1 0).Votes, v.UserID ≠ 3) ∧
      (MemoryRepo.mk 2 [mkPost "1" 5 [⟨5, Like⟩] 1 0, mkPost "2" 7 [⟨7, Like⟩] 1 0]).Downvote "2" 3
        = (MemoryRepo.mk 2
            [mkPost "1" 5 [⟨5, Like⟩] 1 0, mkPost "2" 7 [⟨7, Like⟩, ⟨3, Unlike⟩] 1 1], none) :=
  ⟨by decide, by decide,
    (C4_first_vote_appends 2 [mkPost "1" 5 [⟨5, Like⟩] 1 0] [] (mkPost "2" 7 [⟨7, Like⟩] 1 0) 3
      (by decide) (by decide)).2.1⟩

/-- C5 as stated fails when `DownvotesCount` is `MinInt64`.  After `Create` of a post
with `DownvotesCount = MinInt64`, `Downvote` by voter 3 and `Upvote` by the author 7, the
store holds post "1" with the ledger `[{7, Like}, {3, Unlike}]` and the counters
(2, `MinInt64`); `Upvote` by voter 3 then rewrites the entry to `Like` and leaves
`DownvotesCount = MaxInt64 = 2^63 - 1`, not `MinInt64 - 1`. -/
theorem C5_upvote_wraps_at_min :
    Reachable ((((NewMemoryRepo.Create (mkPost "" 7 [] 0 MinInt64) "t").1.Downvote "1" 3).1.Upvote
        "1" 7).1.Upvote "1" 3).1 ∧
      (((NewMemoryRepo.Create (mkPost "" 7 [] 0 MinInt64) "t").1.Downvote "1" 3).1.Upvote
          "1" 7).1.posts.map (fun q => (q.ID, voteState q))
        = [("1", [⟨7, Like⟩, ⟨3, Unlike⟩], 2, MinInt64)] ∧
      ((((NewMemoryRepo.Create (mkPost "" 7 [] 0 MinInt64) "t").1.Downvote "1" 3).1.Upvote
          "1" 7).1.Upvote "1" 3).2 = none ∧
      ((((NewMemoryRepo.Create (mkPost "" 7 [] 0 MinInt64) "t").1.Downvote "1" 3).1.Upvote
          "1" 7).1.Upvote "1" 3).1.posts.map (fun q => (q.ID, voteState q))
        = [("1", [⟨7, Like⟩, ⟨3, Like⟩], 3, MaxInt64)] ∧
      MaxInt64.toInt = 2 ^ 63 - 1 ∧ MinInt64.toInt - 1 = -2 ^ 63 - 1 :=
  ⟨Reachable.upvote _ _ _ (Reachable.upvote _ _ _
      (Reachable.downvote _ _ _ (Reachable.create _ _ _ Reachable.init))),
    by decide, by decide, by decide, by decide, by decide⟩

/-- C5 (amended): when `p` is the first stored post with its id and `v` is the first ledger
entry of its voter, with value `Unlike`, `Upvote` returns nil and replaces `p` by `p` with
that entry rewritten in place to `Like`, `UpvotesCount + 1` for `UpvotesCount` and
`DownvotesCount - 1` for `DownvotesCount`.  The ledger keeps its length, the entries
before and after stay as they were, and the ledger then counts one more `Like` and one
fewer `Unlike`.  The sum and the difference are those of `int`: the counter plus 1 unless
it is `MaxInt64`, which gives `MinInt64`, and the counter minus 1 unless it is `MinInt64`,
which gives `MaxInt64`. -/
theorem C5_upvote_flips_down_entry (n : Nat) (pre suf : List Post) (p : Post)
    (a b : List Vote) (v : Vote)
    (hpre : ∀ q ∈ pre, q.ID ≠ p.ID) (hvotes : p.Votes = a ++ v :: b)
    (ha : ∀ w ∈ a, w.UserID ≠ v.UserID) (hval : v.Value = Unlike) :
    (MemoryRepo.mk n (pre ++ p :: suf)).Upvote p.ID v.UserID =
        (MemoryRepo.mk n
          (pre ++ { p with Votes := a ++ { UserID := v.UserID, Value := Like } :: b,
                           UpvotesCount := p.UpvotesCount + 1,
                           DownvotesCount := p.DownvotesCount - 1 } :: suf), none) ∧
      (a ++ { UserID := v.UserID, Value := Like } :: b).length = p.Votes.length ∧
      countValue Like (a ++ { UserID := v.UserID, Value := Like } :: b)
        = countValue Like p.Votes + 1 ∧
      countValue Unlike (a ++ { UserID := v.UserID, Value := Like } :: b)
        = countValue Unlike p.Votes - 1 ∧
      (p.UpvotesCount ≠ MaxInt64 → (p.UpvotesCount + 1).toInt = p.UpvotesCount.toInt + 1) ∧
      (p.UpvotesCount = MaxInt64 → p.UpvotesCount + 1 = MinInt64) ∧
      (p.DownvotesCount ≠ MinInt64 →
        (p.DownvotesCount - 1).toInt = p.DownvotesCount.toInt - 1) ∧
      (p.DownvotesCount = MinInt64 → p.DownvotesCount - 1 = MaxInt64) := by
  refine ⟨?_, ?_, ?_, ?_, GoInt.toInt_add_one _, ?_, GoInt.toInt_sub_one _, ?_⟩
  · rw [Upvote_found n pre suf p v.UserID hpre, upvotePost_found p a b v hvotes ha]
  · simp [hvotes]
  · simp [countValue, hvotes, List.filter_cons, hval, Like, Unlike]
    omega
  · simp [countValue, hvotes, List.filter_cons, hval, Like, Unlike]
    omega
  · intro h
    rw [h]
    exact GoInt.max_add_one
  · intro h
    rw [h]
    exact GoInt.min_sub_one

/-- C5 on a concrete store: voter 3 holds `{3, Unlike}` in post "2" with ledger
`[{7, Like}, {3, Unlike}, {9, Like}]` and counters (2, 1); upvoting gives ledger
`[{7, Like}, {3, Like}, {9, Like}]` with counters (3, 0). -/
theorem C5_flip_example :
    (MemoryRepo.mk 2
        [mkPost "1" 5 [⟨5, Like⟩] 1 0,
         mkPost "2" 7 [⟨7, Like⟩, ⟨3, Unlike⟩, ⟨9, Like⟩] 2 1]).Upvote "2" 3
      = (MemoryRepo.mk 2
          [mkPost "1" 5 [⟨5, Like⟩] 1 0,
           mkPost "2" 7 [⟨7, Like⟩, ⟨3, Like⟩, ⟨9, Like⟩] 3 0], none) :=
  (C5_upvote_flips_down_entry 2 [mkPost "1" 5 [⟨5, Like⟩] 1 0] []
    (mkPost "2" 7 [⟨7, Like⟩, ⟨3, Unlike⟩, ⟨9, Like⟩] 2 1) [⟨7, Like⟩] [⟨9, Like⟩] ⟨3, Unlike⟩
    (by decide) rfl (by decide) rfl).1

/-- C6: `Downvote` is `Upvote` seen through the exchange of the two vote kinds: for
every store, id and voter, `Downvote` gives the exchanged result of `Upvote` on the
exchanged store, with the same error. -/
theorem C6_downvote_mirrors_upvote (r : MemoryRepo) (postID : String) (voter : Nat) :
    r.Downvote postID voter =
      (swapRepo ((swapRepo r).Upvote postID voter).1, ((swapRepo r).Upvote postID voter).2) := by
  have h := upvotePosts_swap postID voter r.posts
  cases hu : upvotePosts postID voter (r.posts.map swapPost) with
  | none =>
    rw [hu] at h
    have hd : downvotePosts postID voter r.posts = none := by simpa using h.symm
    simp [MemoryRepo.Downvote, MemoryRepo.Upvote, swapRepo, hu, hd, swapPost_comp_swapPost]
  | some ps =>
    rw [hu] at h
    have hd : downvotePosts postID voter r.posts = some (ps.map swapPost) := by
      simpa using h.symm
    simp [MemoryRepo.Downvote, MemoryRepo.Upvote, swapRepo, hu, hd]

/-- C7: `Upvote` returns `ErrNotExist` exactly when no stored post has the id, and then
the store it leaves is the store it was given; the same holds for `Downvote`. -/
theorem C7_vote_not_found (r : MemoryRepo) (postID : String) (voter : Nat) :
    (((r.Upvote postID voter).2 = some PostError.ErrNotExist ↔ ∀ p ∈ r.posts, p.ID ≠ postID) ∧
        ((r.Upvote postID voter).2 = some PostError.ErrNotExist →
          (r.Upvote postID voter).1 = r)) ∧
      (((r.Downvote postID voter).2 = some PostError.ErrNotExist ↔
          ∀ p ∈ r.posts, p.ID ≠ postID) ∧
        ((r.Downvote postID voter).2 = some PostError.ErrNotExist →
          (r.Downvote postID voter).1 = r)) := by
  have hu := upvotePosts_eq_none_iff postID voter r.posts
  have hd := downvotePosts_eq_none_iff postID voter r.posts
  constructor
  · cases h : upvotePosts postID voter r.posts with
    | none =>
      have hall := hu.1 h
      simp [MemoryRepo.Upvote, h]
      exact hall
    | some ps =>
      have hne : ¬ ∀ p ∈ r.posts, p.ID ≠ postID := by
        intro hall
        rw [hu.2 hall] at h
        exact Option.noConfusion h
      simp [MemoryRepo.Upvote, h]
      simpa using hne
  · cases h : downvotePosts postID voter r.posts with
    | none =>
      have hall := hd.1 h
      simp [MemoryRepo.Downvote, h]
      exact hall
    | some ps =>
      have hne : ¬ ∀ p ∈ r.posts, p.ID ≠ postID := by
        intro hall
        rw [hd.2 hall] at h
        exact Option.noConfusion h
      simp [MemoryRepo.Downvote, h]
      simpa using hne

/-- C8 as stated fails when the counter is `MinInt64`.  After `Create` of a post with
`DownvotesCount = MinInt64`, `Downvote` by voter 3 and `Upvote` by the author 7, the store
holds post "1" with the ledger `[{7, Like}, {3, Unlike}]` and the counters
(2, `MinInt64`); `Unvote` by voter 3 then removes `{3, Unlike}` and leaves
`DownvotesCount = MaxInt64 = 2^63 - 1`, not `MinInt64 - 1`. -/
theorem C8_unvote_wraps_at_min :
    Reachable ((((NewMemoryRepo.Create (mkPost "" 7 [] 0 MinInt64) "t").1.Downvote "1" 3).1.Upvote
        "1" 7).1.Unvote "1" 3).1 ∧
      (((NewMemoryRepo.Create (mkPost "" 7 [] 0 MinInt64) "t").1.Downvote "1" 3).1.Upvote
          "1" 7).1.posts.map (fun q => (q.ID, voteState q))
        = [("1", [⟨7, Like⟩, ⟨3, Unlike⟩], 2, MinInt64)] ∧
      ((((NewMemoryRepo.Create (mkPost "" 7 [] 0 MinInt64) "t").1.Downvote "1" 3).1.Upvote
          "1" 7).1.Unvote "1" 3).2 = none ∧
      ((((NewMemoryRepo.Create (mkPost "" 7 [] 0 MinInt64) "t").1.Downvote "1" 3).1.Upvote
          "1" 7).1.Unvote "1" 3).1.posts.map (fun q => (q.ID, voteState q))
        = [("1", [⟨7, Like⟩], 2, MaxInt64)] ∧
      MaxInt64.toInt = 2 ^ 63 - 1 ∧ MinInt64.toInt - 1 = -2 ^ 63 - 1 :=
  ⟨Reachable.unvote _ _ _ (Reachable.upvote _ _ _
      (Reachable.downvote _ _ _ (Reachable.create _ _ _ Reachable.init))),
    by decide, by decide, by decide, by decide, by decide⟩

/-- C8 (amended): when `p` is the first stored post with its id and `v` is the first ledger
entry of its voter, `Unvote` returns nil and replaces `p` by `p` with exactly that entry
removed, the entries before and after it kept in order; `UpvotesCount` becomes
`UpvotesCount - 1` and `DownvotesCount` is unchanged when the removed entry is `Like`, and
`DownvotesCount` becomes `DownvotesCount - 1` and `UpvotesCount` is unchanged when it is
`Unlike`.  The difference is that of `int`: the counter minus 1 unless it is `MinInt64`,
which gives `MaxInt64`. -/
theorem C8_unvote_removes_entry (n : Nat) (pre suf : List Post) (p : Post)
    (a b : List Vote) (v : Vote)
    (hpre : ∀ q ∈ pre, q.ID ≠ p.ID) (hvotes : p.Votes = a ++ v :: b)
    (ha : ∀ w ∈ a, w.UserID ≠ v.UserID) :
    (v.Value = Like →
        (MemoryRepo.mk n (pre ++ p :: suf)).Unvote p.ID v.UserID =
          (MemoryRepo.mk n
            (pre ++ { p with Votes := a ++ b, UpvotesCount := p.UpvotesCount - 1 } :: suf),
            none)) ∧
      (v.Value = Unlike →
        (MemoryRepo.mk n (pre ++ p :: suf)).Unvote p.ID v.UserID =
          (MemoryRepo.mk n
            (pre ++ { p with Votes := a ++ b, DownvotesCount := p.DownvotesCount - 1 } :: suf),
            none)) ∧
      (p.UpvotesCount ≠ MinInt64 → (p.UpvotesCount - 1).toInt = p.UpvotesCount.toInt - 1) ∧
      (p.UpvotesCount = MinInt64 → p.UpvotesCount - 1 = MaxInt64) ∧
      (p.DownvotesCount ≠ MinInt64 →
        (p.DownvotesCount - 1).toInt = p.DownvotesCount.toInt - 1) ∧
      (p.DownvotesCount = MinInt64 → p.DownvotesCount - 1 = MaxInt64) := by
  have hq := unvotePost_found p a b v hvotes ha
  have hu := Unvote_found n pre suf p _ v.UserID hpre hq
  refine ⟨?_, ?_, GoInt.toInt_sub_one _, ?_, GoInt.toInt_sub_one _, ?_⟩
  · intro hval
    rw [hu]
    simp [hval]
  · intro hval
    have hne : ¬ v.Value = Like := by
      rw [hval]; decide
    rw [hu]
    simp [hne]
  · intro h
    rw [h]
    exact GoInt.min_sub_one
  · intro h
    rw [h]
    exact GoInt.min_sub_one

/-- C8 at Scenario C: in a store holding post "1" and then post "2" with ledger
`[{7, Like}, {3, Unlike}]` and counters (1, 1), voter 3 unvoting post "2" gives ledger
`[{7, Like}]` with counters (1, 0). -/
theorem C8_scenario_C :
    (∀ q ∈ [mkPost "1" 5 [⟨5, Like⟩] 1 0],
        q.ID ≠ (mkPost "2" 7 [⟨7, Like⟩, ⟨3, Unlike⟩] 1 1).ID) ∧
      (∀ w ∈ [(⟨7, Like⟩ : Vote)], w.UserID ≠ 3) ∧
      (MemoryRepo.mk 2
          [mkPost "1" 5 [⟨5, Like⟩] 1 0,
           mkPost "2" 7 [⟨7, Like⟩, ⟨3, Unlike⟩] 1 1]).Unvote "2" 3
        = (MemoryRepo.mk 2
            [mkPost "1" 5 [⟨5, Like⟩] 1 0, mkPost "2" 7 [⟨7, Like⟩] 1 0], none) :=
  ⟨by decide, by decide,
    (C8_unvote_removes_entry 2 [mkPost "1" 5 [⟨5, Like⟩] 1 0] []
      (mkPost "2" 7 [⟨7, Like⟩, ⟨3, Unlike⟩] 1 1) [⟨7, Like⟩] [] ⟨3, Unlike⟩
      (by decide) rfl (by decide)).2.1 rfl⟩

/-- C9: `Unvote` returns `ErrNotExist` exactly when no stored post with the id holds a
ledger entry for the voter (no post has the id, or the post with the id has no entry
of the voter); it then leaves the store it was given, and in every other case it
returns nil.  The model is a total function, so no call panics. -/
theorem C9_unvote_not_found (r : MemoryRepo) (postID : String) (voter : Nat) :
    ((r.Unvote postID voter).2 = some PostError.ErrNotExist ↔
        ¬ ∃ p ∈ r.posts, p.ID = postID ∧ ∃ v ∈ p.Votes, v.UserID = voter) ∧
      ((r.Unvote postID voter).2 = some PostError.ErrNotExist →
        (r.Unvote postID voter).1 = r) ∧
      ((r.Unvote postID voter).2 = some PostError.ErrNotExist ∨
        (r.Unvote postID voter).2 = none) := by
  have hn := unvotePosts_eq_none_iff postID voter r.posts
  have hcond : (∀ p ∈ r.posts, p.ID = postID → ∀ v ∈ p.Votes, v.UserID ≠ voter) ↔
      ¬ ∃ p ∈ r.posts, p.ID = postID ∧ ∃ v ∈ p.Votes, v.UserID = voter := by
    constructor
    · rintro hall ⟨p, hp, hid, v, hv, hvoter⟩
      exact hall p hp hid v hv hvoter
    · intro hex p hp hid v hv hvoter
      exact hex ⟨p, hp, hid, v, hv, hvoter⟩
  cases h : unvotePosts postID voter r.posts with
  | none =>
    have hall := hcond.1 (hn.1 h)
    simp only [MemoryRepo.Unvote, h, true_iff, true_or, and_true, implies_true, true_and]
    exact hall
  | some ps =>
    have hne : ¬ ¬ ∃ p ∈ r.posts, p.ID = postID ∧ ∃ v ∈ p.Votes, v.UserID = voter := by
      intro hex
      rw [hn.2 (hcond.2 hex)] at h
      exact Option.noConfusion h
    refine ⟨?_, ?_, ?_⟩
    · simp only [MemoryRepo.Unvote, h]
      constructor
      · intro hfalse
        exact Option.noConfusion hfalse
      · intro hex
        exact absurd hex hne
    · simp only [MemoryRepo.Unvote, h]
      intro hfalse
      exact Option.noConfusion hfalse
    · right
      simp only [MemoryRepo.Unvote, h]

/-- C10 (the round trip fails for a voter who already had an entry): post "1" has ledger
`[{7, Like}, {3, Unlike}]` and counters (1, 1).  `Upvote` by voter 3 rewrites the entry
to `Like`, giving counters (2, 0); `Unvote` by voter 3 then removes the entry, leaving
ledger `[{7, Like}]` with counters (1, 0), which is not the vote state before the
`Upvote`. -/
theorem C10_roundtrip_loses_down_vote :
    (∃ p ∈ (MemoryRepo.mk 1 [mkPost "1" 7 [⟨7, Like⟩, ⟨3, Unlike⟩] 1 1]).posts, p.ID = "1") ∧
      (MemoryRepo.mk 1 [mkPost "1" 7 [⟨7, Like⟩, ⟨3, Unlike⟩] 1 1]).posts.map voteState
        = [([⟨7, Like⟩, ⟨3, Unlike⟩], 1, 1)] ∧
      ((MemoryRepo.mk 1 [mkPost "1" 7 [⟨7, Like⟩, ⟨3, Unlike⟩] 1 1]).Upvote "1" 3).1.posts.map
          voteState
        = [([⟨7, Like⟩, ⟨3, Like⟩], 2, 0)] ∧
      ((((MemoryRepo.mk 1 [mkPost "1" 7 [⟨7, Like⟩, ⟨3, Unlike⟩] 1 1]).Upvote "1" 3).1.Unvote
          "1" 3).1.posts.map voteState)
        = [([⟨7, Like⟩], 1, 0)] ∧
      ((((MemoryRepo.mk 1 [mkPost "1" 7 [⟨7, Like⟩, ⟨3, Unlike⟩] 1 1]).Upvote "1" 3).1.Unvote
          "1" 3).1.posts.map voteState)
        ≠ (MemoryRepo.mk 1 [mkPost "1" 7 [⟨7, Like⟩, ⟨3, Unlike⟩] 1 1]).posts.map voteState := by
  decide

/-- C10 (amended): when `p` is the first stored post with its id and its ledger has no
entry for `voter`, `Upvote` returns nil and the following `Unvote` returns nil and
gives back the store as it was before the `Upvote`: the ledger, `UpvotesCount` and
`DownvotesCount` of the post, and everything else. -/
theorem C10_upvote_unvote_restores_fresh (n : Nat) (pre suf : List Post) (p : Post)
    (voter : Nat) (hpre : ∀ q ∈ pre, q.ID ≠ p.ID) (hno : ∀ v ∈ p.Votes, v.UserID ≠ voter) :
    ((MemoryRepo.mk n (pre ++ p :: suf)).Upvote p.ID voter).2 = none ∧
      ((MemoryRepo.mk n (pre ++ p :: suf)).Upvote p.ID voter).1.Unvote p.ID voter =
        (MemoryRepo.mk n (pre ++ p :: suf), none) := by
  rw [Upvote_found n pre suf p voter hpre, upvotePost_fresh p voter hno]
  refine ⟨rfl, ?_⟩
  have hq : unvotePost
      { p with Votes := p.Votes ++ [{ UserID := voter, Value := Like }],
               UpvotesCount := p.UpvotesCount + 1 } voter = some p := by
    have h := unvotePost_found
      { p with Votes := p.Votes ++ [{ UserID := voter, Value := Like }],
               UpvotesCount := p.UpvotesCount + 1 }
      p.Votes [] { UserID := voter, Value := Like } rfl hno
    simpa using h
  exact Unvote_found n pre suf
    { p with Votes := p.Votes ++ [{ UserID := voter, Value := Like }],
             UpvotesCount := p.UpvotesCount + 1 } p voter hpre hq

/-- C10 (amended) on a concrete store: voter 3 has no entry in post "2" with ledger
`[{7, Like}]` and counters (1, 0); upvoting and then unvoting gives the same store. -/
theorem C10_fresh_roundtrip_example :
    (∀ q ∈ [mkPost "1" 5 [⟨5, Like⟩] 1 0], q.ID ≠ (mkPost "2" 7 [⟨7, Like⟩] 1 0).ID) ∧
      (∀ v ∈ (mkPost "2" 7 [⟨7, Like⟩] 1 0).Votes, v.UserID ≠ 3) ∧
      ((MemoryRepo.mk 2
          [mkPost "1" 5 [⟨5, Like⟩] 1 0, mkPost "2" 7 [⟨7, Like⟩] 1 0]).Upvote "2" 3).1.Unvote
          "2" 3
        = (MemoryRepo.mk 2 [mkPost "1" 5 [⟨5, Like⟩] 1 0, mkPost "2" 7 [⟨7, Like⟩] 1 0], none) :=
  ⟨by decide, by decide,
    (C10_upvote_unvote_restores_fresh 2 [mkPost "1" 5 [⟨5, Like⟩] 1 0] []
      (mkPost "2" 7 [⟨7, Like⟩] 1 0) 3 (by decide) (by decide)).2⟩

/-! ## Upvote followed by Downvote -/

theorem exists_first_entry (voter : Nat) (vs : List Vote) (h : ∃ v ∈ vs, v.UserID = voter) :
    ∃ a v b, vs = a ++ v :: b ∧ v.UserID = voter ∧ ∀ w ∈ a, w.UserID ≠ voter := by
  induction vs with
  | nil =>
    obtain ⟨v, hv, _⟩ := h
    exact absurd hv (List.not_mem_nil v)
  | cons x xs ih =>
    by_cases hx : x.UserID = voter
    · exact ⟨[], x, xs, rfl, hx, fun w hw => absurd hw (List.not_mem_nil w)⟩
    · obtain ⟨v, hv, hvoter⟩ := h
      have hvxs : v ∈ xs := by
        rcases List.mem_cons.1 hv with heq | hmem
        · exact absurd (heq ▸ hvoter) hx
        · exact hmem
      obtain ⟨a, w, b, hsplit, hw, ha⟩ := ih ⟨v, hvxs, hvoter⟩
      refine ⟨x :: a, w, b, by simp [hsplit], hw, ?_⟩
      intro y hy
      rcases List.mem_cons.1 hy with heq | hmem
      · exact heq ▸ hx
      · exact ha y hmem

theorem upvotePost_ID (p : Post) (voter : Nat) : (upvotePost p voter).ID = p.ID := by
  unfold upvotePost
  cases upvoteVotes voter p.Votes <;> rfl

theorem downvotePost_ID (p : Post) (voter : Nat) : (downvotePost p voter).ID = p.ID := by
  unfold downvotePost
  cases downvoteVotes voter p.Votes <;> rfl

theorem downvotePost_found (p : Post) (a b : List Vote) (v : Vote)
    (hvotes : p.Votes = a ++ v :: b) (ha : ∀ w ∈ a, w.UserID ≠ v.UserID) :
    downvotePost p v.UserID =
      { p with Votes := a ++ { UserID := v.UserID, Value := Unlike } :: b,
               DownvotesCount := p.DownvotesCount + 1,
               UpvotesCount := p.UpvotesCount - 1 } := by
  simp [downvotePost, hvotes, downvoteVotes_split v.UserID a b v ha rfl]

theorem filter_voter_eq_nil (voter : Nat) (vs : List Vote) (h : ∀ w ∈ vs, w.UserID ≠ voter) :
    vs.filter (fun v => v.UserID = voter) = [] := by
  rw [List.filter_eq_nil_iff]
  intro w hw
  simpa using h w hw

/-- The vote state after `Upvote` then `Downvote` on one post, when the ledger has at
most one entry of the voter. -/
theorem downvotePost_upvotePost (p : Post) (voter : Nat)
    (hled : (p.Votes.map (fun v => v.UserID)).Nodup) :
    (downvotePost (upvotePost p voter) voter).Votes.filter (fun v => v.UserID = voter)
        = [{ UserID := voter, Value := Unlike }] ∧
      (downvotePost (upvotePost p voter) voter).UpvotesCount
        = (upvotePost p voter).UpvotesCount - 1 ∧
      (downvotePost (upvotePost p voter) voter).DownvotesCount
        = (upvotePost p voter).DownvotesCount + 1 := by
  by_cases hex : ∃ v ∈ p.Votes, v.UserID = voter
  · obtain ⟨a, v, b, hsplit, hv, ha⟩ := exists_first_entry voter p.Votes hex
    subst hv
    have hb : ∀ w ∈ b, w.UserID ≠ v.UserID := by
      rw [hsplit] at hled
      simp only [List.map_append, List.map_cons] at hled
      have h2 := (List.nodup_append.1 hled).2.1
      have h3 := (List.nodup_cons.1 h2).1
      intro w hw heq
      exact h3 (heq ▸ List.mem_map_of_mem (fun v => v.UserID) hw)
    rw [upvotePost_found p a b v hsplit ha]
    rw [downvotePost_found _ a b { UserID := v.UserID, Value := Like } rfl ha]
    refine ⟨?_, rfl, rfl⟩
    simp [List.filter_append, List.filter_cons, filter_voter_eq_nil v.UserID a ha,
      filter_voter_eq_nil v.UserID b hb]
  · have hno : ∀ w ∈ p.Votes, w.UserID ≠ voter := fun w hw heq => hex ⟨w, hw, heq⟩
    rw [upvotePost_fresh p voter hno]
    rw [downvotePost_found _ p.Votes [] { UserID := voter, Value := Like } rfl hno]
    refine ⟨?_, rfl, rfl⟩
    simp [List.filter_append, List.filter_cons, filter_voter_eq_nil voter p.Votes hno]

/-- C11 as stated fails when `DownvotesCount` is `MaxInt64`.  `Create` of a post with
`DownvotesCount = MaxInt64` stores post "1" with the ledger `[{7, Like}]`, one entry per
voter; right after `Upvote` by voter 3 the counters are (2, `MaxInt64`), and after the
following `Downvote` by voter 3 the ledger is `[{7, Like}, {3, Unlike}]` and
`DownvotesCount = MinInt64 = -2^63`, not `MaxInt64 + 1 = 2^63`. -/
theorem C11_downvote_wraps_at_max :
    Reachable (((NewMemoryRepo.Create (mkPost "" 7 [] 0 MaxInt64) "t").1.Upvote "1" 3).1.Downvote
        "1" 3).1 ∧
      (NewMemoryRepo.Create (mkPost "" 7 [] 0 MaxInt64) "t").1.posts.map
          (fun q => (q.ID, voteState q)) = [("1", [⟨7, Like⟩], 1, MaxInt64)] ∧
      ((NewMemoryRepo.Create (mkPost "" 7 [] 0 MaxInt64) "t").1.Upvote "1" 3).1.posts.map
          (fun q => (q.ID, voteState q)) = [("1", [⟨7, Like⟩, ⟨3, Like⟩], 2, MaxInt64)] ∧
      (((NewMemoryRepo.Create (mkPost "" 7 [] 0 MaxInt64) "t").1.Upvote "1" 3).1.Downvote
          "1" 3).1.posts.map (fun q => (q.ID, voteState q))
        = [("1", [⟨7, Like⟩, ⟨3, Unlike⟩], 1, MinInt64)] ∧
      MinInt64.toInt = -2 ^ 63 ∧ MaxInt64.toInt + 1 = 2 ^ 63 :=
  ⟨Reachable.downvote _ _ _ (Reachable.upvote _ _ _ (Reachable.create _ _ _ Reachable.init)),
    by decide, by decide, by decide, by decide, by decide⟩

/-- C11 (amended): when `p` is the first stored post with its id and its ledger has at most
one entry per voter, `Upvote` and then `Downvote` by the same voter both return nil and
leave in the ledger exactly one entry of that voter, `{voter, Unlike}`, with
`UpvotesCount - 1` and `DownvotesCount + 1` of the values right after the `Upvote`, in
`int`: one lower unless `UpvotesCount` was `MinInt64`, and one higher unless
`DownvotesCount` was `MaxInt64`, which gives `MinInt64`; the posts before and after stay as
they were. -/
theorem C11_upvote_then_downvote (n : Nat) (pre suf : List Post) (p : Post) (voter : Nat)
    (hpre : ∀ q ∈ pre, q.ID ≠ p.ID) (hled : (p.Votes.map (fun v => v.UserID)).Nodup) :
    (MemoryRepo.mk n (pre ++ p :: suf)).Upvote p.ID voter =
        (MemoryRepo.mk n (pre ++ upvotePost p voter :: suf), none) ∧
      ((MemoryRepo.mk n (pre ++ p :: suf)).Upvote p.ID voter).1.Downvote p.ID voter =
        (MemoryRepo.mk n (pre ++ downvotePost (upvotePost p voter) voter :: suf), none) ∧
      (downvotePost (upvotePost p voter) voter).Votes.filter (fun v => v.UserID = voter)
        = [{ UserID := voter, Value := Unlike }] ∧
      (downvotePost (upvotePost p voter) voter).UpvotesCount
        = (upvotePost p voter).UpvotesCount - 1 ∧
      (downvotePost (upvotePost p voter) voter).DownvotesCount
        = (upvotePost p voter).DownvotesCount + 1 ∧
      ((upvotePost p voter).UpvotesCount ≠ MinInt64 →
        (downvotePost (upvotePost p voter) voter).UpvotesCount.toInt
          = (upvotePost p voter).UpvotesCount.toInt - 1) ∧
      ((upvotePost p voter).DownvotesCount ≠ MaxInt64 →
        (downvotePost (upvotePost p voter) voter).DownvotesCount.toInt
          = (upvotePost p voter).DownvotesCount.toInt + 1) ∧
      ((upvotePost p voter).DownvotesCount = MaxInt64 →
        (downvotePost (upvotePost p voter) voter).DownvotesCount = MinInt64) := by
  have hup := Upvote_found n pre suf p voter hpre
  have hpre2 : ∀ q ∈ pre, q.ID ≠ (upvotePost p voter).ID := by
    rw [upvotePost_ID]; exact hpre
  have hdown := Downvote_found n pre suf (upvotePost p voter) voter hpre2
  rw [upvotePost_ID] at hdown
  obtain ⟨hl, hu1, hd1⟩ := downvotePost_upvotePost p voter hled
  refine ⟨hup, ?_, hl, hu1, hd1, ?_, ?_, ?_⟩
  · rw [hup]
    exact hdown
  · intro h
    rw [hu1]
    exact GoInt.toInt_sub_one _ h
  · intro h
    rw [hd1]
    exact GoInt.toInt_add_one _ h
  · intro h
    rw [hd1, h]
    exact GoInt.max_add_one

/-- C11 on a concrete store: voter 3 holds `{3, Unlike}` in post "2" with ledger
`[{7, Like}, {3, Unlike}]` and counters (1, 1).  `Upvote` gives counters (2, 0), and the
following `Downvote` gives ledger `[{7, Like}, {3, Unlike}]` with counters (1, 1). -/
theorem C11_flip_example :
    (∀ q ∈ [mkPost "1" 5 [⟨5, Like⟩] 1 0],
        q.ID ≠ (mkPost "2" 7 [⟨7, Like⟩, ⟨3, Unlike⟩] 1 1).ID) ∧
      ((mkPost "2" 7 [⟨7, Like⟩, ⟨3, Unlike⟩] 1 1).Votes.map (fun v => v.UserID)).Nodup ∧
      (MemoryRepo.mk 2
          [mkPost "1" 5 [⟨5, Like⟩] 1 0,
           mkPost "2" 7 [⟨7, Like⟩, ⟨3, Unlike⟩] 1 1]).Upvote "2" 3
        = (MemoryRepo.mk 2
            [mkPost "1" 5 [⟨5, Like⟩] 1 0,
             mkPost "2" 7 [⟨7, Like⟩, ⟨3, Like⟩] 2 0], none) ∧
      ((MemoryRepo.mk 2
          [mkPost "1" 5 [⟨5, Like⟩] 1 0,
           mkPost "2" 7 [⟨7, Like⟩, ⟨3, Unlike⟩] 1 1]).Upvote "2" 3).1.Downvote "2" 3
        = (MemoryRepo.mk 2
            [mkPost "1" 5 [⟨5, Like⟩] 1 0,
             mkPost "2" 7 [⟨7, Like⟩, ⟨3, Unlike⟩] 1 1], none) :=
  ⟨by decide, by decide,
    (C11_upvote_then_downvote 2 [mkPost "1" 5 [⟨5, Like⟩] 1 0] []
      (mkPost "2" 7 [⟨7, Like⟩, ⟨3, Unlike⟩] 1 1) 3 (by decide) (by decide)).1,
    (C11_upvote_then_downvote 2 [mkPost "1" 5 [⟨5, Like⟩] 1 0] []
      (mkPost "2" 7 [⟨7, Like⟩, ⟨3, Unlike⟩] 1 1) 3 (by decide) (by decide)).2.1⟩

/-! ## The ledger condition along every call -/

theorem upvoteVotes_some (voter : Nat) (vs ws : List Vote) (h : upvoteVotes voter vs = some ws) :
    ws.map (fun v => v.UserID) = vs.map (fun v => v.UserID) ∧
      ∀ w ∈ ws, w ∈ vs ∨ w.Value = Like := by
  induction vs generalizing ws with
  | nil => simp [upvoteVotes] at h
  | cons v vs ih =>
    by_cases hv : v.UserID = voter
    · simp [upvoteVotes, hv] at h
      subst h
      refine ⟨by simp [hv], ?_⟩
      intro w hw
      rcases List.mem_cons.1 hw with heq | hmem
      · right; rw [heq]
      · left; exact List.mem_cons_of_mem _ hmem
    · cases hu : upvoteVotes voter vs with
      | none => simp [upvoteVotes, hv, hu] at h
      | some us =>
        simp [upvoteVotes, hv, hu] at h
        subst h
        obtain ⟨hmap, hval⟩ := ih us hu
        refine ⟨by simp [hmap], ?_⟩
        intro w hw
        rcases List.mem_cons.1 hw with heq | hmem
        · left; rw [heq]; exact List.mem_cons_self _ _
        · rcases hval w hmem with h1 | h2
          · left; exact List.mem_cons_of_mem _ h1
          · right; exact h2

theorem downvoteVotes_some (voter : Nat) (vs ws : List Vote)
    (h : downvoteVotes voter vs = some ws) :
    ws.map (fun v => v.UserID) = vs.map (fun v => v.UserID) ∧
      ∀ w ∈ ws, w ∈ vs ∨ w.Value = Unlike := by
  induction vs generalizing ws with
  | nil => simp [downvoteVotes] at h
  | cons v vs ih =>
    by_cases hv : v.UserID = voter
    · simp [downvoteVotes, hv] at h
      subst h
      refine ⟨by simp [hv], ?_⟩
      intro w hw
      rcases List.mem_cons.1 hw with heq | hmem
      · right; rw [heq]
      · left; exact List.mem_cons_of_mem _ hmem
    · cases hu : downvoteVotes voter vs with
      | none => simp [downvoteVotes, hv, hu] at h
      | some us =>
        simp [downvoteVotes, hv, hu] at h
        subst h
        obtain ⟨hmap, hval⟩ := ih us hu
        refine ⟨by simp [hmap], ?_⟩
        intro w hw
        rcases List.mem_cons.1 hw with heq | hmem
        · left; rw [heq]; exact List.mem_cons_self _ _
        · rcases hval w hmem with h1 | h2
          · left; exact List.mem_cons_of_mem _ h1
          · right; exact h2

theorem unvoteVotes_some (voter : Nat) (vs : List Vote) (up down : GoInt)
    (res : List Vote × GoInt × GoInt) (h : unvoteVotes voter vs up down = some res) :
    res.1.Sublist vs := by
  induction vs generalizing res with
  | nil => simp [unvoteVotes] at h
  | cons v vs ih =>
    by_cases hv : v.UserID = voter
    · by_cases hl : v.Value = Like
      · simp [unvoteVotes, hv, hl] at h
        subst h
        exact List.sublist_cons_self v vs
      · simp [unvoteVotes, hv, hl] at h
        subst h
        exact List.sublist_cons_self v vs
    · cases hu : unvoteVotes voter vs up down with
      | none => simp [unvoteVotes, hv, hu] at h
      | some us =>
        simp [unvoteVotes, hv, hu] at h
        subst h
        exact (ih us hu).cons₂ v

theorem LedgerOK_upvotePost (p : Post) (voter : Nat) (h : LedgerOK p) :
    LedgerOK (upvotePost p voter) := by
  obtain ⟨hnd, hval⟩ := h
  cases hu : upvoteVotes voter p.Votes with
  | none =>
    have hno := (upvoteVotes_eq_none_iff voter p.Votes).1 hu
    have hfresh : voter ∉ p.Votes.map (fun v => v.UserID) := by
      intro hmem
      obtain ⟨w, hw, heq⟩ := List.mem_map.1 hmem
      exact hno w hw heq
    rw [upvotePost_fresh p voter hno]
    constructor
    · simp only [List.map_append, List.map_cons, List.map_nil]
      rw [List.nodup_append]
      refine ⟨hnd, List.nodup_singleton _, ?_⟩
      intro a ha hb
      rw [List.mem_singleton] at hb
      exact hfresh (hb ▸ ha)
    · intro w hw
      rcases List.mem_append.1 hw with h1 | h2
      · exact hval w h1
      · rw [List.mem_singleton] at h2
        left; rw [h2]
  | some ws =>
    obtain ⟨hmap, hws⟩ := upvoteVotes_some voter p.Votes ws hu
    unfold upvotePost
    rw [hu]
    constructor
    · show (ws.map (fun v => v.UserID)).Nodup
      rw [hmap]; exact hnd
    · intro w hw
      rcases hws w hw with h1 | h2
      · exact hval w h1
      · left; exact h2

theorem LedgerOK_downvotePost (p : Post) (voter : Nat) (h : LedgerOK p) :
    LedgerOK (downvotePost p voter) := by
  obtain ⟨hnd, hval⟩ := h
  cases hu : downvoteVotes voter p.Votes with
  | none =>
    have hno := (downvoteVotes_eq_none_iff voter p.Votes).1 hu
    have hfresh : voter ∉ p.Votes.map (fun v => v.UserID) := by
      intro hmem
      obtain ⟨w, hw, heq⟩ := List.mem_map.1 hmem
      exact hno w hw heq
    rw [downvotePost_fresh p voter hno]
    constructor
    · simp only [List.map_append, List.map_cons, List.map_nil]
      rw [List.nodup_append]
      refine ⟨hnd, List.nodup_singleton _, ?_⟩
      intro a ha hb
      rw [List.mem_singleton] at hb
      exact hfresh (hb ▸ ha)
    · intro w hw
      rcases List.mem_append.1 hw with h1 | h2
      · exact hval w h1
      · rw [List.mem_singleton] at h2
        right; rw [h2]
  | some ws =>
    obtain ⟨hmap, hws⟩ := downvoteVotes_some voter p.Votes ws hu
    unfold downvotePost
    rw [hu]
    constructor
    · show (ws.map (fun v => v.UserID)).Nodup
      rw [hmap]; exact hnd
    · intro w hw
      rcases hws w hw with h1 | h2
      · exact hval w h1
      · right; exact h2

theorem LedgerOK_unvotePost (p q : Post) (voter : Nat) (h : LedgerOK p)
    (hq : unvotePost p voter = some q) : LedgerOK q := by
  obtain ⟨hnd, hval⟩ := h
  unfold unvotePost at hq
  cases hu : unvoteVotes voter p.Votes p.UpvotesCount p.DownvotesCount with
  | none => simp [hu] at hq
  | some res =>
    have hsub := unvoteVotes_some voter p.Votes _ _ res hu
    simp [hu] at hq
    subst hq
    constructor
    · exact hnd.sublist (hsub.map _)
    · intro w hw
      exact hval w (hsub.subset hw)

theorem LedgerOK_upvotePosts (postID : String) (voter : Nat) (ps qs : List Post)
    (h : ∀ p ∈ ps, LedgerOK p) (hq : upvotePosts postID voter ps = some qs) :
    ∀ q ∈ qs, LedgerOK q := by
  induction ps generalizing qs with
  | nil => simp [upvotePosts] at hq
  | cons p ps ih =>
    have hp := h p (List.mem_cons_self _ _)
    have hps : ∀ x ∈ ps, LedgerOK x := fun x hx => h x (List.mem_cons_of_mem _ hx)
    by_cases hid : p.ID = postID
    · simp [upvotePosts, hid] at hq
      subst hq
      intro q hmem
      rcases List.mem_cons.1 hmem with heq | hmem2
      · rw [heq]; exact LedgerOK_upvotePost p voter hp
      · exact hps q hmem2
    · cases hu : upvotePosts postID voter ps with
      | none => simp [upvotePosts, hid, hu] at hq
      | some us =>
        simp [upvotePosts, hid, hu] at hq
        subst hq
        intro q hmem
        rcases List.mem_cons.1 hmem with heq | hmem2
        · rw [heq]; exact hp
        · exact ih us hps hu q hmem2

theorem LedgerOK_downvotePosts (postID : String) (voter : Nat) (ps qs : List Post)
    (h : ∀ p ∈ ps, LedgerOK p) (hq : downvotePosts postID voter ps = some qs) :
    ∀ q ∈ qs, LedgerOK q := by
  induction ps generalizing qs with
  | nil => simp [downvotePosts] at hq
  | cons p ps ih =>
    have hp := h p (List.mem_cons_self _ _)
    have hps : ∀ x ∈ ps, LedgerOK x := fun x hx => h x (List.mem_cons_of_mem _ hx)
    by_cases hid : p.ID = postID
    · simp [downvotePosts, hid] at hq
      subst hq
      intro q hmem
      rcases List.mem_cons.1 hmem with heq | hmem2
      · rw [heq]; exact LedgerOK_downvotePost p voter hp
      · exact hps q hmem2
    · cases hu : downvotePosts postID voter ps with
      | none => simp [downvotePosts, hid, hu] at hq
      | some us =>
        simp [downvotePosts, hid, hu] at hq
        subst hq
        intro q hmem
        rcases List.mem_cons.1 hmem with heq | hmem2
        · rw [heq]; exact hp
        · exact ih us hps hu q hmem2

theorem LedgerOK_unvotePosts (postID : String) (voter : Nat) (ps qs : List Post)
    (h : ∀ p ∈ ps, LedgerOK p) (hq : unvotePosts postID voter ps = some qs) :
    ∀ q ∈ qs, LedgerOK q := by
  induction ps generalizing qs with
  | nil => simp [unvotePosts] at hq
  | cons p ps ih =>
    have hp := h p (List.mem_cons_self _ _)
    have hps : ∀ x ∈ ps, LedgerOK x := fun x hx => h x (List.mem_cons_of_mem _ hx)
    have hrest : ∀ us, unvotePosts postID voter ps = some us → ∀ q ∈ p :: us, LedgerOK q := by
      intro us hu q hmem
      rcases List.mem_cons.1 hmem with heq | hmem2
      · rw [heq]; exact hp
      · exact ih us hps hu q hmem2
    by_cases hid : p.ID = postID
    · cases hun : unvotePost p voter with
      | some x =>
        simp [unvotePosts, hid, hun] at hq
        subst hq
        intro q hmem
        rcases List.mem_cons.1 hmem with heq | hmem2
        · rw [heq]; exact LedgerOK_unvotePost p x voter hp hun
        · exact hps q hmem2
      | none =>
        cases hu : unvotePosts postID voter ps with
        | none => simp [unvotePosts, hid, hun, hu] at hq
        | some us =>
          simp [unvotePosts, hid, hun, hu] at hq
          subst hq
          exact hrest us hu
    · cases hu : unvotePosts postID voter ps with
      | none => simp [unvotePosts, hid, hu] at hq
      | some us =>
        simp [unvotePosts, hid, hu] at hq
        subst hq
        exact hrest us hu

theorem LedgerOK_getByIDPosts (id : String) (d : GoInt) (ps : List Post)
    (res : List Post × Post) (h : ∀ p ∈ ps, LedgerOK p)
    (hq : getByIDPosts id d ps = some res) : ∀ q ∈ res.1, LedgerOK q := by
  induction ps generalizing res with
  | nil => simp [getByIDPosts] at hq
  | cons p ps ih =>
    have hp := h p (List.mem_cons_self _ _)
    have hps : ∀ x ∈ ps, LedgerOK x := fun x hx => h x (List.mem_cons_of_mem _ hx)
    by_cases hid : p.ID = id
    · simp [getByIDPosts, hid] at hq
      subst hq
      intro q hmem
      rcases List.mem_cons.1 hmem with heq | hmem2
      · rw [heq]; exact hp
      · exact hps q hmem2
    · cases hu : getByIDPosts id d ps with
      | none => simp [getByIDPosts, hid, hu] at hq
      | some us =>
        simp [getByIDPosts, hid, hu] at hq
        subst hq
        intro q hmem
        rcases List.mem_cons.1 hmem with heq | hmem2
        · rw [heq]; exact hp
        · exact ih us hps hu q hmem2

theorem LedgerOK_addCommentPosts (postID commentID : String) (ps qs : List Post)
    (h : ∀ p ∈ ps, LedgerOK p) (hq : addCommentPosts postID commentID ps = some qs) :
    ∀ q ∈ qs, LedgerOK q := by
  induction ps generalizing qs with
  | nil => simp [addCommentPosts] at hq
  | cons p ps ih =>
    have hp := h p (List.mem_cons_self _ _)
    have hps : ∀ x ∈ ps, LedgerOK x := fun x hx => h x (List.mem_cons_of_mem _ hx)
    by_cases hid : p.ID = postID
    · simp [addCommentPosts, hid] at hq
      subst hq
      intro q hmem
      rcases List.mem_cons.1 hmem with heq | hmem2
      · rw [heq]; exact hp
      · exact hps q hmem2
    · cases hu : addCommentPosts postID commentID ps with
      | none => simp [addCommentPosts, hid, hu] at hq
      | some us =>
        simp [addCommentPosts, hid, hu] at hq
        subst hq
        intro q hmem
        rcases List.mem_cons.1 hmem with heq | hmem2
        · rw [heq]; exact hp
        · exact ih us hps hu q hmem2

theorem deletePosts_subset (postID : String) (userID : Nat) (ps : List Post) :
    ∀ q ∈ (deletePosts postID userID ps).1, q ∈ ps := by
  induction ps with
  | nil => simp [deletePosts]
  | cons p ps ih =>
    by_cases hid : p.ID = postID
    · by_cases ha : p.AuthorID = userID
      · simp only [deletePosts, hid, ha, ne_eq, not_true_eq_false, if_false]
        intro q hq
        exact List.mem_cons_of_mem _ hq
      · simp only [deletePosts, hid, ha, ne_eq, not_true_eq_false, not_false_eq_true, if_false,
          if_true]
        intro q hq
        exact hq
    · simp only [deletePosts, hid, ne_eq, not_false_eq_true, if_true]
      intro q hq
      rcases List.mem_cons.1 hq with heq | hmem
      · rw [heq]; exact List.mem_cons_self _ _
      · exact List.mem_cons_of_mem _ (ih q hmem)

theorem deleteCommentScan_eq (postID : String) (ps : List Post) (i : Nat) :
    deleteCommentScan postID ps i = i + ps.length := by
  induction ps generalizing i with
  | nil => simp [deleteCommentScan]
  | cons p ps ih =>
    simp only [deleteCommentScan, ite_self, ih, List.length_cons]
    omega

theorem DeleteComment_eq (r : MemoryRepo) (postID commentID : String) :
    r.DeleteComment postID commentID = some (r, some PostError.ErrNotExist) := by
  simp [MemoryRepo.DeleteComment, deleteCommentScan_eq]

/-! ## GetByID and AddComment on a post found by the scan -/

theorem getByIDPosts_split (id : String) (d : GoInt) (pre suf : List Post) (p : Post)
    (hpre : ∀ q ∈ pre, q.ID ≠ id) (hp : p.ID = id) :
    getByIDPosts id d (pre ++ p :: suf) =
      some (pre ++ { p with Views := p.Views + d } :: suf, { p with Views := p.Views + d }) := by
  induction pre with
  | nil => simp [getByIDPosts, hp]
  | cons q pre ih =>
    have hq : q.ID ≠ id := hpre q (List.mem_cons_self _ _)
    have ih2 := ih (fun x hx => hpre x (List.mem_cons_of_mem _ hx))
    simp [getByIDPosts, hq, ih2]

theorem getByIDPosts_eq_none (id : String) (d : GoInt) (ps : List Post)
    (h : ∀ p ∈ ps, p.ID ≠ id) : getByIDPosts id d ps = none := by
  induction ps with
  | nil => simp [getByIDPosts]
  | cons p ps ih =>
    have hp : p.ID ≠ id := h p (List.mem_cons_self _ _)
    have ih2 := ih (fun x hx => h x (List.mem_cons_of_mem _ hx))
    simp [getByIDPosts, hp, ih2]

theorem GetByID_found (n : Nat) (pre suf : List Post) (p : Post) (d : GoInt)
    (hpre : ∀ q ∈ pre, q.ID ≠ p.ID) :
    (MemoryRepo.mk n (pre ++ p :: suf)).GetByID p.ID d =
      (MemoryRepo.mk n (pre ++ { p with Views := p.Views + d } :: suf),
        some { p with Views := p.Views + d }, none) := by
  simp [MemoryRepo.GetByID, getByIDPosts_split p.ID d pre suf p hpre rfl]

theorem addCommentPosts_split (postID commentID : String) (pre suf : List Post) (p : Post)
    (hpre : ∀ q ∈ pre, q.ID ≠ postID) (hp : p.ID = postID) :
    addCommentPosts postID commentID (pre ++ p :: suf) =
      some (pre ++ { p with CommentIDs := p.CommentIDs ++ [commentID] } :: suf) := by
  induction pre with
  | nil => simp [addCommentPosts, hp]
  | cons q pre ih =>
    have hq : q.ID ≠ postID := hpre q (List.mem_cons_self _ _)
    have ih2 := ih (fun x hx => hpre x (List.mem_cons_of_mem _ hx))
    simp [addCommentPosts, hq, ih2]

theorem addCommentPosts_eq_none (postID commentID : String) (ps : List Post)
    (h : ∀ p ∈ ps, p.ID ≠ postID) : addCommentPosts postID commentID ps = none := by
  induction ps with
  | nil => simp [addCommentPosts]
  | cons p ps ih =>
    have hp : p.ID ≠ postID := h p (List.mem_cons_self _ _)
    have ih2 := ih (fun x hx => h x (List.mem_cons_of_mem _ hx))
    simp [addCommentPosts, hp, ih2]

theorem deletePosts_noAccess (postID : String) (userID : Nat) (pre suf : List Post) (p : Post)
    (hpre : ∀ q ∈ pre, q.ID ≠ postID) (hp : p.ID = postID) (ha : p.AuthorID ≠ userID) :
    deletePosts postID userID (pre ++ p :: suf) =
      (pre ++ p :: suf, some PostError.ErrNoAccess) := by
  induction pre with
  | nil => simp [deletePosts, hp, ha]
  | cons q pre ih =>
    have hq : q.ID ≠ postID := hpre q (List.mem_cons_self _ _)
    have ih2 := ih (fun x hx => hpre x (List.mem_cons_of_mem _ hx))
    simp [deletePosts, hq, ih2]

/-! ## Claims about the ledger condition, reads, comments and deletion -/

/-- C12: in every store reachable from `NewMemoryRepo` by `Create`, `GetByID`,
`AddComment`, `Upvote`, `Downvote`, `Unvote`, `Delete` and `DeleteComment` calls, every
post's ledger has no two entries with the same `UserID`, and every entry's value is
`Like` or `Unlike`. -/
theorem C12_reachable_ledgers_ok (r : MemoryRepo) (h : Reachable r) :
    ∀ p ∈ r.posts, LedgerOK p := by
  induction h with
  | init =>
    intro p hp
    exact absurd hp (List.not_mem_nil p)
  | create r p now _ ih =>
    intro q hq
    simp only [MemoryRepo.Create, List.mem_append, List.mem_singleton] at hq
    rcases hq with h1 | h2
    · exact ih q h1
    · rw [h2]
      constructor
      · simp
      · intro v hv
        simp only [List.mem_singleton] at hv
        left; rw [hv]
  | getByID r id d _ ih =>
    unfold MemoryRepo.GetByID
    cases hg : getByIDPosts id d r.posts with
    | none => exact ih
    | some res => exact LedgerOK_getByIDPosts id d r.posts res ih hg
  | addComment r postID commentID _ ih =>
    unfold MemoryRepo.AddComment
    cases hg : addCommentPosts postID commentID r.posts with
    | none => exact ih
    | some qs => exact LedgerOK_addCommentPosts postID commentID r.posts qs ih hg
  | upvote r postID voter _ ih =>
    unfold MemoryRepo.Upvote
    cases hg : upvotePosts postID voter r.posts with
    | none => exact ih
    | some qs => exact LedgerOK_upvotePosts postID voter r.posts qs ih hg
  | downvote r postID voter _ ih =>
    unfold MemoryRepo.Downvote
    cases hg : downvotePosts postID voter r.posts with
    | none => exact ih
    | some qs => exact LedgerOK_downvotePosts postID voter r.posts qs ih hg
  | unvote r postID voter _ ih =>
    unfold MemoryRepo.Unvote
    cases hg : unvotePosts postID voter r.posts with
    | none => exact ih
    | some qs => exact LedgerOK_unvotePosts postID voter r.posts qs ih hg
  | delete r postID userID _ ih =>
    intro q hq
    exact ih q (deletePosts_subset postID userID r.posts q hq)
  | deleteComment r s postID commentID e _ hs ih =>
    rw [DeleteComment_eq] at hs
    have hrs : r = s := by
      have := Option.some.inj hs
      exact congrArg Prod.fst this
    rw [← hrs]
    exact ih

/-- C12 on a concrete run: author 7 creates a post and voter 3 downvotes it; the store
is reachable and its ledger `[{7, Like}, {3, Unlike}]` meets the ledger condition. -/
theorem C12_reachable_example :
    Reachable ((NewMemoryRepo.Create (mkPost "" 7 [] 0 0) "2022-09-10T00:00:00Z").1.Downvote
        "1" 3).1 ∧
      ((NewMemoryRepo.Create (mkPost "" 7 [] 0 0) "2022-09-10T00:00:00Z").1.Downvote
          "1" 3).1.posts = [mkPost "1" 7 [⟨7, Like⟩, ⟨3, Unlike⟩] 1 1] ∧
      ∀ p ∈ ((NewMemoryRepo.Create (mkPost "" 7 [] 0 0) "2022-09-10T00:00:00Z").1.Downvote
          "1" 3).1.posts, LedgerOK p :=
  ⟨Reachable.downvote _ _ _ (Reachable.create _ _ _ Reachable.init), by decide,
    C12_reachable_ledgers_ok _
      (Reachable.downvote _ _ _ (Reachable.create _ _ _ Reachable.init))⟩

/-- C14 as stated fails when the sum does not fit in an `int`: after `Create`, whose post
"1" has `Views = 0`, `GetByID` with `MaxInt64` leaves `Views = MaxInt64`, and `GetByID`
with 1 then returns and stores the post with `Views = MinInt64 = -2^63`, not
`MaxInt64 + 1 = 2^63`. -/
theorem C14_views_wrap_at_max :
    Reachable (((NewMemoryRepo.Create (mkPost "" 7 [] 0 0) "t").1.GetByID "1" MaxInt64).1.GetByID
        "1" 1).1 ∧
      ((NewMemoryRepo.Create (mkPost "" 7 [] 0 0) "t").1.GetByID "1" MaxInt64).1.posts.map
          (fun q => (q.ID, q.Views)) = [("1", MaxInt64)] ∧
      (((NewMemoryRepo.Create (mkPost "" 7 [] 0 0) "t").1.GetByID "1" MaxInt64).1.GetByID
          "1" 1).1.posts.map (fun q => (q.ID, q.Views)) = [("1", MinInt64)] ∧
      (((NewMemoryRepo.Create (mkPost "" 7 [] 0 0) "t").1.GetByID "1" MaxInt64).1.GetByID
          "1" 1).2.1.map (fun q => (q.ID, q.Views)) = some ("1", MinInt64) ∧
      MinInt64.toInt = -2 ^ 63 ∧ MaxInt64.toInt + 1 = 2 ^ 63 :=
  ⟨Reachable.getByID _ _ _ (Reachable.getByID _ _ _ (Reachable.create _ _ _ Reachable.init)),
    by decide, by decide, by decide, by decide, by decide⟩

/-- C14 (amended): when `p` is the first stored post with its id, `GetByID` with `d` returns
`p` with `Views + d` for `Views` and stores exactly that post in place of `p`, every other
field and every other post as before; two calls with `d = 1` store `Views + 2`, and a call
with `d = 0` leaves the store as it was.  The sum is that of `int`: it is the integer sum
wrapped around modulo `2^64`, and the integer sum itself whenever that lies from `-2^63`
to `2^63 - 1`.  For an id that no stored post has, `GetByID` returns no post and
`ErrNotExist`, and the store is unchanged. -/
theorem C14_getByID_adds_views (n : Nat) (pre suf : List Post) (p : Post) (d : GoInt)
    (hpre : ∀ q ∈ pre, q.ID ≠ p.ID) :
    (MemoryRepo.mk n (pre ++ p :: suf)).GetByID p.ID d =
        (MemoryRepo.mk n (pre ++ { p with Views := p.Views + d } :: suf),
          some { p with Views := p.Views + d }, none) ∧
      ((MemoryRepo.mk n (pre ++ p :: suf)).GetByID p.ID 1).1.GetByID p.ID 1 =
        (MemoryRepo.mk n (pre ++ { p with Views := p.Views + 2 } :: suf),
          some { p with Views := p.Views + 2 }, none) ∧
      (MemoryRepo.mk n (pre ++ p :: suf)).GetByID p.ID 0 =
        (MemoryRepo.mk n (pre ++ p :: suf), some p, none) ∧
      (∀ (r : MemoryRepo) (id : String) (e : GoInt), (∀ q ∈ r.posts, q.ID ≠ id) →
        r.GetByID id e = (r, none, some PostError.ErrNotExist)) ∧
      (p.Views + d).toInt = wrapInt (p.Views.toInt + d.toInt) ∧
      (-2 ^ 63 ≤ p.Views.toInt + d.toInt ∧ p.Views.toInt + d.toInt < 2 ^ 63 →
        (p.Views + d).toInt = p.Views.toInt + d.toInt) ∧
      (p.Views.toInt + 2 < 2 ^ 63 → (p.Views + 2).toInt = p.Views.toInt + 2) := by
  refine ⟨GetByID_found n pre suf p d hpre, ?_, ?_, ?_, rfl, GoInt.toInt_add_exact _ _, ?_⟩
  rotate_right
  · intro h
    have ha := p.Views.inRange
    have h2 : (2 : GoInt).toInt = 2 := rfl
    rw [GoInt.toInt_add_exact _ _ (by rw [h2]; omega), h2]
  · rw [GetByID_found n pre suf p 1 hpre]
    have h2 := GetByID_found n pre suf { p with Views := p.Views + 1 } 1 hpre
    simp only [] at h2 ⊢
    rw [h2]
    have h3 : p.Views + 1 + 1 = p.Views + 2 := GoInt.add_one_add_one p.Views
    simp [h3]
  · rw [GetByID_found n pre suf p 0 hpre]
    simp
  · intro r id e hno
    simp [MemoryRepo.GetByID, getByIDPosts_eq_none id e r.posts hno]

/-- C14 at Scenario D: post "2" has `Views = 0`; two `GetByID` calls with increment 1
leave it stored with `Views = 2`, and the second call returns it with `Views = 2`. -/
theorem C14_scenario_D :
    (∀ q ∈ [mkPost "1" 5 [⟨5, Like⟩] 1 0], q.ID ≠ (mkPost "2" 7 [⟨7, Like⟩] 1 0).ID) ∧
      ((MemoryRepo.mk 2
          [mkPost "1" 5 [⟨5, Like⟩] 1 0, mkPost "2" 7 [⟨7, Like⟩] 1 0]).GetByID "2" 1).1.GetByID
          "2" 1
        = (MemoryRepo.mk 2
            [mkPost "1" 5 [⟨5, Like⟩] 1 0, { mkPost "2" 7 [⟨7, Like⟩] 1 0 with Views := 2 }],
            some { mkPost "2" 7 [⟨7, Like⟩] 1 0 with Views := 2 }, none) :=
  ⟨by decide,
    (C14_getByID_adds_views 2 [mkPost "1" 5 [⟨5, Like⟩] 1 0] [] (mkPost "2" 7 [⟨7, Like⟩] 1 0) 1
      (by decide)).2.1⟩

/-- C16: when `p` is the first stored post with its id, `AddComment` returns nil and
replaces `p` by `p` with the comment id appended at the end of `CommentIDs`, every other
field and every other post as before; for an id that no stored post has, it returns
`ErrNotExist` and the store is unchanged. -/
theorem C16_addComment_appends (n : Nat) (pre suf : List Post) (p : Post) (commentID : String)
    (hpre : ∀ q ∈ pre, q.ID ≠ p.ID) :
    (MemoryRepo.mk n (pre ++ p :: suf)).AddComment p.ID commentID =
        (MemoryRepo.mk n
          (pre ++ { p with CommentIDs := p.CommentIDs ++ [commentID] } :: suf), none) ∧
      ∀ (r : MemoryRepo) (postID c : String), (∀ q ∈ r.posts, q.ID ≠ postID) →
        r.AddComment postID c = (r, some PostError.ErrNotExist) := by
  constructor
  · simp [MemoryRepo.AddComment, addCommentPosts_split p.ID commentID pre suf p hpre rfl]
  · intro r postID c hno
    simp [MemoryRepo.AddComment, addCommentPosts_eq_none postID c r.posts hno]

/-- C16 on a concrete store: post "2" holds comment ids `["c1"]`; adding "c2" and then
"c3" gives `["c1", "c2", "c3"]`, the order of insertion. -/
theorem C16_addComment_example :
    (∀ q ∈ [mkPost "1" 5 [⟨5, Like⟩] 1 0],
        q.ID ≠ ({ mkPost "2" 7 [⟨7, Like⟩] 1 0 with CommentIDs := ["c1"] } : Post).ID) ∧
      (MemoryRepo.mk 2
          [mkPost "1" 5 [⟨5, Like⟩] 1 0,
           { mkPost "2" 7 [⟨7, Like⟩] 1 0 with CommentIDs := ["c1"] }]).AddComment "2" "c2"
        = (MemoryRepo.mk 2
            [mkPost "1" 5 [⟨5, Like⟩] 1 0,
             { mkPost "2" 7 [⟨7, Like⟩] 1 0 with CommentIDs := ["c1", "c2"] }], none) ∧
      ((MemoryRepo.mk 2
          [mkPost "1" 5 [⟨5, Like⟩] 1 0,
           { mkPost "2" 7 [⟨7, Like⟩] 1 0 with CommentIDs := ["c1"] }]).AddComment "2"
            "c2").1.AddComment "2" "c3"
        = (MemoryRepo.mk 2
            [mkPost "1" 5 [⟨5, Like⟩] 1 0,
             { mkPost "2" 7 [⟨7, Like⟩] 1 0 with CommentIDs := ["c1", "c2", "c3"] }], none) :=
  ⟨by decide,
    (C16_addComment_appends 2 [mkPost "1" 5 [⟨5, Like⟩] 1 0] []
      { mkPost "2" 7 [⟨7, Like⟩] 1 0 with CommentIDs := ["c1"] } "c2" (by decide)).1,
    by decide⟩

/-- C17 (the code never removes a comment id): the first loop of `DeleteComment` has
no `break`, so it always ends with `i == len(r.posts)` and every call returns
`ErrNotExist` with the store unchanged.  In particular, on a store whose post "1" has
comment ids `["c1", "c2"]`, `DeleteComment("1", "c1")` returns `ErrNotExist` and the
list is still `["c1", "c2"]`. -/
theorem C17_deleteComment_always_not_exist (r : MemoryRepo) (postID commentID : String) :
    r.DeleteComment postID commentID = some (r, some PostError.ErrNotExist) ∧
      (MemoryRepo.mk 1
          [{ mkPost "1" 7 [⟨7, Like⟩] 1 0 with CommentIDs := ["c1", "c2"] }]).DeleteComment
          "1" "c1"
        = some (MemoryRepo.mk 1
            [{ mkPost "1" 7 [⟨7, Like⟩] 1 0 with CommentIDs := ["c1", "c2"] }],
            some PostError.ErrNotExist) :=
  ⟨DeleteComment_eq r postID commentID, DeleteComment_eq _ _ _⟩

/-! ## The document store -/

theorem decodeHex_eq_none (cs : List Char) (h : ∃ c ∈ cs, hexDigitValue c = none) :
    decodeHex cs = none := by
  induction cs with
  | nil =>
    obtain ⟨c, hc, _⟩ := h
    exact absurd hc (List.not_mem_nil c)
  | cons x xs ih =>
    cases hx : hexDigitValue x with
    | none => simp [decodeHex, hx]
    | some d =>
      obtain ⟨c, hc, hnone⟩ := h
      have hcxs : c ∈ xs := by
        rcases List.mem_cons.1 hc with heq | hmem
        · rw [heq, hx] at hnone
          exact Option.noConfusion hnone
        · exact hmem
      simp [decodeHex, hx, ih ⟨c, hcxs, hnone⟩]

theorem ObjectIDFromHex_eq_none (s : String)
    (h : ¬ (s.length = 24 ∧ ∀ c ∈ s.data, (hexDigitValue c).isSome)) :
    ObjectIDFromHex s = none := by
  unfold ObjectIDFromHex
  by_cases hlen : s.length = 24
  · have hex : ∃ c ∈ s.data, hexDigitValue c = none := by
      by_contra hno
      apply h
      refine ⟨hlen, ?_⟩
      intro c hc
      cases hv : hexDigitValue c with
      | none => exact absurd ⟨c, hc, hv⟩ hno
      | some d => rfl
    simp [hlen, decodeHex_eq_none s.data hex]
  · simp [hlen]

theorem find_filterID_split (pre suf : List Item) (d : Item)
    (hpre : ∀ x ∈ pre, x.ID ≠ d.ID) :
    (pre ++ d :: suf).find? (filterID d.ID) = some d := by
  induction pre with
  | nil => simp [filterID]
  | cons x pre ih =>
    have hx : x.ID ≠ d.ID := hpre x (List.mem_cons_self _ _)
    have ih2 := ih (fun y hy => hpre y (List.mem_cons_of_mem _ hy))
    simp [List.find?, filterID, hx]
    simpa [filterID] using ih2

/-! ## Claims about Create, Delete and the document store -/

/-- C13 (the in-memory `Create` keeps the caller's `DownvotesCount`): `MemoryRepo.Create`
stores the input post with `ID`, `CreateDate`, `Views`, `Votes`, `UpvotesCount` and
`CommentIDs` overwritten and nothing else, so `DownvotesCount` stays what the caller
sent.  For an input with author 7 and `DownvotesCount = 5` the stored post has ledger
`[{7, Like}]` and counters (1, 5), while `MongoRepo.Create` stores counters (1, 0) for
the same input. -/
theorem C13_memory_create_keeps_downvotes (r : MemoryRepo) (p : Post) (now : String) :
    ((r.Create p now).1.posts =
        r.posts ++
          [{ p with ID := (r.Create p now).2, CreateDate := now, Views := 0,
                    Votes := [{ UserID := p.AuthorID, Value := Like }],
                    UpvotesCount := 1, CommentIDs := [] }]) ∧
      NewMemoryRepo.Create (mkPost "" 7 [] 0 5) "2022-09-10T00:00:00Z"
        = (MemoryRepo.mk 1 [mkPost "1" 7 [⟨7, Like⟩] 1 5], "1") ∧
      (MongoRepo.mk ⟨[], []⟩).Create healthy (mkPost "" 7 [] 0 5) oidA "2022-09-10T00:00:00Z"
        = (MongoRepo.mk ⟨[mkItem oidA 7 [⟨7, Like⟩] 1 0], [Command.InsertOne]⟩,
            "5f1d7c3a9b2e4f6081a3c5e7", none) :=
  ⟨rfl, by decide, by decide⟩

/-- C15: when `p` is the first stored post with its id and its author is not the
requester, `MemoryRepo.Delete` returns `ErrNoAccess` and the store is unchanged.  When
the document `d` is the first with the requested id, its author is not the requester
and the engine answers the lookup, `MongoRepo.Delete` returns `ErrNoAccess`, the
documents are unchanged and the only command issued is the `FindOne`. -/
theorem C15_delete_no_access (n : Nat) (pre suf : List Post) (p : Post) (userID : Nat)
    (eng : Engine) (log : List Command) (dpre dsuf : List Item) (d : Item) (postID : String)
    (hpre : ∀ q ∈ pre, q.ID ≠ p.ID) (hauth : p.AuthorID ≠ userID)
    (hid : ObjectIDFromHex postID = some d.ID) (hdpre : ∀ x ∈ dpre, x.ID ≠ d.ID)
    (hdauth : d.AuthorID ≠ userID) (hok : eng log.length = none) :
    (MemoryRepo.mk n (pre ++ p :: suf)).Delete p.ID userID =
        (MemoryRepo.mk n (pre ++ p :: suf), some PostError.ErrNoAccess) ∧
      (MongoRepo.mk ⟨dpre ++ d :: dsuf, log⟩).Delete eng postID userID =
        (MongoRepo.mk ⟨dpre ++ d :: dsuf, log ++ [Command.FindOne]⟩,
          some (StoreError.repo PostError.ErrNoAccess)) := by
  constructor
  · simp [MemoryRepo.Delete, deletePosts_noAccess p.ID userID pre suf p hpre rfl hauth]
  · simp [MongoRepo.Delete, hid, Collection.FindOne, hok, find_filterID_split dpre dsuf d hdpre,
      hdauth]

/-- C15 at Scenario E: user 3 asks to delete post "2" of author 7 (with a ledger, counters
and one comment id) and the document `oidA` of author 7; both stores answer
`ErrNoAccess` and keep everything, and the document store is only sent the `FindOne`. -/
theorem C15_scenario_E :
    (MemoryRepo.mk 2
        [mkPost "1" 5 [⟨5, Like⟩] 1 0,
         { mkPost "2" 7 [⟨7, Like⟩, ⟨3, Unlike⟩] 1 1 with CommentIDs := ["c1"] }]).Delete "2" 3
      = (MemoryRepo.mk 2
          [mkPost "1" 5 [⟨5, Like⟩] 1 0,
           { mkPost "2" 7 [⟨7, Like⟩, ⟨3, Unlike⟩] 1 1 with CommentIDs := ["c1"] }],
          some PostError.ErrNoAccess) ∧
      (MongoRepo.mk
          ⟨[mkItem oidB 5 [⟨5, Like⟩] 1 0, mkItem oidA 7 [⟨7, Like⟩] 1 0], []⟩).Delete healthy
          "5f1d7c3a9b2e4f6081a3c5e7" 3
        = (MongoRepo.mk
            ⟨[mkItem oidB 5 [⟨5, Like⟩] 1 0, mkItem oidA 7 [⟨7, Like⟩] 1 0], [Command.FindOne]⟩,
            some (StoreError.repo PostError.ErrNoAccess)) :=
  C15_delete_no_access 2 [mkPost "1" 5 [⟨5, Like⟩] 1 0] []
    { mkPost "2" 7 [⟨7, Like⟩, ⟨3, Unlike⟩] 1 1 with CommentIDs := ["c1"] } 3
    healthy [] [mkItem oidB 5 [⟨5, Like⟩] 1 0] [] (mkItem oidA 7 [⟨7, Like⟩] 1 0)
    "5f1d7c3a9b2e4f6081a3c5e7"
    (by decide) (by decide) (by decide) (by decide) (by decide) rfl

/-- C18 (the document-store `Unvote` reads the wrong ledger entry): the document `oidA`
has ledger `[{7, Like}, {3, Unlike}]` and counters (1, 1).  `Unvote` by voter 3 reads the
document, tests `item.Votes[0].Value`, the value of voter 7's entry, finds `Like`, and so
pulls voter 3's entry and lowers `upvotes_count`: the result is ledger `[{7, Like}]` with
counters (0, 1).  The in-memory `Unvote` on the same ledger and counters tests the
voter's own entry and gives counters (1, 0). -/
theorem C18_mongo_unvote_reads_first_entry :
    (MongoRepo.mk ⟨[mkItem oidA 7 [⟨7, Like⟩, ⟨3, Unlike⟩] 1 1], []⟩).Unvote healthy
        "5f1d7c3a9b2e4f6081a3c5e7" 3
      = some (MongoRepo.mk
          ⟨[mkItem oidA 7 [⟨7, Like⟩] 0 1], [Command.FindOne, Command.UpdateByID]⟩, none) ∧
      (MemoryRepo.mk 1 [mkPost "1" 7 [⟨7, Like⟩, ⟨3, Unlike⟩] 1 1]).Unvote "1" 3
        = (MemoryRepo.mk 1 [mkPost "1" 7 [⟨7, Like⟩] 1 0], none) := by
  decide

/-- C19 (the document-store `Upvote` and `Downvote` create a document for an unknown
id): in a collection whose only document is `oidB`, `Upvote` with the well-formed id of
`oidA` by voter 1 finds nothing to flip, falls back to the `UpdateByID` with upsert, and
returns nil with a new document `{_id: oidA, votes: [{1, Like}], upvotes_count: 1}`
added; `Downvote` does the same with `{1, Unlike}` and `downvotes_count: 1`. -/
theorem C19_mongo_vote_upserts_unknown_id :
    ObjectIDFromHex "5f1d7c3a9b2e4f6081a3c5e7" = some oidA ∧
      (∀ d ∈ [mkItem oidB 5 [⟨5, Like⟩] 1 0], d.ID ≠ oidA) ∧
      (MongoRepo.mk ⟨[mkItem oidB 5 [⟨5, Like⟩] 1 0], []⟩).Upvote healthy
          "5f1d7c3a9b2e4f6081a3c5e7" 1
        = (MongoRepo.mk
            ⟨[mkItem oidB 5 [⟨5, Like⟩] 1 0,
              { emptyItem oidA with Votes := [⟨1, Like⟩], UpvotesCount := 1 }],
             [Command.FindOneAndUpdate, Command.UpdateByID]⟩, none) ∧
      (MongoRepo.mk ⟨[mkItem oidB 5 [⟨5, Like⟩] 1 0], []⟩).Downvote healthy
          "5f1d7c3a9b2e4f6081a3c5e7" 1
        = (MongoRepo.mk
            ⟨[mkItem oidB 5 [⟨5, Like⟩] 1 0,
              { emptyItem oidA with Votes := [⟨1, Unlike⟩], DownvotesCount := 1 }],
             [Command.FindOneAndUpdate, Command.UpdateByID]⟩, none) := by
  decide

/-- C20: for an id that is not a string of exactly 24 hexadecimal digits, each of
`GetByID`, `AddComment`, `Upvote`, `Downvote`, `Unvote`, `Delete` and `DeleteComment` of
the document store returns `ErrInvalidID` and leaves the repository as it was, the
command log included: no storage command is issued, whatever the engine would do. -/
theorem C20_invalid_id_rejected (r : MongoRepo) (eng : Engine) (id : String)
    (viewsUpdate : GoInt) (commentID : String) (voter userID : Nat)
    (hbad : ¬ (id.length = 24 ∧ ∀ c ∈ id.data, (hexDigitValue c).isSome)) :
    r.GetByID eng id viewsUpdate = (r, none, some (StoreError.repo PostError.ErrInvalidID)) ∧
      r.AddComment eng id commentID = (r, some (StoreError.repo PostError.ErrInvalidID)) ∧
      r.Upvote eng id voter = (r, some (StoreError.repo PostError.ErrInvalidID)) ∧
      r.Downvote eng id voter = (r, some (StoreError.repo PostError.ErrInvalidID)) ∧
      r.Unvote eng id voter = some (r, some (StoreError.repo PostError.ErrInvalidID)) ∧
      r.Delete eng id userID = (r, some (StoreError.repo PostError.ErrInvalidID)) ∧
      r.DeleteComment eng id commentID = (r, some (StoreError.repo PostError.ErrInvalidID)) := by
  have hnone := ObjectIDFromHex_eq_none id hbad
  refine ⟨?_, ?_, ?_, ?_, ?_, ?_, ?_⟩
  · simp [MongoRepo.GetByID, hnone]
  · simp [MongoRepo.AddComment, hnone]
  · simp [MongoRepo.Upvote, hnone]
  · simp [MongoRepo.Downvote, hnone]
  · simp [MongoRepo.Unvote, hnone]
  · simp [MongoRepo.Delete, hnone]
  · simp [MongoRepo.DeleteComment, hnone]

/-- C20 on the id of the repository tests: "bad_id" is not 24 hexadecimal digits, and
`Upvote` and `Unvote` with it return `ErrInvalidID` with the collection and its empty
command log untouched. -/
theorem C20_bad_id_example :
    ¬ ("bad_id".length = 24 ∧ ∀ c ∈ "bad_id".data, (hexDigitValue c).isSome) ∧
      (MongoRepo.mk ⟨[mkItem oidA 7 [⟨7, Like⟩] 1 0], []⟩).Upvote healthy "bad_id" 1
        = (MongoRepo.mk ⟨[mkItem oidA 7 [⟨7, Like⟩] 1 0], []⟩,
            some (StoreError.repo PostError.ErrInvalidID)) ∧
      (MongoRepo.mk ⟨[mkItem oidA 7 [⟨7, Like⟩] 1 0], []⟩).Unvote healthy "bad_id" 1
        = some (MongoRepo.mk ⟨[mkItem oidA 7 [⟨7, Like⟩] 1 0], []⟩,
            some (StoreError.repo PostError.ErrInvalidID)) :=
  ⟨by decide,
    (C20_invalid_id_rejected (MongoRepo.mk ⟨[mkItem oidA 7 [⟨7, Like⟩] 1 0], []⟩) healthy
      "bad_id" 0 "" 1 1 (by decide)).2.2.1,
    (C20_invalid_id_rejected (MongoRepo.mk ⟨[mkItem oidA 7 [⟨7, Like⟩] 1 0], []⟩) healthy
      "bad_id" 0 "" 1 1 (by decide)).2.2.2.2.1⟩

/-! ## What the vote operations leave alone -/

theorem SameFrame_upvotePost (p : Post) (voter : Nat) : SameFrame p (upvotePost p voter) := by
  unfold SameFrame upvotePost
  cases upvoteVotes voter p.Votes <;> rfl

theorem SameFrame_downvotePost (p : Post) (voter : Nat) :
    SameFrame p (downvotePost p voter) := by
  unfold SameFrame downvotePost
  cases downvoteVotes voter p.Votes <;> rfl

theorem SameFrame_unvotePost (p q : Post) (voter : Nat) (h : unvotePost p voter = some q) :
    SameFrame p q := by
  unfold unvotePost at h
  cases hu : unvoteVotes voter p.Votes p.UpvotesCount p.DownvotesCount with
  | none => simp [hu] at h
  | some res =>
    simp [hu] at h
    subst h
    rfl

theorem upvotePosts_some (postID : String) (voter : Nat) (ps qs : List Post)
    (h : upvotePosts postID voter ps = some qs) :
    ∃ pre p suf, ps = pre ++ p :: suf ∧ (∀ x ∈ pre, x.ID ≠ postID) ∧ p.ID = postID ∧
      qs = pre ++ upvotePost p voter :: suf := by
  induction ps generalizing qs with
  | nil => simp [upvotePosts] at h
  | cons a ps ih =>
    by_cases hid : a.ID = postID
    · simp [upvotePosts, hid] at h
      exact ⟨[], a, ps, rfl, fun x hx => absurd hx (List.not_mem_nil x), hid, by simp [h]⟩
    · cases hu : upvotePosts postID voter ps with
      | none => simp [upvotePosts, hid, hu] at h
      | some us =>
        simp [upvotePosts, hid, hu] at h
        obtain ⟨pre, p, suf, hps, hpre, hp, hus⟩ := ih us hu
        refine ⟨a :: pre, p, suf, by simp [hps], ?_, hp, by simp [← h, hus]⟩
        intro x hx
        rcases List.mem_cons.1 hx with heq | hmem
        · rw [heq]; exact hid
        · exact hpre x hmem

theorem downvotePosts_some (postID : String) (voter : Nat) (ps qs : List Post)
    (h : downvotePosts postID voter ps = some qs) :
    ∃ pre p suf, ps = pre ++ p :: suf ∧ (∀ x ∈ pre, x.ID ≠ postID) ∧ p.ID = postID ∧
      qs = pre ++ downvotePost p voter :: suf := by
  induction ps generalizing qs with
  | nil => simp [downvotePosts] at h
  | cons a ps ih =>
    by_cases hid : a.ID = postID
    · simp [downvotePosts, hid] at h
      exact ⟨[], a, ps, rfl, fun x hx => absurd hx (List.not_mem_nil x), hid, by simp [h]⟩
    · cases hu : downvotePosts postID voter ps with
      | none => simp [downvotePosts, hid, hu] at h
      | some us =>
        simp [downvotePosts, hid, hu] at h
        obtain ⟨pre, p, suf, hps, hpre, hp, hus⟩ := ih us hu
        refine ⟨a :: pre, p, suf, by simp [hps], ?_, hp, by simp [← h, hus]⟩
        intro x hx
        rcases List.mem_cons.1 hx with heq | hmem
        · rw [heq]; exact hid
        · exact hpre x hmem

theorem unvotePosts_some (postID : String) (voter : Nat) (ps qs : List Post)
    (h : unvotePosts postID voter ps = some qs) :
    ∃ pre p q suf, ps = pre ++ p :: suf ∧ p.ID = postID ∧ unvotePost p voter = some q ∧
      qs = pre ++ q :: suf := by
  induction ps generalizing qs with
  | nil => simp [unvotePosts] at h
  | cons a ps ih =>
    have hrest : ∀ us, unvotePosts postID voter ps = some us → qs = a :: us →
        ∃ pre p q suf, a :: ps = pre ++ p :: suf ∧ p.ID = postID ∧
          unvotePost p voter = some q ∧ qs = pre ++ q :: suf := by
      intro us hu hqs
      obtain ⟨pre, p, q, suf, hps, hp, hq, hus⟩ := ih us hu
      exact ⟨a :: pre, p, q, suf, by simp [hps], hp, hq, by simp [hqs, hus]⟩
    by_cases hid : a.ID = postID
    · cases hun : unvotePost a voter with
      | some x =>
        simp [unvotePosts, hid, hun] at h
        exact ⟨[], a, x, ps, rfl, hid, hun, by simp [h]⟩
      | none =>
        cases hu : unvotePosts postID voter ps with
        | none => simp [unvotePosts, hid, hun, hu] at h
        | some us =>
          simp [unvotePosts, hid, hun, hu] at h
          exact hrest us hu h.symm
    · cases hu : unvotePosts postID voter ps with
      | none => simp [unvotePosts, hid, hu] at h
      | some us =>
        simp [unvotePosts, hid, hu] at h
        exact hrest us hu h.symm

theorem VoteFrame_Upvote (r : MemoryRepo) (postID : String) (voter : Nat) :
    VoteFrame r (r.Upvote postID voter).1 postID := by
  unfold MemoryRepo.Upvote
  cases h : upvotePosts postID voter r.posts with
  | none => exact Or.inl rfl
  | some qs =>
    obtain ⟨pre, p, suf, hps, _, hp, hqs⟩ := upvotePosts_some postID voter r.posts qs h
    exact Or.inr ⟨pre, p, upvotePost p voter, suf, hps, by simp [hqs], hp,
      SameFrame_upvotePost p voter⟩

theorem VoteFrame_Downvote (r : MemoryRepo) (postID : String) (voter : Nat) :
    VoteFrame r (r.Downvote postID voter).1 postID := by
  unfold MemoryRepo.Downvote
  cases h : downvotePosts postID voter r.posts with
  | none => exact Or.inl rfl
  | some qs =>
    obtain ⟨pre, p, suf, hps, _, hp, hqs⟩ := downvotePosts_some postID voter r.posts qs h
    exact Or.inr ⟨pre, p, downvotePost p voter, suf, hps, by simp [hqs], hp,
      SameFrame_downvotePost p voter⟩

theorem VoteFrame_Unvote (r : MemoryRepo) (postID : String) (voter : Nat) :
    VoteFrame r (r.Unvote postID voter).1 postID := by
  unfold MemoryRepo.Unvote
  cases h : unvotePosts postID voter r.posts with
  | none => exact Or.inl rfl
  | some qs =>
    obtain ⟨pre, p, q, suf, hps, hp, hq, hqs⟩ := unvotePosts_some postID voter r.posts qs h
    exact Or.inr ⟨pre, p, q, suf, hps, by simp [hqs], hp, SameFrame_unvotePost p q voter hq⟩

/-- C27: `Upvote`, `Downvote` and `Unvote` each leave the store as it was, or replace
one post with the given id, at its place, by a post whose `ID`, `Category`,
`CreateDate`, `Text`, `URL`, `Title`, `Type`, `Views`, `CommentIDs` and `AuthorID` are
unchanged; the id counter, the number and order of the posts and every other post are
the same before and after the call. -/
theorem C27_vote_frame (r : MemoryRepo) (postID : String) (voter : Nat) :
    VoteFrame r (r.Upvote postID voter).1 postID ∧
      VoteFrame r (r.Downvote postID voter).1 postID ∧
      VoteFrame r (r.Unvote postID voter).1 postID :=
  ⟨VoteFrame_Upvote r postID voter, VoteFrame_Downvote r postID voter,
    VoteFrame_Unvote r postID voter⟩

/-- C30: a document returned by the `FindOne` of `Unvote`, whose filter asks for a ledger
entry of the voter, has a non-empty ledger; so `item.Votes[0]` is in range and `Unvote`
never panics: for every repository, engine, id and voter it returns a repository and an
error value. -/
theorem C30_mongo_unvote_no_panic (r : MongoRepo) (eng : Engine) (postID : String)
    (voter : Nat) :
    (∀ (itemID : ObjectID) (c : Collection) (item : Item),
        r.Posts.FindOne eng (filterIDVoter itemID voter) = (c, FindResult.found item) →
          item.Votes ≠ []) ∧
      ∃ s e, r.Unvote eng postID voter = some (s, e) := by
  have hfound : ∀ (itemID : ObjectID) (c : Collection) (item : Item),
      r.Posts.FindOne eng (filterIDVoter itemID voter) = (c, FindResult.found item) →
        item.Votes ≠ [] := by
    intro itemID c item hf
    unfold Collection.FindOne at hf
    cases he : eng r.Posts.log.length with
    | some msg => simp [he] at hf
    | none =>
      cases hfind : r.Posts.docs.find? (filterIDVoter itemID voter) with
      | none => simp [he, hfind] at hf
      | some it =>
        simp [he, hfind] at hf
        have hfilter := List.find?_some hfind
        rw [hf.2] at hfilter
        intro hnil
        simp [filterIDVoter, hnil] at hfilter
  refine ⟨hfound, ?_⟩
  unfold MongoRepo.Unvote
  cases hid : ObjectIDFromHex postID with
  | none => exact ⟨_, _, rfl⟩
  | some itemID =>
    simp only []
    cases hres : (r.Posts.FindOne eng (filterIDVoter itemID voter)).2 with
    | noDocuments => exact ⟨_, _, rfl⟩
    | failed msg => exact ⟨_, _, rfl⟩
    | found item =>
      have hne := hfound itemID (r.Posts.FindOne eng (filterIDVoter itemID voter)).1 item
        (by rw [← hres])
      cases hv : item.Votes with
      | nil => exact absurd hv hne
      | cons v0 vs =>
        simp only [hv]
        exact ⟨_, _, rfl⟩

/-! ## Delete -/

theorem deletePosts_notExist (postID : String) (userID : Nat) (ps : List Post)
    (h : ∀ p ∈ ps, p.ID ≠ postID) :
    deletePosts postID userID ps = (ps, some PostError.ErrNotExist) := by
  induction ps with
  | nil => rfl
  | cons a ps ih =>
    have ha : a.ID ≠ postID := h a (List.mem_cons_self _ _)
    have ih2 := ih (fun x hx => h x (List.mem_cons_of_mem _ hx))
    simp [deletePosts, ha, ih2]

theorem deletePosts_removed (postID : String) (userID : Nat) (pre suf : List Post) (p : Post)
    (hpre : ∀ q ∈ pre, q.ID ≠ postID) (hp : p.ID = postID) (ha : p.AuthorID = userID) :
    deletePosts postID userID (pre ++ p :: suf) = (pre ++ suf, none) := by
  induction pre with
  | nil => simp [deletePosts, hp, ha]
  | cons q pre ih =>
    have hq : q.ID ≠ postID := hpre q (List.mem_cons_self _ _)
    have ih2 := ih (fun x hx => hpre x (List.mem_cons_of_mem _ hx))
    simp [deletePosts, hq, ih2]

/-- The three outcomes of the loop of `Delete`. -/
theorem deletePosts_cases (postID : String) (userID : Nat) (ps : List Post) :
    ((∀ p ∈ ps, p.ID ≠ postID) ∧
        deletePosts postID userID ps = (ps, some PostError.ErrNotExist)) ∨
      (∃ pre p suf, ps = pre ++ p :: suf ∧ (∀ x ∈ pre, x.ID ≠ postID) ∧ p.ID = postID ∧
        p.AuthorID ≠ userID ∧ deletePosts postID userID ps = (ps, some PostError.ErrNoAccess)) ∨
      (∃ pre p suf, ps = pre ++ p :: suf ∧ (∀ x ∈ pre, x.ID ≠ postID) ∧ p.ID = postID ∧
        p.AuthorID = userID ∧ deletePosts postID userID ps = (pre ++ suf, none)) := by
  by_cases hall : ∀ p ∈ ps, p.ID ≠ postID
  · exact Or.inl ⟨hall, deletePosts_notExist postID userID ps hall⟩
  · have hex : ∃ p ∈ ps, p.ID = postID := by
      by_contra hno
      exact hall (fun p hp heq => hno ⟨p, hp, heq⟩)
    have hsplit : ∃ pre p suf, ps = pre ++ p :: suf ∧ (∀ x ∈ pre, x.ID ≠ postID) ∧
        p.ID = postID := by
      clear hall
      induction ps with
      | nil =>
        obtain ⟨p, hp, _⟩ := hex
        exact absurd hp (List.not_mem_nil p)
      | cons a ps ih =>
        by_cases ha : a.ID = postID
        · exact ⟨[], a, ps, rfl, fun x hx => absurd hx (List.not_mem_nil x), ha⟩
        · obtain ⟨p, hp, hpid⟩ := hex
          have hpps : p ∈ ps := by
            rcases List.mem_cons.1 hp with heq | hmem
            · exact absurd (heq ▸ hpid) ha
            · exact hmem
          obtain ⟨pre, q, suf, hps, hpre, hq⟩ := ih ⟨p, hpps, hpid⟩
          refine ⟨a :: pre, q, suf, by simp [hps], ?_, hq⟩
          intro x hx
          rcases List.mem_cons.1 hx with heq | hmem
          · rw [heq]; exact ha
          · exact hpre x hmem
    obtain ⟨pre, p, suf, hps, hpre, hp⟩ := hsplit
    by_cases ha : p.AuthorID = userID
    · exact Or.inr (Or.inr ⟨pre, p, suf, hps, hpre, hp, ha,
        by rw [hps]; exact deletePosts_removed postID userID pre suf p hpre hp ha⟩)
    · exact Or.inr (Or.inl ⟨pre, p, suf, hps, hpre, hp, ha,
        by rw [hps]; exact deletePosts_noAccess postID userID pre suf p hpre hp ha⟩)

/-- C26: `Delete` returns nil exactly when the first stored post with the id has the
requester as author, and then exactly that post is cut out, the others staying
unchanged and in order; it returns `ErrNotExist` exactly when no stored post has the
id, and then the store is unchanged.  When no two stored posts share an id, it returns
nil exactly when some stored post has the id and the requester as author. -/
theorem C26_delete_outcomes (r : MemoryRepo) (postID : String) (userID : Nat) :
    ((r.Delete postID userID).2 = none ↔
        ∃ pre p suf, r.posts = pre ++ p :: suf ∧ (∀ x ∈ pre, x.ID ≠ postID) ∧
          p.ID = postID ∧ p.AuthorID = userID) ∧
      (∀ pre p suf, r.posts = pre ++ p :: suf → (∀ x ∈ pre, x.ID ≠ postID) →
        p.ID = postID → p.AuthorID = userID →
          r.Delete postID userID = ({ idCount := r.idCount, posts := pre ++ suf }, none)) ∧
      ((r.Delete postID userID).2 = some PostError.ErrNotExist ↔
        ∀ p ∈ r.posts, p.ID ≠ postID) ∧
      ((r.Delete postID userID).2 = some PostError.ErrNotExist →
        (r.Delete postID userID).1 = r) ∧
      ((r.posts.map (fun p => p.ID)).Nodup →
        ((r.Delete postID userID).2 = none ↔
          ∃ p ∈ r.posts, p.ID = postID ∧ p.AuthorID = userID)) := by
  have hfirst : ∀ pre p suf pre2 p2 suf2, r.posts = pre ++ p :: suf →
      (∀ x ∈ pre, x.ID ≠ postID) → p.ID = postID → r.posts = pre2 ++ p2 :: suf2 →
      (∀ x ∈ pre2, x.ID ≠ postID) → p2.ID = postID → p = p2 := by
    intro pre p suf pre2 p2 suf2 h1 hpre hp h2 hpre2 hp2
    have hf1 : r.posts.find? (fun x => x.ID = postID) = some p := by
      rw [h1, List.find?_append]
      have : pre.find? (fun x => x.ID = postID) = none := by
        rw [List.find?_eq_none]
        intro x hx
        simpa using hpre x hx
      simp [this, hp]
    have hf2 : r.posts.find? (fun x => x.ID = postID) = some p2 := by
      rw [h2, List.find?_append]
      have : pre2.find? (fun x => x.ID = postID) = none := by
        rw [List.find?_eq_none]
        intro x hx
        simpa using hpre2 x hx
      simp [this, hp2]
    rw [hf1] at hf2
    exact Option.some.inj hf2
  have hmain : (r.Delete postID userID).2 = none ↔
      ∃ pre p suf, r.posts = pre ++ p :: suf ∧ (∀ x ∈ pre, x.ID ≠ postID) ∧
        p.ID = postID ∧ p.AuthorID = userID := by
    unfold MemoryRepo.Delete
    rcases deletePosts_cases postID userID r.posts with ⟨hall, hd⟩ | h | h
    · simp only [hd]
      constructor
      · intro hf; exact Option.noConfusion hf
      · rintro ⟨pre, p, suf, hps, _, hp, _⟩
        exact absurd hp (hall p (by rw [hps]; simp))
    · obtain ⟨pre, p, suf, hps, hpre, hp, ha, hd⟩ := h
      simp only [hd]
      constructor
      · intro hf; exact Option.noConfusion hf
      · rintro ⟨pre2, p2, suf2, hps2, hpre2, hp2, ha2⟩
        have := hfirst pre p suf pre2 p2 suf2 hps hpre hp hps2 hpre2 hp2
        exact absurd (this ▸ ha2) ha
    · obtain ⟨pre, p, suf, hps, hpre, hp, ha, hd⟩ := h
      simp only [hd]
      exact ⟨fun _ => ⟨pre, p, suf, hps, hpre, hp, ha⟩, fun _ => trivial⟩
  refine ⟨hmain, ?_, ?_, ?_, ?_⟩
  · intro pre p suf hps hpre hp ha
    unfold MemoryRepo.Delete
    rw [hps, deletePosts_removed postID userID pre suf p hpre hp ha]
  · unfold MemoryRepo.Delete
    rcases deletePosts_cases postID userID r.posts with ⟨hall, hd⟩ | h | h
    · simp only [hd]
      exact ⟨fun _ => hall, fun _ => trivial⟩
    · obtain ⟨pre, p, suf, hps, hpre, hp, ha, hd⟩ := h
      simp only [hd]
      constructor
      · intro hf; exact absurd hf (by decide)
      · intro hall
        exact absurd hp (hall p (by rw [hps]; simp))
    · obtain ⟨pre, p, suf, hps, hpre, hp, ha, hd⟩ := h
      simp only [hd]
      constructor
      · intro hf; exact Option.noConfusion hf
      · intro hall
        exact absurd hp (hall p (by rw [hps]; simp))
  · unfold MemoryRepo.Delete
    rcases deletePosts_cases postID userID r.posts with ⟨hall, hd⟩ | h | h
    · simp only [hd]
      intro _
      trivial
    · obtain ⟨pre, p, suf, hps, hpre, hp, ha, hd⟩ := h
      simp only [hd]
      intro hf; exact absurd hf (by decide)
    · obtain ⟨pre, p, suf, hps, hpre, hp, ha, hd⟩ := h
      simp only [hd]
      intro hf; exact Option.noConfusion hf
  · intro hnd
    rw [hmain]
    constructor
    · rintro ⟨pre, p, suf, hps, _, hp, ha⟩
      exact ⟨p, by rw [hps]; simp, hp, ha⟩
    · rintro ⟨p, hmem, hp, ha⟩
      obtain ⟨pre, suf, hps⟩ := List.append_of_mem hmem
      refine ⟨pre, p, suf, hps, ?_, hp, ha⟩
      intro x hx hxid
      rw [hps] at hnd
      simp only [List.map_append, List.map_cons] at hnd
      have hdis := (List.nodup_append.1 hnd).2.2
      have h1 : x.ID ∈ pre.map (fun p => p.ID) := List.mem_map_of_mem (fun p => p.ID) hx
      have h2 : x.ID ∈ p.ID :: suf.map (fun p => p.ID) := by
        rw [hxid, hp]; exact List.mem_cons_self _ _
      exact hdis h1 h2

/-! ## Identifiers of the in-memory store -/

theorem digitChar_value (d : Nat) (h : d < 10) : (Nat.digitChar d).toNat - 48 = d := by
  interval_cases d <;> rfl

theorem digitsValue_toDigitsCore (fuel n : Nat) (ds : List Char) (h : n < fuel) :
    digitsValue 0 (Nat.toDigitsCore 10 fuel n ds) = digitsValue n ds := by
  induction fuel generalizing n ds with
  | zero => exact absurd h (Nat.not_lt_zero n)
  | succ fuel ih =>
    have hd : (Nat.digitChar (n % 10)).toNat - 48 = n % 10 :=
      digitChar_value (n % 10) (Nat.mod_lt n (by decide))
    by_cases h0 : n / 10 = 0
    · have hn : n % 10 = n := by omega
      rw [hn] at hd
      simp [Nat.toDigitsCore, h0, digitsValue, hn, hd]
    · have hlt : n / 10 < fuel := by omega
      have hstep : n / 10 * 10 + n % 10 = n := by omega
      simp only [Nat.toDigitsCore, h0, if_false]
      rw [ih (n / 10) _ hlt]
      simp [digitsValue, hd, hstep]

theorem digitsValue_repr (n : Nat) : digitsValue 0 (Nat.repr n).data = n := by
  have h := digitsValue_toDigitsCore (n + 1) n [] (Nat.lt_succ_self n)
  simpa [Nat.repr, Nat.toDigits, List.asString, digitsValue] using h

theorem repr_injective (a b : Nat) (h : Nat.repr a = Nat.repr b) : a = b := by
  have ha := digitsValue_repr a
  rw [h, digitsValue_repr b] at ha
  exact ha.symm

theorem Create_id (r : MemoryRepo) (p : Post) (now : String) (h : r.idCount + 1 < 2 ^ 63) :
    (r.Create p now).2 = Nat.repr (r.idCount + 1) := by
  have hmod : (r.idCount + 1) % 2 ^ 64 = r.idCount + 1 := Nat.mod_eq_of_lt (by omega)
  have hint : uintToInt (r.idCount + 1) = ((r.idCount + 1 : Nat) : Int) := by
    unfold uintToInt
    rw [hmod, if_pos h]
  show toString (uintToInt ((r.idCount + 1) % 2 ^ 64)) = Nat.repr (r.idCount + 1)
  rw [hmod, hint]
  rfl

theorem SameFrame_ID (p q : Post) (h : SameFrame p q) : q.ID = p.ID := by
  unfold SameFrame at h
  rw [h]

theorem VoteFrame_ids (r s : MemoryRepo) (postID : String) (h : VoteFrame r s postID) :
    s.idCount = r.idCount ∧ s.posts.map (fun p => p.ID) = r.posts.map (fun p => p.ID) := by
  rcases h with h | ⟨pre, p, q, suf, hr, hs, _, hf⟩
  · rw [h]; exact ⟨rfl, rfl⟩
  · rw [hs, hr]
    simp [SameFrame_ID p q hf]

theorem getByIDPosts_ids (id : String) (d : GoInt) (ps : List Post) (res : List Post × Post)
    (h : getByIDPosts id d ps = some res) :
    res.1.map (fun p => p.ID) = ps.map (fun p => p.ID) := by
  induction ps generalizing res with
  | nil => simp [getByIDPosts] at h
  | cons a ps ih =>
    by_cases hid : a.ID = id
    · simp [getByIDPosts, hid] at h
      subst h
      simp [hid]
    · cases hu : getByIDPosts id d ps with
      | none => simp [getByIDPosts, hid, hu] at h
      | some us =>
        simp [getByIDPosts, hid, hu] at h
        subst h
        simp [ih us hu]

theorem addCommentPosts_ids (postID commentID : String) (ps qs : List Post)
    (h : addCommentPosts postID commentID ps = some qs) :
    qs.map (fun p => p.ID) = ps.map (fun p => p.ID) := by
  induction ps generalizing qs with
  | nil => simp [addCommentPosts] at h
  | cons a ps ih =>
    by_cases hid : a.ID = postID
    · simp [addCommentPosts, hid] at h
      subst h
      simp [hid]
    · cases hu : addCommentPosts postID commentID ps with
      | none => simp [addCommentPosts, hid, hu] at h
      | some us =>
        simp [addCommentPosts, hid, hu] at h
        subst h
        simp [ih us hu]

theorem deletePosts_ids (postID : String) (userID : Nat) (ps : List Post) :
    ((deletePosts postID userID ps).1.map (fun p => p.ID)).Sublist (ps.map (fun p => p.ID)) := by
  rcases deletePosts_cases postID userID ps with ⟨_, hd⟩ | h | h
  · rw [hd]
  · obtain ⟨pre, p, suf, _, _, _, _, hd⟩ := h
    rw [hd]
  · obtain ⟨pre, p, suf, hps, _, _, _, hd⟩ := h
    rw [hd, hps]
    simp only [List.map_append, List.map_cons]
    exact List.Sublist.append (List.Sublist.refl _) (List.sublist_cons_self _ _)

/-- The identifier condition on a store with `n` creations behind it. -/
theorem ids_of_sublist (n : Nat) (l m : List String) (hsub : l.Sublist m)
    (h : (∀ i ∈ m, ∃ k, 1 ≤ k ∧ k ≤ n ∧ i = Nat.repr k) ∧ m.Nodup) :
    (∀ i ∈ l, ∃ k, 1 ≤ k ∧ k ≤ n ∧ i = Nat.repr k) ∧ l.Nodup :=
  ⟨fun i hi => h.1 i (hsub.subset hi), h.2.sublist hsub⟩

/-- An assignment through a pointer that keeps the id of the post keeps every id. -/
theorem store_ID (heap : Nat → Post) (a : Nat) (q : Post) (h : q.ID = (heap a).ID) (b : Nat) :
    (store heap a q b).ID = (heap b).ID := by
  unfold store
  by_cases hb : b = a
  · simp [hb, h]
  · simp [hb]

/-- An assignment through a pointer that is not stored leaves the stored posts alone. -/
theorem map_store_of_not_mem (heap : Nat → Post) (a : Nat) (q : Post) (l : List Nat)
    (h : a ∉ l) : l.map (store heap a q) = l.map heap := by
  apply List.map_congr_left
  intro b hb
  have hne : b ≠ a := fun e => h (e ▸ hb)
  simp [store, hne]

theorem ids_store (r : HeapRepo) (a : Nat) (q : Post) (h : q.ID = (r.heap a).ID) :
    HeapRepo.ids { r with heap := store r.heap a q } = r.ids := by
  unfold HeapRepo.ids
  apply List.map_congr_left
  intro b _
  exact store_ID r.heap a q h b

theorem ids_store_of_not_mem (r : HeapRepo) (a : Nat) (q : Post) (h : a ∉ r.posts) :
    HeapRepo.ids { r with heap := store r.heap a q } = r.ids := by
  unfold HeapRepo.ids
  apply List.map_congr_left
  intro b hb
  have hne : b ≠ a := fun e => h (e ▸ hb)
  simp [store, hne]

theorem unvotePost_ID (p q : Post) (voter : Nat) (h : unvotePost p voter = some q) :
    q.ID = p.ID := by
  unfold unvotePost at h
  cases hu : unvoteVotes voter p.Votes p.UpvotesCount p.DownvotesCount with
  | none => simp [hu] at h
  | some res =>
    simp [hu] at h
    rw [← h]

theorem findUnvote_ID (heap : Nat → Post) (postID : String) (voter : Nat) (l : List Nat)
    (a : Nat) (q : Post) (h : findUnvote heap postID voter l = some (a, q)) :
    q.ID = (heap a).ID := by
  induction l with
  | nil => simp [findUnvote] at h
  | cons b bs ih =>
    unfold findUnvote at h
    by_cases hid : (heap b).ID = postID
    · cases hu : unvotePost (heap b) voter with
      | none =>
        simp only [hid, ne_eq, not_true_eq_false, if_false, hu] at h
        exact ih h
      | some q2 =>
        simp only [hid, ne_eq, not_true_eq_false, if_false, hu, Option.some.injEq,
          Prod.mk.injEq] at h
        obtain ⟨h1, h2⟩ := h
        subst h1 h2
        exact unvotePost_ID _ _ voter hu
    · simp only [ne_eq, hid, not_false_eq_true, if_true] at h
      exact ih h

theorem deleteAddrs_sublist (heap : Nat → Post) (postID : String) (userID : Nat)
    (l : List Nat) : (deleteAddrs heap postID userID l).1.Sublist l := by
  induction l with
  | nil => simp [deleteAddrs]
  | cons a as ih =>
    unfold deleteAddrs
    by_cases hid : (heap a).ID = postID
    · by_cases hau : (heap a).AuthorID = userID
      · simp [hid, hau]
      · simp [hid, hau]
    · simp only [ne_eq, hid, not_false_eq_true, if_true]
      exact List.Sublist.cons₂ a ih

/-- The method `Create` on a pointer: the id it returns. -/
theorem HeapCreate_id (r : HeapRepo) (a : Nat) (now : String) (h : r.idCount + 1 < 2 ^ 63) :
    (r.Create a now).2 = Nat.repr (r.idCount + 1) := by
  have hmod : (r.idCount + 1) % 2 ^ 64 = r.idCount + 1 := Nat.mod_eq_of_lt (by omega)
  have hint : uintToInt (r.idCount + 1) = ((r.idCount + 1 : Nat) : Int) := by
    unfold uintToInt
    rw [hmod, if_pos h]
  show toString (uintToInt ((r.idCount + 1) % 2 ^ 64)) = Nat.repr (r.idCount + 1)
  rw [hmod, hint]
  rfl

/-- On a pointer to a post that is not stored, `Create` stores what `MemoryRepo.Create`
stores for the post the pointer leads to, and returns the same id. -/
theorem HeapCreate_view (r : HeapRepo) (a : Nat) (now : String) (h : a ∉ r.posts) :
    (r.Create a now).1.view = (r.view.Create (r.heap a) now).1 ∧
      (r.Create a now).2 = (r.view.Create (r.heap a) now).2 := by
  refine ⟨?_, rfl⟩
  unfold HeapRepo.Create HeapRepo.view MemoryRepo.Create
  simp only [List.map_append, List.map_cons, List.map_nil, MemoryRepo.mk.injEq, true_and]
  rw [map_store_of_not_mem r.heap a _ r.posts h]
  simp [store]

theorem ids_after_create (r : HeapRepo) (a : Nat) (now : String) (h : a ∉ r.posts) :
    (r.Create a now).1.ids = r.ids ++ [(r.Create a now).2] := by
  unfold HeapRepo.ids HeapRepo.Create
  simp only [List.map_append, List.map_cons, List.map_nil]
  congr 1
  · apply List.map_congr_left
    intro b hb
    have hne : b ≠ a := fun e => h (e ▸ hb)
    simp [store, hne]
  · simp [store]

theorem HeapReachableWith_ids (n : Nat) (r : HeapRepo) (h : HeapReachableWith n r)
    (hn : n < 2 ^ 63) :
    r.idCount = n ∧
      (∀ i ∈ r.ids, ∃ k, 1 ≤ k ∧ k ≤ n ∧ i = Nat.repr k) ∧ r.ids.Nodup := by
  induction h with
  | init heap =>
    refine ⟨rfl, ?_, ?_⟩
    · intro i hi
      simp [NewHeapRepo, HeapRepo.ids] at hi
    · simp [NewHeapRepo, HeapRepo.ids]
  | prepare n r a p _ ha ih =>
    obtain ⟨hc, hids, hnd⟩ := ih hn
    rw [ids_store_of_not_mem r a p ha]
    exact ⟨hc, hids, hnd⟩
  | create n r a now _ ha ih =>
    obtain ⟨hc, hids, hnd⟩ := ih (by omega)
    have hid : (r.Create a now).2 = Nat.repr (n + 1) := by
      rw [HeapCreate_id r a now (by rw [hc]; exact hn), hc]
    have hposts := ids_after_create r a now ha
    rw [hid] at hposts
    refine ⟨?_, ?_, ?_⟩
    · show (r.idCount + 1) % 2 ^ 64 = n + 1
      rw [hc]
      exact Nat.mod_eq_of_lt (by omega)
    · rw [hposts]
      intro i hi
      rcases List.mem_append.1 hi with h1 | h2
      · obtain ⟨k, hk1, hk2, hk⟩ := hids i h1
        exact ⟨k, hk1, by omega, hk⟩
      · rw [List.mem_singleton] at h2
        exact ⟨n + 1, by omega, le_refl _, h2⟩
    · rw [hposts, List.nodup_append]
      refine ⟨hnd, List.nodup_singleton _, ?_⟩
      intro i h1 h2
      rw [List.mem_singleton] at h2
      obtain ⟨k, _, hk2, hk⟩ := hids i h1
      have := repr_injective k (n + 1) (by rw [← hk, h2])
      omega
  | getByID n r id d _ ih =>
    obtain ⟨hc, hids, hnd⟩ := ih hn
    unfold HeapRepo.GetByID
    cases hg : findPost r.heap id r.posts with
    | none => exact ⟨hc, hids, hnd⟩
    | some a =>
      simp only []
      rw [ids_store r a { r.heap a with Views := (r.heap a).Views + d } rfl]
      exact ⟨hc, hids, hnd⟩
  | addComment n r postID commentID _ ih =>
    obtain ⟨hc, hids, hnd⟩ := ih hn
    unfold HeapRepo.AddComment
    cases hg : findPost r.heap postID r.posts with
    | none => exact ⟨hc, hids, hnd⟩
    | some a =>
      simp only []
      rw [ids_store r a { r.heap a with CommentIDs := (r.heap a).CommentIDs ++ [commentID] }
        rfl]
      exact ⟨hc, hids, hnd⟩
  | upvote n r postID voter _ ih =>
    obtain ⟨hc, hids, hnd⟩ := ih hn
    unfold HeapRepo.Upvote
    cases hg : findPost r.heap postID r.posts with
    | none => exact ⟨hc, hids, hnd⟩
    | some a =>
      simp only []
      rw [ids_store r a _ (upvotePost_ID _ voter)]
      exact ⟨hc, hids, hnd⟩
  | downvote n r postID voter _ ih =>
    obtain ⟨hc, hids, hnd⟩ := ih hn
    unfold HeapRepo.Downvote
    cases hg : findPost r.heap postID r.posts with
    | none => exact ⟨hc, hids, hnd⟩
    | some a =>
      simp only []
      rw [ids_store r a _ (downvotePost_ID _ voter)]
      exact ⟨hc, hids, hnd⟩
  | unvote n r postID voter _ ih =>
    obtain ⟨hc, hids, hnd⟩ := ih hn
    unfold HeapRepo.Unvote
    cases hg : findUnvote r.heap postID voter r.posts with
    | none => exact ⟨hc, hids, hnd⟩
    | some res =>
      obtain ⟨a, q⟩ := res
      simp only []
      rw [ids_store r a q (findUnvote_ID r.heap postID voter r.posts a q hg)]
      exact ⟨hc, hids, hnd⟩
  | delete n r postID userID _ ih =>
    obtain ⟨hc, hids, hnd⟩ := ih hn
    have hsub : (r.Delete postID userID).1.ids.Sublist r.ids := by
      unfold HeapRepo.Delete HeapRepo.ids
      exact (deleteAddrs_sublist r.heap postID userID r.posts).map _
    have hs := ids_of_sublist n _ _ hsub ⟨hids, hnd⟩
    exact ⟨hc, hs.1, hs.2⟩
  | deleteComment n r s postID commentID e _ hs ih =>
    obtain ⟨hc, hids, hnd⟩ := ih hn
    unfold HeapRepo.DeleteComment at hs
    simp only [] at hs
    split at hs
    · have hrs : r = s := congrArg Prod.fst (Option.some.inj hs)
      rw [← hrs]
      exact ⟨hc, hids, hnd⟩
    · split at hs
      · exact Option.noConfusion hs
      · rename_i a _
        split at hs
        · rename_i cs _
          simp only [Option.some.injEq, Prod.mk.injEq] at hs
          obtain ⟨hrs, _⟩ := hs
          rw [← hrs, ids_store r a { r.heap a with CommentIDs := cs } rfl]
          exact ⟨hc, hids, hnd⟩
        · have hrs : r = s := congrArg Prod.fst (Option.some.inj hs)
          rw [← hrs]
          exact ⟨hc, hids, hnd⟩

/-! ## The store of values is the store of pointers while no post is stored twice -/

theorem findPost_cases (heap : Nat → Post) (postID : String) (l : List Nat) :
    (findPost heap postID l = none ∧ ∀ a ∈ l, (heap a).ID ≠ postID) ∨
      ∃ pre a suf, l = pre ++ a :: suf ∧ (∀ b ∈ pre, (heap b).ID ≠ postID) ∧
        (heap a).ID = postID ∧ findPost heap postID l = some a := by
  induction l with
  | nil => exact Or.inl ⟨rfl, by simp⟩
  | cons b bs ih =>
    by_cases hb : (heap b).ID = postID
    · exact Or.inr ⟨[], b, bs, rfl, by simp, hb, by simp [findPost, hb]⟩
    · rcases ih with ⟨h1, h2⟩ | ⟨pre, a, suf, h1, h2, h3, h4⟩
      · refine Or.inl ⟨by simp [findPost, hb, h1], ?_⟩
        intro a ha
        rcases List.mem_cons.1 ha with h | h
        · rw [h]; exact hb
        · exact h2 a h
      · refine Or.inr ⟨b :: pre, a, suf, by simp [h1], ?_, h3, by simp [findPost, hb, h4]⟩
        intro x hx
        rcases List.mem_cons.1 hx with h | h
        · rw [h]; exact hb
        · exact h2 x h

theorem map_store_split (heap : Nat → Post) (a : Nat) (q : Post) (pre suf : List Nat)
    (h : (pre ++ a :: suf).Nodup) :
    (pre ++ a :: suf).map (store heap a q) = pre.map heap ++ q :: suf.map heap := by
  rw [List.nodup_append] at h
  obtain ⟨_, h2, h3⟩ := h
  have hpre : a ∉ pre := fun hm => h3 hm (List.mem_cons_self _ _)
  have hsuf : a ∉ suf := (List.nodup_cons.1 h2).1
  rw [List.map_append, List.map_cons, map_store_of_not_mem heap a q pre hpre,
    map_store_of_not_mem heap a q suf hsuf]
  simp [store]

/-- On a slice without a repeated pointer, `Upvote` on pointers is `Upvote` on values. -/
theorem HeapUpvote_view (r : HeapRepo) (hnd : r.posts.Nodup) (postID : String) (voter : Nat) :
    (r.Upvote postID voter).1.view = (r.view.Upvote postID voter).1 ∧
      (r.Upvote postID voter).2 = (r.view.Upvote postID voter).2 ∧
      (r.Upvote postID voter).1.posts = r.posts := by
  unfold HeapRepo.Upvote MemoryRepo.Upvote
  rcases findPost_cases r.heap postID r.posts with ⟨h1, h2⟩ | ⟨pre, a, suf, h1, h2, h3, h4⟩
  · have hv : upvotePosts postID voter r.view.posts = none := by
      rw [upvotePosts_eq_none_iff]
      intro p hp
      obtain ⟨b, hb, rfl⟩ := List.mem_map.1 hp
      exact h2 b hb
    simp only [h1, hv]
    exact ⟨by trivial, by trivial, by trivial⟩
  · have hv : upvotePosts postID voter r.view.posts =
        some (pre.map r.heap ++ upvotePost (r.heap a) voter :: suf.map r.heap) := by
      show upvotePosts postID voter (r.posts.map r.heap) = _
      rw [h1, List.map_append, List.map_cons]
      apply upvotePosts_split _ _ _ _ _ _ h3
      intro p hp
      obtain ⟨b, hb, rfl⟩ := List.mem_map.1 hp
      exact h2 b hb
    simp only [h4, hv]
    refine ⟨?_, by trivial, by trivial⟩
    show MemoryRepo.mk r.idCount (r.posts.map (store r.heap a _)) = MemoryRepo.mk r.idCount _
    rw [h1, map_store_split r.heap a _ pre suf (h1 ▸ hnd)]

/-- On a slice without a repeated pointer, `Downvote` on pointers is `Downvote` on
values. -/
theorem HeapDownvote_view (r : HeapRepo) (hnd : r.posts.Nodup) (postID : String)
    (voter : Nat) :
    (r.Downvote postID voter).1.view = (r.view.Downvote postID voter).1 ∧
      (r.Downvote postID voter).2 = (r.view.Downvote postID voter).2 ∧
      (r.Downvote postID voter).1.posts = r.posts := by
  unfold HeapRepo.Downvote MemoryRepo.Downvote
  rcases findPost_cases r.heap postID r.posts with ⟨h1, h2⟩ | ⟨pre, a, suf, h1, h2, h3, h4⟩
  · have hv : downvotePosts postID voter r.view.posts = none := by
      rw [downvotePosts_eq_none_iff]
      intro p hp
      obtain ⟨b, hb, rfl⟩ := List.mem_map.1 hp
      exact h2 b hb
    simp only [h1, hv]
    exact ⟨by trivial, by trivial, by trivial⟩
  · have hv : downvotePosts postID voter r.view.posts =
        some (pre.map r.heap ++ downvotePost (r.heap a) voter :: suf.map r.heap) := by
      show downvotePosts postID voter (r.posts.map r.heap) = _
      rw [h1, List.map_append, List.map_cons]
      apply downvotePosts_split _ _ _ _ _ _ h3
      intro p hp
      obtain ⟨b, hb, rfl⟩ := List.mem_map.1 hp
      exact h2 b hb
    simp only [h4, hv]
    refine ⟨?_, by trivial, by trivial⟩
    show MemoryRepo.mk r.idCount (r.posts.map (store r.heap a _)) = MemoryRepo.mk r.idCount _
    rw [h1, map_store_split r.heap a _ pre suf (h1 ▸ hnd)]

/-- On a slice without a repeated pointer, `GetByID` on pointers is `GetByID` on values. -/
theorem HeapGetByID_view (r : HeapRepo) (hnd : r.posts.Nodup) (id : String) (d : GoInt) :
    (r.GetByID id d).1.view = (r.view.GetByID id d).1 ∧
      (r.GetByID id d).2 = (r.view.GetByID id d).2 ∧
      (r.GetByID id d).1.posts = r.posts := by
  unfold HeapRepo.GetByID MemoryRepo.GetByID
  rcases findPost_cases r.heap id r.posts with ⟨h1, h2⟩ | ⟨pre, a, suf, h1, h2, h3, h4⟩
  · have hv : getByIDPosts id d r.view.posts = none := by
      apply getByIDPosts_eq_none
      intro p hp
      obtain ⟨b, hb, rfl⟩ := List.mem_map.1 hp
      exact h2 b hb
    simp only [h1, hv]
    exact ⟨by trivial, by trivial, by trivial⟩
  · have hv : getByIDPosts id d r.view.posts =
        some (pre.map r.heap ++ { r.heap a with Views := (r.heap a).Views + d } :: suf.map r.heap,
          { r.heap a with Views := (r.heap a).Views + d }) := by
      show getByIDPosts id d (r.posts.map r.heap) = _
      rw [h1, List.map_append, List.map_cons]
      apply getByIDPosts_split _ _ _ _ _ _ h3
      intro p hp
      obtain ⟨b, hb, rfl⟩ := List.mem_map.1 hp
      exact h2 b hb
    simp only [h4, hv]
    refine ⟨?_, by trivial, by trivial⟩
    show MemoryRepo.mk r.idCount (r.posts.map (store r.heap a _)) = MemoryRepo.mk r.idCount _
    rw [h1, map_store_split r.heap a _ pre suf (h1 ▸ hnd)]

/-- On a slice without a repeated pointer, `AddComment` on pointers is `AddComment` on
values. -/
theorem HeapAddComment_view (r : HeapRepo) (hnd : r.posts.Nodup) (postID commentID : String) :
    (r.AddComment postID commentID).1.view = (r.view.AddComment postID commentID).1 ∧
      (r.AddComment postID commentID).2 = (r.view.AddComment postID commentID).2 ∧
      (r.AddComment postID commentID).1.posts = r.posts := by
  unfold HeapRepo.AddComment MemoryRepo.AddComment
  rcases findPost_cases r.heap postID r.posts with ⟨h1, h2⟩ | ⟨pre, a, suf, h1, h2, h3, h4⟩
  · have hv : addCommentPosts postID commentID r.view.posts = none := by
      apply addCommentPosts_eq_none
      intro p hp
      obtain ⟨b, hb, rfl⟩ := List.mem_map.1 hp
      exact h2 b hb
    simp only [h1, hv]
    exact ⟨by trivial, by trivial, by trivial⟩
  · have hv : addCommentPosts postID commentID r.view.posts =
        some (pre.map r.heap ++
          { r.heap a with CommentIDs := (r.heap a).CommentIDs ++ [commentID] } ::
            suf.map r.heap) := by
      show addCommentPosts postID commentID (r.posts.map r.heap) = _
      rw [h1, List.map_append, List.map_cons]
      apply addCommentPosts_split _ _ _ _ _ _ h3
      intro p hp
      obtain ⟨b, hb, rfl⟩ := List.mem_map.1 hp
      exact h2 b hb
    simp only [h4, hv]
    refine ⟨?_, by trivial, by trivial⟩
    show MemoryRepo.mk r.idCount (r.posts.map (store r.heap a _)) = MemoryRepo.mk r.idCount _
    rw [h1, map_store_split r.heap a _ pre suf (h1 ▸ hnd)]

theorem findUnvote_mem (heap : Nat → Post) (postID : String) (voter : Nat) (l : List Nat)
    (a : Nat) (q : Post) (h : findUnvote heap postID voter l = some (a, q)) : a ∈ l := by
  induction l with
  | nil => simp [findUnvote] at h
  | cons b bs ih =>
    unfold findUnvote at h
    by_cases hid : (heap b).ID = postID
    · cases hu : unvotePost (heap b) voter with
      | none =>
        simp only [hid, ne_eq, not_true_eq_false, if_false, hu] at h
        exact List.mem_cons_of_mem _ (ih h)
      | some q2 =>
        simp only [hid, ne_eq, not_true_eq_false, if_false, hu, Option.some.injEq,
          Prod.mk.injEq] at h
        rw [← h.1]
        exact List.mem_cons_self _ _
    · simp only [ne_eq, hid, not_false_eq_true, if_true] at h
      exact List.mem_cons_of_mem _ (ih h)

theorem unvotePosts_of_findUnvote (heap : Nat → Post) (postID : String) (voter : Nat)
    (l : List Nat) (hnd : l.Nodup) :
    (findUnvote heap postID voter l = none ∧ unvotePosts postID voter (l.map heap) = none) ∨
      ∃ a q, findUnvote heap postID voter l = some (a, q) ∧
        unvotePosts postID voter (l.map heap) = some (l.map (store heap a q)) := by
  induction l with
  | nil => exact Or.inl ⟨rfl, rfl⟩
  | cons b bs ih =>
    obtain ⟨hb, hbs⟩ := List.nodup_cons.1 hnd
    have step : ∀ a q, findUnvote heap postID voter bs = some (a, q) →
        (b :: bs).map (store heap a q) = heap b :: bs.map (store heap a q) := by
      intro a q hf
      have ha := findUnvote_mem heap postID voter bs a q hf
      have hne : b ≠ a := fun e => hb (e ▸ ha)
      simp [store, hne]
    by_cases hid : (heap b).ID = postID
    · cases hu : unvotePost (heap b) voter with
      | none =>
        rcases ih hbs with ⟨h1, h2⟩ | ⟨a, q, h1, h2⟩
        · exact Or.inl ⟨by simp [findUnvote, hid, hu, h1],
            by simp [unvotePosts, hid, hu, h2]⟩
        · refine Or.inr ⟨a, q, by simp [findUnvote, hid, hu, h1], ?_⟩
          rw [step a q h1]
          simp [unvotePosts, hid, hu, h2]
      | some q2 =>
        refine Or.inr ⟨b, q2, by simp [findUnvote, hid, hu], ?_⟩
        have hmap : (b :: bs).map (store heap b q2) = q2 :: bs.map heap := by
          rw [List.map_cons, map_store_of_not_mem heap b q2 bs hb]
          simp [store]
        rw [hmap]
        simp [unvotePosts, hid, hu]
    · rcases ih hbs with ⟨h1, h2⟩ | ⟨a, q, h1, h2⟩
      · exact Or.inl ⟨by simp [findUnvote, hid, h1], by simp [unvotePosts, hid, h2]⟩
      · refine Or.inr ⟨a, q, by simp [findUnvote, hid, h1], ?_⟩
        rw [step a q h1]
        simp [unvotePosts, hid, h2]

/-- On a slice without a repeated pointer, `Unvote` on pointers is `Unvote` on values. -/
theorem HeapUnvote_view (r : HeapRepo) (hnd : r.posts.Nodup) (postID : String) (voter : Nat) :
    (r.Unvote postID voter).1.view = (r.view.Unvote postID voter).1 ∧
      (r.Unvote postID voter).2 = (r.view.Unvote postID voter).2 ∧
      (r.Unvote postID voter).1.posts = r.posts := by
  unfold HeapRepo.Unvote MemoryRepo.Unvote
  rcases unvotePosts_of_findUnvote r.heap postID voter r.posts hnd with
    ⟨h1, h2⟩ | ⟨a, q, h1, h2⟩
  · have hv : unvotePosts postID voter r.view.posts = none := h2
    simp only [h1, hv]
    exact ⟨by trivial, by trivial, by trivial⟩
  · have hv : unvotePosts postID voter r.view.posts =
        some (r.posts.map (store r.heap a q)) := h2
    simp only [h1, hv]
    exact ⟨by trivial, by trivial, by trivial⟩

theorem deleteAddrs_map (heap : Nat → Post) (postID : String) (userID : Nat) (l : List Nat) :
    (deleteAddrs heap postID userID l).1.map heap = (deletePosts postID userID (l.map heap)).1 ∧
      (deleteAddrs heap postID userID l).2 = (deletePosts postID userID (l.map heap)).2 := by
  induction l with
  | nil => exact ⟨rfl, rfl⟩
  | cons a as ih =>
    by_cases hid : (heap a).ID = postID
    · by_cases hau : (heap a).AuthorID = userID
      · simp [deleteAddrs, deletePosts, hid, hau]
      · simp [deleteAddrs, deletePosts, hid, hau]
    · simp [deleteAddrs, deletePosts, hid, ih.1, ih.2]

/-- The method `Delete` on pointers is `Delete` on values, and it keeps a slice without a
repeated pointer such. -/
theorem HeapDelete_view (r : HeapRepo) (postID : String) (userID : Nat) :
    (r.Delete postID userID).1.view = (r.view.Delete postID userID).1 ∧
      (r.Delete postID userID).2 = (r.view.Delete postID userID).2 ∧
      (r.Delete postID userID).1.posts.Sublist r.posts := by
  obtain ⟨h1, h2⟩ := deleteAddrs_map r.heap postID userID r.posts
  refine ⟨?_, h2, deleteAddrs_sublist r.heap postID userID r.posts⟩
  show MemoryRepo.mk r.idCount ((deleteAddrs r.heap postID userID r.posts).1.map r.heap) =
    MemoryRepo.mk r.idCount (deletePosts postID userID (r.posts.map r.heap)).1
  rw [h1]

/-- The method `DeleteComment` on pointers returns `ErrNotExist` and changes nothing, as
it does on values. -/
theorem HeapDeleteComment_eq (r : HeapRepo) (postID commentID : String) :
    r.DeleteComment postID commentID = some (r, some PostError.ErrNotExist) := by
  simp [HeapRepo.DeleteComment, deleteCommentScan_eq]

/-- In a store reached with each `Create` on a pointer that is not stored, no pointer is
stored twice. -/
theorem HeapReachableWith_nodup (n : Nat) (r : HeapRepo) (h : HeapReachableWith n r) :
    r.posts.Nodup := by
  induction h with
  | init heap => exact List.nodup_nil
  | prepare n r a p _ _ ih => exact ih
  | create n r a now _ ha ih =>
    show (r.posts ++ [a]).Nodup
    rw [List.nodup_append]
    refine ⟨ih, List.nodup_singleton _, ?_⟩
    intro x h1 h2
    rw [List.mem_singleton] at h2
    exact ha (h2 ▸ h1)
  | getByID n r id d _ ih => rw [(HeapGetByID_view r ih id d).2.2]; exact ih
  | addComment n r postID commentID _ ih =>
    rw [(HeapAddComment_view r ih postID commentID).2.2]; exact ih
  | upvote n r postID voter _ ih => rw [(HeapUpvote_view r ih postID voter).2.2]; exact ih
  | downvote n r postID voter _ ih => rw [(HeapDownvote_view r ih postID voter).2.2]; exact ih
  | unvote n r postID voter _ ih => rw [(HeapUnvote_view r ih postID voter).2.2]; exact ih
  | delete n r postID userID _ ih => exact ih.sublist (HeapDelete_view r postID userID).2.2
  | deleteComment n r s postID commentID e _ hs ih =>
    rw [HeapDeleteComment_eq] at hs
    have hrs : r = s := congrArg Prod.fst (Option.some.inj hs)
    rw [← hrs]
    exact ih

/-- C25 as stated fails when `Create` is passed a pointer to a post that is stored
already.  `Create` writes the new id through the pointer and stores the pointer: after
two calls on the same pointer the slice holds it twice, the calls have returned "1" and
"2", and both stored posts, the same post, have the id "2". -/
theorem C25_create_same_pointer_twice :
    ((NewHeapRepo (fun _ => mkPost "" 7 [] 0 0)).Create 0 "t1").2 = "1" ∧
      (((NewHeapRepo (fun _ => mkPost "" 7 [] 0 0)).Create 0 "t1").1.Create 0 "t2").2 = "2" ∧
      (((NewHeapRepo (fun _ => mkPost "" 7 [] 0 0)).Create 0 "t1").1.Create 0 "t2").1.posts
        = [0, 0] ∧
      (((NewHeapRepo (fun _ => mkPost "" 7 [] 0 0)).Create 0 "t1").1.Create 0 "t2").1.ids
        = ["2", "2"] ∧
      ¬ (((NewHeapRepo (fun _ => mkPost "" 7 [] 0 0)).Create 0 "t1").1.Create 0 "t2").1.ids.Nodup
        ∧
      (((NewHeapRepo (fun _ => mkPost "" 7 [] 0 0)).Create 0 "t1").1.Create 0
          "t2").1.view.posts.map (fun q => (q.ID, q.CreateDate))
        = [("2", "t2"), ("2", "t2")] := by
  decide

/-- C25 (amended): in a store reached from `NewMemoryRepo` by a call sequence with `n`
calls of `Create`, fewer than 2^63 and each on a pointer to a post that is not stored,
whatever `Delete` and other calls lie between: the id counter is `n`; the next `Create`
(when it too stays below 2^63) returns, on any pointer, the decimal string of `n + 1`,
which spells the number `n + 1` and differs from the decimal string of every `k ≤ n`, so
no id issued before is given again; every stored id is the decimal string of some `k`
with `1 ≤ k ≤ n`; no two stored posts share an id; `Delete` leaves the id counter alone;
on a pointer to a post that is not stored `Create` stores what `MemoryRepo.Create` stores
for that post; and no pointer is stored twice. -/
theorem C25_ids_count_creations (n : Nat) (r : HeapRepo) (h : HeapReachableWith n r)
    (hn : n < 2 ^ 63) :
    r.idCount = n ∧
      (n + 1 < 2 ^ 63 → ∀ (a : Nat) (now : String),
        (r.Create a now).2 = Nat.repr (n + 1) ∧
          digitsValue 0 (r.Create a now).2.data = n + 1) ∧
      (∀ k, k ≤ n → Nat.repr (n + 1) ≠ Nat.repr k) ∧
      (∀ i ∈ r.ids, ∃ k, 1 ≤ k ∧ k ≤ n ∧ i = Nat.repr k) ∧
      r.ids.Nodup ∧
      (∀ (postID : String) (userID : Nat), (r.Delete postID userID).1.idCount = r.idCount) ∧
      (∀ (a : Nat) (now : String), a ∉ r.posts →
        (r.Create a now).1.view = (r.view.Create (r.heap a) now).1 ∧
          (r.Create a now).1.ids = r.ids ++ [(r.Create a now).2]) ∧
      r.posts.Nodup := by
  obtain ⟨hc, hids, hnd⟩ := HeapReachableWith_ids n r h hn
  refine ⟨hc, ?_, ?_, hids, hnd, fun _ _ => rfl, ?_, HeapReachableWith_nodup n r h⟩
  · intro hn1 a now
    have hid : (r.Create a now).2 = Nat.repr (n + 1) := by
      rw [HeapCreate_id r a now (by rw [hc]; exact hn1), hc]
    exact ⟨hid, by rw [hid]; exact digitsValue_repr (n + 1)⟩
  · intro k hk heq
    have := repr_injective (n + 1) k heq
    omega
  · intro a now ha
    exact ⟨(HeapCreate_view r a now ha).1, ids_after_create r a now ha⟩

/-- C25 on a concrete run: two posts are created through the pointers 0 and 1, the first
one is deleted by its author, and the third `Create` returns "3"; the only stored id is
then "2". -/
theorem C25_ids_example :
    HeapReachableWith 2
        ((((NewHeapRepo (fun a => mkPost "" (7 - 2 * a) [] 0 0)).Create 0 "t1").1.Create 1
          "t2").1.Delete "1" 7).1 ∧
      ((((NewHeapRepo (fun a => mkPost "" (7 - 2 * a) [] 0 0)).Create 0 "t1").1.Create 1
          "t2").1.Delete "1" 7).1.ids = ["2"] ∧
      (((((NewHeapRepo (fun a => mkPost "" (7 - 2 * a) [] 0 0)).Create 0 "t1").1.Create 1
          "t2").1.Delete "1" 7).1.Create 2 "t3").2 = "3" :=
  ⟨HeapReachableWith.delete _ _ _ _
      (HeapReachableWith.create _ _ _ _
        (HeapReachableWith.create _ _ _ _ (HeapReachableWith.init _) (by decide)) (by decide)),
    by decide,
    ((C25_ids_count_creations 2 _
      (HeapReachableWith.delete _ _ "1" 7
        (HeapReachableWith.create _ _ 1 "t2"
          (HeapReachableWith.create _ _ 0 "t1" (HeapReachableWith.init _) (by decide))
          (by decide)))
      (by decide)).2.1 (by decide) 2 "t3").1⟩

/-- C21 (the two stores differ on `Unvote`): on a post with ledger
`[{7, Like}, {3, Unlike}, {9, Like}]` and counters (2, 1), one entry per voter, `Upvote`
and `Downvote` by voter 3 give the same ledger and counters in both stores, but `Unvote`
by voter 3 gives counters (2, 0) in the in-memory store and (1, 1) in the document
store, which tests the first ledger entry instead of the voter's. -/
theorem C21_stores_differ_on_unvote :
    ((mkPost "1" 7 [⟨7, Like⟩, ⟨3, Unlike⟩, ⟨9, Like⟩] 2 1).Votes.map
        (fun v => v.UserID)).Nodup ∧
      (MemoryRepo.mk 1 [mkPost "1" 7 [⟨7, Like⟩, ⟨3, Unlike⟩, ⟨9, Like⟩] 2 1]).Upvote "1" 3
        = (MemoryRepo.mk 1 [mkPost "1" 7 [⟨7, Like⟩, ⟨3, Like⟩, ⟨9, Like⟩] 3 0], none) ∧
      (MongoRepo.mk ⟨[mkItem oidA 7 [⟨7, Like⟩, ⟨3, Unlike⟩, ⟨9, Like⟩] 2 1], []⟩).Upvote
          healthy "5f1d7c3a9b2e4f6081a3c5e7" 3
        = (MongoRepo.mk ⟨[mkItem oidA 7 [⟨7, Like⟩, ⟨3, Like⟩, ⟨9, Like⟩] 3 0],
            [Command.FindOneAndUpdate]⟩, none) ∧
      (MemoryRepo.mk 1 [mkPost "1" 7 [⟨7, Like⟩, ⟨3, Unlike⟩, ⟨9, Like⟩] 2 1]).Unvote "1" 3
        = (MemoryRepo.mk 1 [mkPost "1" 7 [⟨7, Like⟩, ⟨9, Like⟩] 2 0], none) ∧
      (MongoRepo.mk ⟨[mkItem oidA 7 [⟨7, Like⟩, ⟨3, Unlike⟩, ⟨9, Like⟩] 2 1], []⟩).Unvote
          healthy "5f1d7c3a9b2e4f6081a3c5e7" 3
        = some (MongoRepo.mk ⟨[mkItem oidA 7 [⟨7, Like⟩, ⟨9, Like⟩] 1 1],
            [Command.FindOne, Command.UpdateByID]⟩, none) := by
  decide

/-! ## Claims about the HTTP layer -/

theorem splitSpace_no_space (cs : List Char) (h : ' ' ∉ cs) : splitSpace cs = [cs] := by
  induction cs with
  | nil => rfl
  | cons c cs ih =>
    have hc : c ≠ ' ' := fun heq => h (heq ▸ List.mem_cons_self _ _)
    have hcs : ' ' ∉ cs := fun hmem => h (List.mem_cons_of_mem _ hmem)
    simp [splitSpace, hc, ih hcs]

/-- C22 (three handlers answer 400 to every store error): for every error `e` of the
store call, `PostHandler.Unvote`, `PostHandler.AddComment` and `PostHandler.DeleteComment`
send status 400, also when `e` is `ErrInvalidID` or an opaque storage failure, because
their branch is `if err != nil`.  `PostHandler.Upvote`, `Downvote` and `Delete` send 400
for `ErrNotExist` (and `Delete` for `ErrNoAccess`) and 500 for "something went wrong". -/
theorem C22_unvote_answers_400_to_every_error (e : GoError) (encodeFails : Bool)
    (rest : ResponseWriter → ResponseWriter) :
    (PostHandler.Unvote ⟨none⟩ false (some e) encodeFails rest).status = some 400 ∧
      (PostHandler.AddComment ⟨none⟩ false false none (some e) encodeFails rest).status
        = some 400 ∧
      (PostHandler.DeleteComment ⟨none⟩ false none (some e) encodeFails rest).status
        = some 400 ∧
      (PostHandler.Unvote ⟨none⟩ false (some (GoError.post PostError.ErrInvalidID)) false
        rest).status = some 400 ∧
      (PostHandler.Unvote ⟨none⟩ false (some (GoError.other "something went wrong")) false
        rest).status = some 400 ∧
      (PostHandler.Upvote ⟨none⟩ false (some (GoError.other "something went wrong")) false
        rest).status = some 500 ∧
      (PostHandler.Downvote ⟨none⟩ false (some (GoError.other "something went wrong")) false
        rest).status = some 500 ∧
      (PostHandler.Delete ⟨none⟩ false (some (GoError.other "something went wrong")) false
        rest).status = some 500 ∧
      (PostHandler.Upvote ⟨none⟩ false (some (GoError.post PostError.ErrNotExist)) false
        rest).status = some 400 ∧
      (PostHandler.Delete ⟨none⟩ false (some (GoError.post PostError.ErrNoAccess)) false
        rest).status = some 400 := by
  refine ⟨?_, ?_, ?_, rfl, rfl, rfl, rfl, rfl, rfl, rfl⟩
  · cases encodeFails <;> rfl
  · cases encodeFails <;> rfl
  · cases encodeFails <;> rfl

/-- C28 (the middleware calls the next handler after answering 401): when the session is
created and `HasUserExist` returns `(false, nil)`, because the user id is unknown or the
stored username differs from the session's, and the JSON answer is written, the
middleware sends status 401 and then still calls the next handler, since the branch has
no `return`. -/
theorem C28_next_called_after_401 (sess : Session) (next : ResponseWriter → ResponseWriter) :
    Manager.HasUserExist UserLookup.noExist sess = (false, none) ∧
      Authentication.Authenticate ⟨none⟩ (Except.ok sess) UserLookup.noExist false next
        = (next ⟨some 401⟩, true) ∧
      Manager.HasUserExist (UserLookup.found ⟨7, "alice", ""⟩) ⟨7, "bob", ""⟩ = (false, none) ∧
      Authentication.Authenticate ⟨none⟩ (Except.ok ⟨7, "bob", ""⟩)
          (UserLookup.found ⟨7, "alice", ""⟩) false next
        = (next ⟨some 401⟩, true) ∧
      Authentication.Authenticate ⟨none⟩ (Except.ok ⟨7, "bob", ""⟩)
          (UserLookup.found ⟨7, "bob", ""⟩) false next
        = (next ⟨none⟩, true) ∧
      Authentication.Authenticate ⟨none⟩ (Except.error SessionError.ErrBadToken)
          UserLookup.noExist false next
        = (⟨some 401⟩, false) :=
  ⟨rfl, rfl, by decide, rfl, rfl, rfl⟩

/-- C29 (a header without a space makes `Get` panic): `strings.Split(s, " ")` of a string
with no space, the empty string included, has one element, so `tokenParts[1]` is out of
range and `JWTRepo.Get` and `MySQLRepo.Get` panic instead of returning a session or an
error; with the header "Bearer abc" they go on with the token "abc". -/
theorem C29_get_panics_without_space (parse : String → Except SessionError Session) :
    (∀ s : String, ' ' ∉ s.data → splitSpace s.data = [s.data]) ∧
      (∀ s : String, ' ' ∉ s.data → JWTRepo.Get parse s = none) ∧
      (∀ s : String, ' ' ∉ s.data → MySQLRepo.Get parse s = none) ∧
      splitSpace "".data = [[]] ∧
      JWTRepo.Get parse "" = none ∧
      MySQLRepo.Get parse "" = none ∧
      JWTRepo.Get parse "abc" = none ∧
      JWTRepo.Get parse "Bearer abc" = some (parse "abc") := by
  refine ⟨?_, ?_, ?_, rfl, rfl, rfl, rfl, rfl⟩
  · intro s hs
    exact splitSpace_no_space s.data hs
  · intro s hs
    simp [JWTRepo.Get, splitSpace_no_space s.data hs]
  · intro s hs
    simp [MySQLRepo.Get, splitSpace_no_space s.data hs]

/-! ## The comments of a response -/

theorem charsLess_irrefl (a : List Char) : charsLess a a = false := by
  induction a with
  | nil => rfl
  | cons x xs ih => simp [charsLess, ih]

theorem charsLess_asymm (a b : List Char) (h : charsLess a b = true) :
    charsLess b a = false := by
  induction a generalizing b with
  | nil =>
    cases b with
    | nil => rfl
    | cons y ys => rfl
  | cons x xs ih =>
    cases b with
    | nil => simp [charsLess] at h
    | cons y ys =>
      simp only [charsLess] at h ⊢
      by_cases h1 : x.toNat < y.toNat
      · have h2 : ¬ y.toNat < x.toNat := by omega
        simp [h1, h2]
      · by_cases h2 : y.toNat < x.toNat
        · simp [h1, h2] at h
        · simp [h1, h2] at h ⊢
          exact ih ys h

/-- The order `not (b < a)` is transitive. -/
theorem charsLess_le_trans (a b c : List Char) (hab : charsLess b a = false)
    (hbc : charsLess c b = false) : charsLess c a = false := by
  induction a generalizing b c with
  | nil =>
    cases c <;> rfl
  | cons x xs ih =>
    cases b with
    | nil =>
      simp [charsLess] at hab
    | cons y ys =>
      cases c with
      | nil => simp [charsLess] at hbc
      | cons z zs =>
        simp only [charsLess] at hab hbc ⊢
        by_cases h1 : y.toNat < x.toNat
        · simp [h1] at hab
        · by_cases h2 : x.toNat < y.toNat
          · by_cases h3 : z.toNat < y.toNat
            · simp [h3] at hbc
            · have h4 : ¬ z.toNat < x.toNat := by omega
              have h5 : x.toNat < z.toNat := by omega
              simp [h4, h5]
          · simp [h1, h2] at hab
            by_cases h3 : z.toNat < y.toNat
            · simp [h3] at hbc
            · by_cases h4 : y.toNat < z.toNat
              · have h5 : ¬ z.toNat < x.toNat := by omega
                have h6 : x.toNat < z.toNat := by omega
                simp [h5, h6]
              · simp [h3, h4] at hbc
                have h5 : ¬ z.toNat < x.toNat := by omega
                have h6 : ¬ x.toNat < z.toNat := by omega
                simp [h5, h6]
                exact ih ys zs hab hbc

theorem dateLess_of_eq (a b : CommentResponse) (h : a.CreateDate = b.CreateDate) :
    dateLess a b = false := by
  unfold dateLess
  rw [h]
  exact charsLess_irrefl _

theorem insertByDate_perm (c : CommentResponse) (l : List CommentResponse) :
    (insertByDate c l).Perm (c :: l) := by
  induction l with
  | nil => exact List.Perm.refl _
  | cons d ds ih =>
    by_cases h : dateLess d c = true
    · simp only [insertByDate, h, if_true]
      exact (List.Perm.cons d ih).trans (List.Perm.swap c d ds)
    · simp only [insertByDate, h]
      exact List.Perm.refl _

theorem sortStableByDate_perm (l : List CommentResponse) : (sortStableByDate l).Perm l := by
  induction l with
  | nil => exact List.Perm.refl _
  | cons c cs ih =>
    exact (insertByDate_perm c (sortStableByDate cs)).trans (List.Perm.cons c ih)

theorem insertByDate_sorted (c : CommentResponse) (l : List CommentResponse)
    (h : l.Pairwise (fun a b => dateLess b a = false)) :
    (insertByDate c l).Pairwise (fun a b => dateLess b a = false) := by
  induction l with
  | nil => simp [insertByDate]
  | cons d ds ih =>
    obtain ⟨hd, hds⟩ := List.pairwise_cons.1 h
    by_cases hlt : dateLess d c = true
    · simp only [insertByDate, hlt, if_true]
      refine List.pairwise_cons.2 ⟨?_, ih hds⟩
      intro x hx
      rcases List.mem_cons.1 ((insertByDate_perm c ds).subset hx) with heq | hmem
      · rw [heq]
        exact charsLess_asymm _ _ hlt
      · exact hd x hmem
    · have hle : dateLess d c = false := by simpa using hlt
      simp only [insertByDate, hlt]
      refine List.pairwise_cons.2 ⟨?_, h⟩
      intro x hx
      rcases List.mem_cons.1 hx with heq | hmem
      · rw [heq]; exact hle
      · exact charsLess_le_trans _ _ _ hle (hd x hmem)

theorem sortStableByDate_sorted (l : List CommentResponse) :
    (sortStableByDate l).Pairwise (fun a b => dateLess b a = false) := by
  induction l with
  | nil => exact List.Pairwise.nil
  | cons c cs ih => exact insertByDate_sorted c (sortStableByDate cs) ih

theorem insertByDate_filter (c : CommentResponse) (l : List CommentResponse) (d : String) :
    (insertByDate c l).filter (fun x => x.CreateDate = d) =
      (c :: l).filter (fun x => x.CreateDate = d) := by
  induction l with
  | nil => rfl
  | cons e es ih =>
    by_cases hlt : dateLess e c = true
    · simp only [insertByDate, hlt, if_true]
      have hne : ¬ (e.CreateDate = d ∧ c.CreateDate = d) := by
        rintro ⟨he, hc⟩
        have := dateLess_of_eq e c (by rw [he, hc])
        rw [this] at hlt
        exact Bool.noConfusion hlt
      by_cases he : e.CreateDate = d
      · have hc : ¬ c.CreateDate = d := fun hc => hne ⟨he, hc⟩
        simp [List.filter_cons, he, hc] at ih ⊢
        exact ih
      · by_cases hc : c.CreateDate = d
        · simp [List.filter_cons, he, hc] at ih ⊢
          exact ih
        · simp [List.filter_cons, he, hc] at ih ⊢
          exact ih
    · simp only [insertByDate, hlt]
      rfl

theorem sortStableByDate_filter (l : List CommentResponse) (d : String) :
    (sortStableByDate l).filter (fun x => x.CreateDate = d) =
      l.filter (fun x => x.CreateDate = d) := by
  induction l with
  | nil => rfl
  | cons c cs ih =>
    show (insertByDate c (sortStableByDate cs)).filter _ = _
    rw [insertByDate_filter]
    simp only [List.filter_cons]
    rw [ih]

theorem buildComments_ok (getComment : String → Except GoError Comment)
    (getUser : Nat → Except GoError User) (ids : List String) (cs : List CommentResponse)
    (h : buildComments getComment getUser ids = Except.ok cs) :
    List.Forall₂
      (fun id c => ∃ cm u, getComment id = Except.ok cm ∧
        getUser cm.AuthorID = Except.ok u ∧ c = commentResponse cm u) ids cs := by
  induction ids generalizing cs with
  | nil =>
    simp only [buildComments] at h
    cases h
    exact List.Forall₂.nil
  | cons id ids ih =>
    unfold buildComments at h
    cases hc : getComment id with
    | error e => simp [hc] at h
    | ok cm =>
      cases hu : getUser cm.AuthorID with
      | error e => simp [hc, hu] at h
      | ok u =>
        cases hr : buildComments getComment getUser ids with
        | error e => simp [hc, hu, hr] at h
        | ok rest =>
          simp only [hc, hu, hr] at h
          cases h
          exact List.Forall₂.cons ⟨cm, u, hc, hu, rfl⟩ (ih rest hr)

/-! ## The arithmetic of `float64` -/

/-- The loop of `bits` brackets its argument between two powers of two. -/
theorem bitLength_spec : ∀ (fuel n : Nat), n ≤ fuel →
    n < 2 ^ bitLength fuel n ∧ (n ≠ 0 → 2 ^ (bitLength fuel n - 1) ≤ n)
  | 0, n, h => by
    have : n = 0 := by omega
    subst this
    simp [bitLength]
  | fuel + 1, n, h => by
    unfold bitLength
    by_cases hn : n = 0
    · simp [hn]
    · simp only [hn, if_false]
      have hle : n / 2 ≤ fuel := by omega
      obtain ⟨h1, h2⟩ := bitLength_spec fuel (n / 2) hle
      refine ⟨?_, fun _ => ?_⟩
      · rw [pow_succ]; omega
      · simp only [Nat.add_sub_cancel]
        by_cases h0 : n / 2 = 0
        · have hb : bitLength fuel (n / 2) = 0 := by
            rw [h0]; cases fuel <;> simp [bitLength]
          rw [hb]; simp; omega
        · have h3 := h2 h0
          have h4 : 0 < bitLength fuel (n / 2) := by
            cases fuel with
            | zero => omega
            | succ k => unfold bitLength; simp [h0]
          have h5 : 2 ^ bitLength fuel (n / 2) = 2 ^ (bitLength fuel (n / 2) - 1) * 2 := by
            rw [← pow_succ]; congr 1; omega
          omega

theorem lt_two_pow_bits (n : Nat) : n < 2 ^ bits n :=
  (bitLength_spec n n (Nat.le_refl n)).1

theorem two_pow_bits_le (n : Nat) (h : n ≠ 0) : 2 ^ (bits n - 1) ≤ n :=
  (bitLength_spec n n (Nat.le_refl n)).2 h

theorem bits_mono {u t : Nat} (hu : u ≠ 0) (h : u ≤ t) : bits u ≤ bits t := by
  have h1 := two_pow_bits_le u hu
  have h2 := lt_two_pow_bits t
  have h3 : 2 ^ (bits u - 1) < 2 ^ bits t := by omega
  have h4 := (Nat.pow_lt_pow_iff_right (by decide : 1 < 2)).1 h3
  omega

/-- A quotient that is at most `m` rounds to at most `m`. -/
theorem roundDiv_le {n d m : Nat} (hd : 0 < d) (h : n ≤ m * d) : roundDiv n d ≤ m := by
  have hq : n / d ≤ m := Nat.div_le_of_le_mul (by rw [Nat.mul_comm]; exact h)
  have hr : 0 < n % d → n / d < m := by
    intro hpos
    by_contra hge
    have hge : m ≤ n / d := by omega
    have h1 : m * d ≤ n / d * d := Nat.mul_le_mul_right d hge
    have h2 := Nat.div_add_mod n d
    have h3 : d * (n / d) = n / d * d := Nat.mul_comm _ _
    omega
  unfold roundDiv
  split_ifs <;> omega

/-- A quotient that is at least `m` rounds to at least `m`. -/
theorem le_roundDiv {n d m : Nat} (hd : 0 < d) (h : m * d ≤ n) : m ≤ roundDiv n d := by
  have hq : m ≤ n / d := (Nat.le_div_iff_mul_le hd).2 h
  unfold roundDiv
  split_ifs <;> omega

/-- Rounding a quotient is monotone in the numerator. -/
theorem roundDiv_mono {n n' d : Nat} (hd : 0 < d) (h : n ≤ n') :
    roundDiv n d ≤ roundDiv n' d := by
  have hq : n / d ≤ n' / d := Nat.div_le_div_right h
  have hr : n / d = n' / d → n % d ≤ n' % d := by
    intro he
    have h1 := Nat.div_add_mod n d
    have h2 := Nat.div_add_mod n' d
    rw [he] at h1
    omega
  have hm : n % d < d := Nat.mod_lt _ hd
  have hm' : n' % d < d := Nat.mod_lt _ hd
  unfold roundDiv
  split_ifs <;> omega

theorem bits_ge_54 {n : Nat} (h : ¬ n < 2 ^ 53) : 54 ≤ bits n := by
  have h2 := lt_two_pow_bits n
  have h3 : 2 ^ 53 < 2 ^ bits n := by omega
  have h4 := (Nat.pow_lt_pow_iff_right (by decide : 1 < 2)).1 h3
  omega

/-- A rounded integer from `2^53` on is at least `2^53`, and at least
`2^52 * 2^(bits n - 53)`. -/
theorem f64OfNat_big_ge {n : Nat} (h : ¬ n < 2 ^ 53) :
    2 ^ 52 * 2 ^ (bits n - 53) ≤ roundDiv n (2 ^ (bits n - 53)) * 2 ^ (bits n - 53) := by
  have hb := bits_ge_54 h
  have hn : n ≠ 0 := by
    intro h0; subst h0; simp at h
  have h1 := two_pow_bits_le n hn
  have h2 : 2 ^ (bits n - 1) = 2 ^ 52 * 2 ^ (bits n - 53) := by
    rw [← pow_add]; congr 1; omega
  rw [h2] at h1
  exact Nat.mul_le_mul_right _ (le_roundDiv (Nat.pow_pos (by decide)) h1)

theorem f64OfNat_big_le {n : Nat} (h : ¬ n < 2 ^ 53) :
    roundDiv n (2 ^ (bits n - 53)) * 2 ^ (bits n - 53) ≤ 2 ^ 53 * 2 ^ (bits n - 53) := by
  have hb := bits_ge_54 h
  have h1 := lt_two_pow_bits n
  have h2 : 2 ^ bits n = 2 ^ 53 * 2 ^ (bits n - 53) := by
    rw [← pow_add]; congr 1; omega
  rw [h2] at h1
  exact Nat.mul_le_mul_right _ (roundDiv_le (Nat.pow_pos (by decide)) (Nat.le_of_lt h1))

/-- The conversion `float64(n)` is monotone. -/
theorem f64OfNat_mono {u t : Nat} (h : u ≤ t) : f64OfNat u ≤ f64OfNat t := by
  unfold f64OfNat
  by_cases ht : t < 2 ^ 53
  · have hu : u < 2 ^ 53 := by omega
    simp only [ht, hu, if_true]
    exact h
  · by_cases hu : u < 2 ^ 53
    · simp only [ht, hu, if_true, if_false]
      have h1 := f64OfNat_big_ge ht
      have hb := bits_ge_54 ht
      have h2 : 2 ^ 53 ≤ 2 ^ 52 * 2 ^ (bits t - 53) := by
        have : 2 ^ 1 ≤ 2 ^ (bits t - 53) :=
          Nat.pow_le_pow_right (by decide) (by omega)
        calc 2 ^ 53 = 2 ^ 52 * 2 ^ 1 := by norm_num
          _ ≤ 2 ^ 52 * 2 ^ (bits t - 53) := Nat.mul_le_mul_left _ this
      omega
    · simp only [ht, hu, if_false]
      have hu0 : u ≠ 0 := by
        intro h0; subst h0; simp at hu
      have hbm := bits_mono hu0 h
      by_cases he : bits u = bits t
      · rw [he]
        exact Nat.mul_le_mul_right _ (roundDiv_mono (Nat.pow_pos (by decide)) h)
      · have h1 := f64OfNat_big_le hu
        have h2 := f64OfNat_big_ge ht
        have hbu := bits_ge_54 hu
        have h3 : 2 ^ 53 * 2 ^ (bits u - 53) ≤ 2 ^ 52 * 2 ^ (bits t - 53) := by
          have h4 : 2 ^ (bits u - 53 + 1) ≤ 2 ^ (bits t - 53) :=
            Nat.pow_le_pow_right (by decide) (by omega)
          calc 2 ^ 53 * 2 ^ (bits u - 53) = 2 ^ 52 * 2 ^ (bits u - 53 + 1) := by
                rw [pow_succ]; ring
            _ ≤ 2 ^ 52 * 2 ^ (bits t - 53) := Nat.mul_le_mul_left _ h4
        omega

theorem f64OfNat_pos {n : Nat} (h : 0 < n) : 0 < f64OfNat n := by
  have h1 : f64OfNat 1 ≤ f64OfNat n := f64OfNat_mono h
  have h2 : f64OfNat 1 = 1 := by decide
  omega

theorem roundFrac_snd_pos (n d : Nat) : 0 < (roundFrac n d).2 := by
  unfold roundFrac
  exact Nat.pow_pos (by decide)

/-- A fraction below `2^53` is never scaled down. -/
theorem roundFrac_shift {n d b : Nat} (hb : b < 2 ^ 53) (h : n ≤ b * d) :
    bits n - (53 + bits d) = 0 := by
  by_contra hne
  have hn : n ≠ 0 := by
    intro h0; subst h0
    have : bits 0 = 0 := by decide
    omega
  have h1 := two_pow_bits_le n hn
  have h2 := lt_two_pow_bits d
  have h3 : 2 ^ (53 + bits d) ≤ 2 ^ (bits n - 1) :=
    Nat.pow_le_pow_right (by decide) (by omega)
  rw [pow_add] at h3
  have h4 : b * d ≤ 2 ^ 53 * d := Nat.mul_le_mul_right _ (Nat.le_of_lt hb)
  have h5 : 2 ^ 53 * d < 2 ^ 53 * 2 ^ bits d :=
    Nat.mul_lt_mul_of_pos_left h2 (Nat.pow_pos (by decide))
  omega

/-- A fraction that is at most the integer `b` (below `2^53`) rounds to a `float64` that is
at most `b`. -/
theorem roundFrac_le {n d b : Nat} (hd : 0 < d) (hb : b < 2 ^ 53) (h : n ≤ b * d) :
    (roundFrac n d).1 ≤ b * (roundFrac n d).2 := by
  have hsd := roundFrac_shift hb h
  unfold roundFrac
  simp only [hsd, pow_zero, Nat.mul_one]
  by_cases hc : n * 2 ^ (53 + bits d - bits n) < d * 2 ^ 53
  · simp only [hc, if_true, Nat.one_mul, Nat.mul_one]
    apply roundDiv_le hd
    calc n * 2 ^ (53 + bits d - bits n) ≤ b * d * 2 ^ (53 + bits d - bits n) :=
          Nat.mul_le_mul_right _ h
      _ = b * 2 ^ (53 + bits d - bits n) * d := by ring
  · simp only [hc, if_false]
    have hsu : 53 + bits d - bits n ≠ 0 := by
      intro h0
      rw [h0] at hc
      simp only [pow_zero, Nat.mul_one] at hc
      have h4 : b * d < 2 ^ 53 * d := Nat.mul_lt_mul_of_pos_right hb hd
      have h5 : d * 2 ^ 53 = 2 ^ 53 * d := Nat.mul_comm _ _
      omega
    obtain ⟨k, hk⟩ := Nat.exists_eq_succ_of_ne_zero hsu
    rw [hk, pow_succ]
    have h1 : roundDiv (n * (2 ^ k * 2)) (2 * d) ≤ b * 2 ^ k := by
      apply roundDiv_le (by omega)
      calc n * (2 ^ k * 2) ≤ b * d * (2 ^ k * 2) := Nat.mul_le_mul_right _ h
        _ = b * 2 ^ k * (2 * d) := by ring
    calc roundDiv (n * (2 ^ k * 2)) (2 * d) * 2 ≤ b * 2 ^ k * 2 := Nat.mul_le_mul_right _ h1
      _ = b * (2 ^ k * 2) := by ring

theorem roundHalfAway_le {n d b : Nat} (hd : 0 < d) (h : n ≤ b * d) :
    roundHalfAway n d ≤ b := by
  unfold roundHalfAway
  apply Nat.le_of_lt_succ
  rw [Nat.div_lt_iff_lt_mul (by omega)]
  have : (b + 1) * (2 * d) = 2 * (b * d) + 2 * d := by ring
  rw [Nat.succ_eq_add_one, this]
  omega

/-- When `a ≤ s` the rounded percentage is at most 100. -/
theorem roundedPercent_le {a s : Nat} (hs : 0 < s) (h : a ≤ s) : roundedPercent a s ≤ 100 := by
  unfold roundedPercent
  have h1 := f64OfNat_mono h
  have h2 := f64OfNat_pos hs
  have h3 : (roundFrac (f64OfNat a) (f64OfNat s)).1 ≤ 1 * (roundFrac (f64OfNat a) (f64OfNat s)).2 :=
    roundFrac_le h2 (by norm_num) (by omega)
  have h4 := roundFrac_snd_pos (f64OfNat a) (f64OfNat s)
  generalize roundFrac (f64OfNat a) (f64OfNat s) = q at h3 h4
  have h5 : (roundFrac (q.1 * 100) q.2).1 ≤ 100 * (roundFrac (q.1 * 100) q.2).2 :=
    roundFrac_le h4 (by norm_num) (by omega)
  exact roundHalfAway_le (roundFrac_snd_pos (q.1 * 100) q.2) h5

/-- Rounding a quotient moves it by at most one half. -/
theorem roundDiv_err {n d : Nat} (hd : 0 < d) :
    2 * (roundDiv n d * d) ≤ 2 * n + d ∧ 2 * n ≤ 2 * (roundDiv n d * d) + d := by
  have h1 := Nat.div_add_mod n d
  have h2 : d * (n / d) = n / d * d := Nat.mul_comm _ _
  have h3 : (n / d + 1) * d = n / d * d + d := by ring
  have hm : n % d < d := Nat.mod_lt _ hd
  unfold roundDiv
  split_ifs <;> (try simp only [h3]) <;> omega

/-- The relative error of one `float64` operation is at most `2^-53`. -/
theorem roundFrac_err {n d : Nat} (hd : 0 < d) (hsd : bits n - (53 + bits d) = 0) :
    2 ^ 53 * ((roundFrac n d).1 * d) ≤ (2 ^ 53 + 1) * (n * (roundFrac n d).2) ∧
    (2 ^ 53 - 1) * (n * (roundFrac n d).2) ≤ 2 ^ 53 * ((roundFrac n d).1 * d) := by
  unfold roundFrac
  simp only [hsd, pow_zero, Nat.mul_one]
  by_cases hc : n * 2 ^ (53 + bits d - bits n) < d * 2 ^ 53
  · simp only [hc, if_true, Nat.one_mul, Nat.mul_one]
    obtain ⟨e1, e2⟩ := roundDiv_err (n := n * 2 ^ (53 + bits d - bits n)) hd
    by_cases hn : n = 0
    · subst hn
      have hz : roundDiv 0 d = 0 := by
        unfold roundDiv
        simp [hd]
      simp [hz]
    · have hlow : 2 ^ 52 * d ≤ n * 2 ^ (53 + bits d - bits n) := by
        have h1 := two_pow_bits_le n hn
        have h2 := lt_two_pow_bits d
        have hb1 : 1 ≤ bits n := by
          by_contra h0
          have h00 : bits n = 0 := by omega
          have := lt_two_pow_bits n
          rw [h00] at this
          omega
        calc 2 ^ 52 * d ≤ 2 ^ 52 * 2 ^ bits d :=
              Nat.mul_le_mul_left _ (Nat.le_of_lt h2)
          _ = 2 ^ (bits n - 1) * 2 ^ (53 + bits d - bits n) := by
              rw [← pow_add, ← pow_add]; congr 1; omega
          _ ≤ n * 2 ^ (53 + bits d - bits n) := Nat.mul_le_mul_right _ h1
      generalize n * 2 ^ (53 + bits d - bits n) = x at e1 e2 hlow ⊢
      generalize roundDiv x d * d = md at e1 e2 ⊢
      norm_num at hlow ⊢
      omega
  · simp only [hc, if_false]
    have hd2 : 0 < 2 * d := by omega
    obtain ⟨e1, e2⟩ := roundDiv_err (n := n * 2 ^ (53 + bits d - bits n)) hd2
    have hlow : d * 2 ^ 53 ≤ n * 2 ^ (53 + bits d - bits n) := by omega
    have e3 : roundDiv (n * 2 ^ (53 + bits d - bits n)) (2 * d) * 2 * d =
        roundDiv (n * 2 ^ (53 + bits d - bits n)) (2 * d) * (2 * d) := by ring
    rw [e3]
    generalize n * 2 ^ (53 + bits d - bits n) = x at e1 e2 hlow ⊢
    generalize roundDiv x (2 * d) * (2 * d) = md at e1 e2 ⊢
    norm_num at hlow ⊢
    omega

/-- The two `float64` operations of the percentage, a division and a multiplication by
100, keep the value within the relative error `(1 ± 2^-53)^2` of `100 * a / s`. -/
theorem percentage_err {a s : Nat} (hs : 0 < s) (h : a ≤ s) :
    2 ^ 106 * ((roundFrac ((roundFrac a s).1 * 100) (roundFrac a s).2).1 * s) ≤
        (2 ^ 53 + 1) ^ 2 *
          (100 * a * (roundFrac ((roundFrac a s).1 * 100) (roundFrac a s).2).2) ∧
    (2 ^ 53 - 1) ^ 2 *
          (100 * a * (roundFrac ((roundFrac a s).1 * 100) (roundFrac a s).2).2) ≤
        2 ^ 106 * ((roundFrac ((roundFrac a s).1 * 100) (roundFrac a s).2).1 * s) := by
  have hsh1 : bits a - (53 + bits s) = 0 :=
    roundFrac_shift (b := 1) (by norm_num) (by omega)
  obtain ⟨a1, b1⟩ := roundFrac_err hs hsh1
  have hq : (roundFrac a s).1 ≤ 1 * (roundFrac a s).2 :=
    roundFrac_le hs (by norm_num) (by omega)
  have ht := roundFrac_snd_pos a s
  generalize roundFrac a s = q at a1 b1 hq ht ⊢
  obtain ⟨q1, t1⟩ := q
  simp only at a1 b1 hq ht ⊢
  have hsh2 : bits (q1 * 100) - (53 + bits t1) = 0 :=
    roundFrac_shift (b := 100) (by norm_num) (by omega)
  obtain ⟨a2, b2⟩ := roundFrac_err ht hsh2
  generalize roundFrac (q1 * 100) t1 = p at a2 b2 ⊢
  obtain ⟨q2, t2⟩ := p
  simp only at a2 b2 ⊢
  constructor
  · apply Nat.le_of_mul_le_mul_left _ ht
    calc t1 * (2 ^ 106 * (q2 * s)) = (2 ^ 53 * (q2 * t1)) * (2 ^ 53 * s) := by ring
      _ ≤ ((2 ^ 53 + 1) * (q1 * 100 * t2)) * (2 ^ 53 * s) := Nat.mul_le_mul_right _ a2
      _ = (2 ^ 53 * (q1 * s)) * ((2 ^ 53 + 1) * 100 * t2) := by ring
      _ ≤ ((2 ^ 53 + 1) * (a * t1)) * ((2 ^ 53 + 1) * 100 * t2) :=
          Nat.mul_le_mul_right _ a1
      _ = t1 * ((2 ^ 53 + 1) ^ 2 * (100 * a * t2)) := by ring
  · apply Nat.le_of_mul_le_mul_left _ ht
    calc t1 * ((2 ^ 53 - 1) ^ 2 * (100 * a * t2))
          = ((2 ^ 53 - 1) * (a * t1)) * ((2 ^ 53 - 1) * 100 * t2) := by ring
      _ ≤ (2 ^ 53 * (q1 * s)) * ((2 ^ 53 - 1) * 100 * t2) := Nat.mul_le_mul_right _ b1
      _ = ((2 ^ 53 - 1) * (q1 * 100 * t2)) * (2 ^ 53 * s) := by ring
      _ ≤ (2 ^ 53 * (q2 * t1)) * (2 ^ 53 * s) := Nat.mul_le_mul_right _ b2
      _ = t1 * (2 ^ 106 * (q2 * s)) := by ring

/-- An integer `k` strictly below `100 * a / s + 1/2` is at most the rounded `float64`
percentage, for a sum of votes up to `2^44`. -/
theorem le_round_percentage {a s k p d : Nat} (hs : 0 < s) (hs44 : s ≤ 2 ^ 44)
    (hk : k ≤ 101) (hd : 0 < d)
    (hlow : (2 ^ 53 - 1) ^ 2 * (100 * a * d) ≤ 2 ^ 106 * (p * s))
    (h : 2 * (s * k) + 1 ≤ 200 * a + s) : k ≤ roundHalfAway p d := by
  unfold roundHalfAway
  rw [Nat.le_div_iff_mul_le (by omega)]
  apply Nat.le_of_mul_le_mul_left _ hs
  have hw : s * k ≤ 2 ^ 44 * 101 := Nat.mul_le_mul hs44 hk
  have hF : 2 ^ 106 * (2 * (s * k)) ≤ (2 ^ 53 - 1) ^ 2 * (200 * a) + 2 ^ 106 * s := by
    generalize s * k = w at hw h ⊢
    norm_num at hw ⊢
    omega
  have hFd := Nat.mul_le_mul_right d hF
  have e1 : ((2 ^ 53 - 1) ^ 2 * (200 * a) + 2 ^ 106 * s) * d =
      2 * ((2 ^ 53 - 1) ^ 2 * (100 * a * d)) + 2 ^ 106 * (s * d) := by ring
  have e2 : 2 ^ 106 * (2 * (s * k)) * d = 2 ^ 106 * (s * (k * (2 * d))) := by ring
  have e3 : s * (2 * p + d) = 2 * (p * s) + s * d := by ring
  rw [e1, e2] at hFd
  rw [e3]
  generalize s * (k * (2 * d)) = x1 at hFd ⊢
  generalize (2 ^ 53 - 1) ^ 2 * (100 * a * d) = x2 at hFd hlow
  generalize p * s = x3 at hlow ⊢
  generalize s * d = x4 at hFd ⊢
  norm_num at hFd hlow
  omega

/-- The rounded `float64` percentage is below an integer `k` that is strictly above
`100 * a / s + 1/2`, for a sum of votes up to `2^44`. -/
theorem round_percentage_lt {a s k p d : Nat} (hs : 0 < s) (hs44 : s ≤ 2 ^ 44)
    (has : a ≤ s) (hd : 0 < d)
    (hup : 2 ^ 106 * (p * s) ≤ (2 ^ 53 + 1) ^ 2 * (100 * a * d))
    (h : 200 * a + s + 1 ≤ 2 * (s * k)) : roundHalfAway p d < k := by
  unfold roundHalfAway
  rw [Nat.div_lt_iff_lt_mul (by omega)]
  apply Nat.lt_of_mul_lt_mul_left (a := s)
  have hF : (2 ^ 53 + 1) ^ 2 * (200 * a) + 2 ^ 106 * s + 1 ≤ 2 ^ 106 * (2 * (s * k)) := by
    generalize s * k = w at h ⊢
    norm_num at hs44 ⊢
    omega
  have hFd := Nat.mul_le_mul_right d hF
  have e1 : ((2 ^ 53 + 1) ^ 2 * (200 * a) + 2 ^ 106 * s + 1) * d =
      2 * ((2 ^ 53 + 1) ^ 2 * (100 * a * d)) + 2 ^ 106 * (s * d) + d := by ring
  have e2 : 2 ^ 106 * (2 * (s * k)) * d = 2 ^ 106 * (s * (k * (2 * d))) := by ring
  have e3 : s * (2 * p + d) = 2 * (p * s) + s * d := by ring
  rw [e1, e2] at hFd
  rw [e3]
  generalize s * (k * (2 * d)) = x1 at hFd ⊢
  generalize (2 ^ 53 + 1) ^ 2 * (100 * a * d) = x2 at hFd hup
  generalize p * s = x3 at hup ⊢
  generalize s * d = x4 at hFd ⊢
  norm_num at hFd hup
  omega

/-- The conversion `float64(n)` is exact below `2^53`. -/
theorem f64OfNat_small {n : Nat} (h : n < 2 ^ 53) : f64OfNat n = n := by
  unfold f64OfNat
  simp only [h, if_true]

/-- For a sum of votes up to `2^44` the rounded `float64` percentage is the exactly
rounded one or one less, and it is the exactly rounded one when `100 * up / (up + down)`
is not half an odd integer. -/
theorem roundedPercent_near (up down : Nat) (h0 : up + down ≠ 0) (hs : up + down ≤ 2 ^ 44) :
    roundedPercent up (up + down) ≤ exactPercentage up down ∧
      exactPercentage up down ≤ roundedPercent up (up + down) + 1 ∧
      ((200 * up + (up + down)) % (2 * (up + down)) ≠ 0 →
        roundedPercent up (up + down) = exactPercentage up down) := by
  have hspos : 0 < up + down := by omega
  have hle : up ≤ up + down := by omega
  have h44 : (2 : Nat) ^ 44 < 2 ^ 53 := by norm_num
  have hE : exactPercentage up down = (200 * up + (up + down)) / (2 * (up + down)) := by
    unfold exactPercentage roundHalfAway
    congr 1
    ring
  have hdm := Nat.div_add_mod (200 * up + (up + down)) (2 * (up + down))
  have hml : (200 * up + (up + down)) % (2 * (up + down)) < 2 * (up + down) :=
    Nat.mod_lt _ (by omega)
  rw [← hE] at hdm
  have hE100 : exactPercentage up down ≤ 100 := by
    unfold exactPercentage
    exact roundHalfAway_le hspos (by omega)
  obtain ⟨hup, hlow⟩ := percentage_err hspos hle
  have hd := roundFrac_snd_pos ((roundFrac up (up + down)).1 * 100) (roundFrac up (up + down)).2
  have hval : roundedPercent up (up + down) =
      roundHalfAway (roundFrac ((roundFrac up (up + down)).1 * 100)
        (roundFrac up (up + down)).2).1 (roundFrac ((roundFrac up (up + down)).1 * 100)
        (roundFrac up (up + down)).2).2 := by
    unfold roundedPercent
    simp only [f64OfNat_small (show up < 2 ^ 53 by omega),
      f64OfNat_small (show up + down < 2 ^ 53 by omega)]
  rw [hval]
  generalize roundFrac ((roundFrac up (up + down)).1 * 100) (roundFrac up (up + down)).2 = p
    at hup hlow hd
  have e2 : 2 * (up + down) * exactPercentage up down =
      2 * ((up + down) * exactPercentage up down) := by ring
  rw [e2] at hdm
  have hlt : roundHalfAway p.1 p.2 < exactPercentage up down + 1 := by
    apply round_percentage_lt hspos hs hle hd hup
    have : (up + down) * (exactPercentage up down + 1) =
        (up + down) * exactPercentage up down + (up + down) := by ring
    rw [this]
    omega
  refine ⟨by omega, ?_, ?_⟩
  · by_cases hz : exactPercentage up down = 0
    · omega
    · have : exactPercentage up down - 1 ≤ roundHalfAway p.1 p.2 := by
        apply le_round_percentage hspos hs (by omega) hd hlow
        obtain ⟨e, he⟩ := Nat.exists_eq_succ_of_ne_zero hz
        rw [he] at hdm ⊢
        have : (up + down) * (e + 1) = (up + down) * e + (up + down) := by ring
        simp only [Nat.succ_eq_add_one, Nat.add_sub_cancel] at hdm ⊢
        rw [this] at hdm
        omega
      omega
  · intro hnt
    have : exactPercentage up down ≤ roundHalfAway p.1 p.2 := by
      apply le_round_percentage hspos hs (by omega) hd hlow
      omega
    omega

/-- For counters `up` and `down` that are not negative and whose sum fits in an `int`
without being 0, the percentage is the rounded `float64` percentage of their values. -/
theorem upvotePercentage_eq (u d : GoInt) (up down : Nat) (hu : u.toInt = (up : Int))
    (hd : d.toInt = (down : Int)) (hs : up + down < 2 ^ 63) (h0 : up + down ≠ 0) :
    upvotePercentage u d = roundedPercent up (up + down) := by
  have hsum : (u + d).toInt = ((up + down : Nat) : Int) := by
    rw [GoInt.toInt_add_exact u d (by rw [hu, hd]; omega), hu, hd]
    push_cast
    rfl
  have hne : u + d ≠ 0 := by
    intro h
    have h1 := congrArg GoInt.toInt h
    have h2 : (0 : GoInt).toInt = 0 := rfl
    rw [hsum, h2] at h1
    omega
  have hle : up ≤ up + down := by omega
  have hr := roundedPercent_le (a := up) (s := up + down) (by omega) hle
  unfold upvotePercentage
  simp only [ne_eq, hne, not_false_eq_true, if_true, hu, hsum, Int.natAbs_ofNat]
  have hn1 : ¬ ((up : Int) < 0) := by omega
  have hn2 : ¬ (((up + down : Nat) : Int) < 0) := by omega
  simp only [hn1, hn2, decide_False, Bool.xor_false, uintOfFloat]
  have h64 : roundedPercent up (up + down) < 2 ^ 64 := by
    have : (100 : Nat) < 2 ^ 64 := by norm_num
    omega
  simp only [Bool.false_eq_true, if_false, h64, if_true]

/-- When the counters sum to 0 in `int` the percentage is 0. -/
theorem upvotePercentage_zero (u d : GoInt) (h : u + d = 0) : upvotePercentage u d = 0 := by
  unfold upvotePercentage
  simp [h]

/-! ## The responses of `createResponse` -/

/-- The loop over the comment ids ends well when every comment and its author resolve. -/
theorem buildComments_total (getComment : String → Except GoError Comment)
    (getUser : Nat → Except GoError User) (ids : List String)
    (h : ∀ id ∈ ids, ∃ c u, getComment id = Except.ok c ∧ getUser c.AuthorID = Except.ok u) :
    ∃ cs, buildComments getComment getUser ids = Except.ok cs := by
  induction ids with
  | nil => exact ⟨[], rfl⟩
  | cons id ids ih =>
    obtain ⟨c, u, hc, hu⟩ := h id (List.mem_cons_self _ _)
    obtain ⟨rest, hr⟩ := ih (fun x hx => h x (List.mem_cons_of_mem _ hx))
    exact ⟨commentResponse c u :: rest, by simp [buildComments, hc, hu, hr]⟩

/-- The response of one post is built when its comments, their authors and its author
resolve. -/
theorem createResponseOne_total (getComment : String → Except GoError Comment)
    (getUser : Nat → Except GoError User) (p : Post)
    (hc : ∀ id ∈ p.CommentIDs, ∃ c u, getComment id = Except.ok c ∧
      getUser c.AuthorID = Except.ok u)
    (ha : ∃ a, getUser p.AuthorID = Except.ok a) :
    ∃ resp, createResponseOne getComment getUser p = Except.ok resp := by
  obtain ⟨cs, hcs⟩ := buildComments_total getComment getUser p.CommentIDs hc
  obtain ⟨a, ha⟩ := ha
  simp only [createResponseOne, hcs, ha]
  exact ⟨_, rfl⟩

/-- The method `createResponse` returns a list when every lookup it makes resolves. -/
theorem createResponse_total (getComment : String → Except GoError Comment)
    (getUser : Nat → Except GoError User) (posts : List Post)
    (h : ∀ p ∈ posts,
      (∀ id ∈ p.CommentIDs, ∃ c u, getComment id = Except.ok c ∧
        getUser c.AuthorID = Except.ok u) ∧
      ∃ a, getUser p.AuthorID = Except.ok a) :
    ∃ resps, createResponse getComment getUser posts = Except.ok resps := by
  induction posts with
  | nil => exact ⟨[], rfl⟩
  | cons p ps ih =>
    obtain ⟨hc, ha⟩ := h p (List.mem_cons_self _ _)
    obtain ⟨r, hr⟩ := createResponseOne_total getComment getUser p hc ha
    obtain ⟨rs, hrs⟩ := ih (fun x hx => h x (List.mem_cons_of_mem _ hx))
    exact ⟨r :: rs, by simp [createResponse, hr, hrs]⟩

/-- The list `createResponse` returns holds, post by post and in the order of the posts,
the responses of the loop body. -/
theorem createResponse_ok (getComment : String → Except GoError Comment)
    (getUser : Nat → Except GoError User) (posts : List Post) (resps : List PostResponse)
    (h : createResponse getComment getUser posts = Except.ok resps) :
    List.Forall₂ (fun p resp => createResponseOne getComment getUser p = Except.ok resp)
      posts resps := by
  induction posts generalizing resps with
  | nil =>
    simp only [createResponse] at h
    cases h
    exact List.Forall₂.nil
  | cons p ps ih =>
    unfold createResponse at h
    cases hr : createResponseOne getComment getUser p with
    | error e => simp [hr] at h
    | ok r =>
      cases hrs : createResponse getComment getUser ps with
      | error e => simp [hr, hrs] at h
      | ok rs =>
        simp only [hr, hrs] at h
        cases h
        exact List.Forall₂.cons hr (ih rs hrs)

/-- The comments of one response: one built comment per comment id, sorted stably by
`CreateDate`. -/
theorem createResponseOne_comments (getComment : String → Except GoError Comment)
    (getUser : Nat → Except GoError User) (p : Post) (resp : PostResponse)
    (h : createResponseOne getComment getUser p = Except.ok resp) :
    ∃ cs : List CommentResponse,
      List.Forall₂
        (fun id c => ∃ cm u, getComment id = Except.ok cm ∧
          getUser cm.AuthorID = Except.ok u ∧ c = commentResponse cm u) p.CommentIDs cs ∧
      resp.Comments.Perm cs ∧
      resp.Comments.Pairwise (fun a b => dateLess b a = false) ∧
      ∀ d : String, resp.Comments.filter (fun x => x.CreateDate = d) =
        cs.filter (fun x => x.CreateDate = d) := by
  unfold createResponseOne at h
  cases hb : buildComments getComment getUser p.CommentIDs with
  | error e => simp [hb] at h
  | ok cs =>
    cases hu : getUser p.AuthorID with
    | error e => simp [hb, hu] at h
    | ok author =>
      simp only [hb, hu] at h
      cases h
      exact ⟨cs, buildComments_ok getComment getUser p.CommentIDs cs hb,
        sortStableByDate_perm cs, sortStableByDate_sorted cs,
        fun d => sortStableByDate_filter cs d⟩

/-- The score and the percentage of one response are those of its post. -/
theorem createResponseOne_score (getComment : String → Except GoError Comment)
    (getUser : Nat → Except GoError User) (p : Post) (resp : PostResponse)
    (h : createResponseOne getComment getUser p = Except.ok resp) :
    resp.Score = p.UpvotesCount - p.DownvotesCount ∧
      resp.UpvotePercentage = upvotePercentage p.UpvotesCount p.DownvotesCount := by
  unfold createResponseOne at h
  cases hb : buildComments getComment getUser p.CommentIDs with
  | error e => simp [hb] at h
  | ok cs =>
    cases hu : getUser p.AuthorID with
    | error e => simp [hb, hu] at h
    | ok author =>
      simp only [hb, hu] at h
      cases h
      exact ⟨rfl, rfl⟩

/-- Lifting of a property of the loop body to the list that `createResponse` returns. -/
theorem forall₂_imp_of {α β : Type} {R S : α → β → Prop} {l : List α} {m : List β}
    (h : List.Forall₂ R l m) (hRS : ∀ a b, R a b → S a b) : List.Forall₂ S l m := by
  induction h with
  | nil => exact List.Forall₂.nil
  | cons hab _ ih => exact List.Forall₂.cons (hRS _ _ hab) ih

/-- C24: `createResponse` returns a list when every comment id, every comment author and
every post author resolves; and in the list it returns, post by post, there is one built
comment per id of the post's `CommentIDs`, in that order, of which the `Comments` of the
response are a permutation, sorted so that no comment has a `CreateDate` less than that of
a comment before it, the comments of any one `CreateDate` standing in the order of
`CommentIDs`. -/
theorem C24_comments_sorted_stably (getComment : String → Except GoError Comment)
    (getUser : Nat → Except GoError User) (posts : List Post) :
    ((∀ p ∈ posts,
        (∀ id ∈ p.CommentIDs, ∃ c u, getComment id = Except.ok c ∧
          getUser c.AuthorID = Except.ok u) ∧
        ∃ a, getUser p.AuthorID = Except.ok a) →
      ∃ resps, createResponse getComment getUser posts = Except.ok resps) ∧
    ∀ resps, createResponse getComment getUser posts = Except.ok resps →
      List.Forall₂
        (fun p resp => ∃ cs : List CommentResponse,
          List.Forall₂
            (fun id c => ∃ cm u, getComment id = Except.ok cm ∧
              getUser cm.AuthorID = Except.ok u ∧ c = commentResponse cm u)
            p.CommentIDs cs ∧
          resp.Comments.Perm cs ∧
          resp.Comments.Pairwise (fun a b => dateLess b a = false) ∧
          ∀ d : String, resp.Comments.filter (fun x => x.CreateDate = d) =
            cs.filter (fun x => x.CreateDate = d))
        posts resps :=
  ⟨createResponse_total getComment getUser posts,
    fun resps h =>
      forall₂_imp_of (createResponse_ok getComment getUser posts resps h)
        (fun p resp hr => createResponseOne_comments getComment getUser p resp hr)⟩

/-- C24 on concrete posts: the comment ids `["c1", "c2", "c3"]` of `samplePost` resolve to
comments dated 2022-09-12, 2022-09-11 and 2022-09-12, and `downPost` has no comment;
`createResponse` returns the two responses, the first listing the comments as "c2", "c1",
"c3", the two comments of the same date in their order. -/
theorem C24_comments_example :
    createResponse sampleComments sampleUsers [samplePost, downPost] =
        Except.ok [sampleResponse, downResponse] ∧
      sampleResponse.Comments.map (fun c => c.ID) = ["c2", "c1", "c3"] ∧
      (∃ resps, createResponse sampleComments sampleUsers [samplePost, downPost] =
        Except.ok resps) ∧
      List.Forall₂
        (fun p resp => ∃ cs : List CommentResponse,
          List.Forall₂
            (fun id c => ∃ cm u, sampleComments id = Except.ok cm ∧
              sampleUsers cm.AuthorID = Except.ok u ∧ c = commentResponse cm u)
            p.CommentIDs cs ∧
          resp.Comments.Perm cs ∧
          resp.Comments.Pairwise (fun a b => dateLess b a = false) ∧
          ∀ d : String, resp.Comments.filter (fun x => x.CreateDate = d) =
            cs.filter (fun x => x.CreateDate = d))
        [samplePost, downPost] [sampleResponse, downResponse] :=
  ⟨rfl, rfl,
    (C24_comments_sorted_stably sampleComments sampleUsers [samplePost, downPost]).1
      (by
        intro p hp
        simp only [List.mem_cons, List.mem_singleton, List.not_mem_nil, or_false] at hp
        rcases hp with rfl | rfl
        · refine ⟨?_, _, rfl⟩
          intro id hid
          simp only [samplePost, List.mem_cons, List.mem_singleton, List.not_mem_nil,
            or_false] at hid
          rcases hid with rfl | rfl | rfl <;> exact ⟨_, _, rfl, rfl⟩
        · refine ⟨?_, _, rfl⟩
          intro id hid
          simp [downPost, mkPost] at hid),
    (C24_comments_sorted_stably sampleComments sampleUsers [samplePost, downPost]).2
      [sampleResponse, downResponse] rfl⟩

/-! ## The score and the percentage of a response -/

/-- C23 as stated fails at three posts.  For `tiePost`, whose counters 23 and 17 match its
ledger, the exact percentage 57.5 rounds half away from zero to 58, while
`createResponse` answers 57: `float64(23) / float64(40)` is the `float64` just below
0.575, and its product with 100 is the `float64` just below 57.5.  For `minPost`, with the
counters 1 and `MinInt64`, the difference `2^63 + 1` does not fit and the score is
`MinInt64 + 1`.  For `maxPost`, with the counters `MaxInt64` and 1, neither negative, the
sum wraps around to `MinInt64`, the quotient is -1 and the percentage is
18446744073709551516, not between 0 and 100. -/
theorem C23_float_percentage_differs :
    CountersMatch tiePost ∧ LedgerOK tiePost ∧
      ((createResponse sampleComments sampleUsers [tiePost, minPost, maxPost]).map
          (fun rs => rs.map (fun r => (r.Score, r.UpvotePercentage)))).toOption =
        some [(6, 57), (MinInt64 + 1, 0), (MaxInt64 - 1, 18446744073709551516)] ∧
      tiePost.UpvotesCount = 23 ∧ tiePost.DownvotesCount = 17 ∧
      exactPercentage 23 17 = 58 ∧
      roundFrac 23 40 = (10358279142952140, 2 ^ 54) ∧
      roundFrac (10358279142952140 * 100) (2 ^ 54) = (16184811160862718, 2 ^ 48) ∧
      2 * 16184811160862718 < 115 * 2 ^ 48 ∧
      minPost.UpvotesCount.toInt - minPost.DownvotesCount.toInt = 2 ^ 63 + 1 ∧
      (MinInt64 + 1).toInt = -2 ^ 63 + 1 ∧
      0 ≤ maxPost.UpvotesCount.toInt ∧ 0 ≤ maxPost.DownvotesCount.toInt ∧
      maxPost.UpvotesCount + maxPost.DownvotesCount = MinInt64 :=
  ⟨by decide, ⟨by decide, by decide⟩, by set_option maxRecDepth 8192 in decide, rfl, rfl,
    by decide, by decide, by decide, by decide, by decide, by decide, by decide, by decide,
    by decide⟩

/-- C23 (amended): `createResponse` returns a list when every lookup resolves, and in the
list it returns, post by post: `Score` is `UpvotesCount - DownvotesCount` in `int`, which
is the difference of the two integers whenever that fits in 64 bits; `UpvotePercentage`
is 0 when the counters sum to 0 in `int`; and for counters `up` and `down` that are not
negative and whose sum is below `2^63`, it is at most 100, it is the rounded `float64`
expression `float64(up) / float64(up + down) * 100` when the sum is not 0, and for a sum
up to `2^44` it is the rational `100 * up / (up + down)` rounded half away from zero or one
less, and is that rounded rational whenever the rational is not half an odd integer. -/
theorem C23_score_and_float_percentage (getComment : String → Except GoError Comment)
    (getUser : Nat → Except GoError User) (posts : List Post) :
    ((∀ p ∈ posts,
        (∀ id ∈ p.CommentIDs, ∃ c u, getComment id = Except.ok c ∧
          getUser c.AuthorID = Except.ok u) ∧
        ∃ a, getUser p.AuthorID = Except.ok a) →
      ∃ resps, createResponse getComment getUser posts = Except.ok resps) ∧
    ∀ resps, createResponse getComment getUser posts = Except.ok resps →
      List.Forall₂
        (fun p resp =>
          resp.Score = p.UpvotesCount - p.DownvotesCount ∧
          resp.Score.toInt = wrapInt (p.UpvotesCount.toInt - p.DownvotesCount.toInt) ∧
          (-2 ^ 63 ≤ p.UpvotesCount.toInt - p.DownvotesCount.toInt ∧
              p.UpvotesCount.toInt - p.DownvotesCount.toInt < 2 ^ 63 →
            resp.Score.toInt = p.UpvotesCount.toInt - p.DownvotesCount.toInt) ∧
          (p.UpvotesCount + p.DownvotesCount = 0 → resp.UpvotePercentage = 0) ∧
          ∀ up down : Nat, p.UpvotesCount.toInt = (up : Int) →
            p.DownvotesCount.toInt = (down : Int) → up + down < 2 ^ 63 →
            resp.UpvotePercentage ≤ 100 ∧
            (up + down = 0 → resp.UpvotePercentage = 0) ∧
            (up + down ≠ 0 → resp.UpvotePercentage = roundedPercent up (up + down)) ∧
            (up + down ≠ 0 → up + down ≤ 2 ^ 44 →
              resp.UpvotePercentage ≤ exactPercentage up down ∧
              exactPercentage up down ≤ resp.UpvotePercentage + 1 ∧
              ((200 * up + (up + down)) % (2 * (up + down)) ≠ 0 →
                resp.UpvotePercentage = exactPercentage up down)))
        posts resps := by
  refine ⟨createResponse_total getComment getUser posts, fun resps h => ?_⟩
  refine forall₂_imp_of (createResponse_ok getComment getUser posts resps h) ?_
  intro p resp hr
  obtain ⟨hscore, hperc⟩ := createResponseOne_score getComment getUser p resp hr
  refine ⟨hscore, by rw [hscore]; rfl, ?_, ?_, ?_⟩
  · intro hfit
    rw [hscore]
    exact GoInt.toInt_sub_exact _ _ hfit
  · intro h0
    rw [hperc]
    exact upvotePercentage_zero _ _ h0
  · intro up down hu hd hs
    by_cases h0 : up + down = 0
    · have hz : p.UpvotesCount + p.DownvotesCount = 0 := by
        apply GoInt.ext
        have h2 : (0 : GoInt).toInt = 0 := rfl
        rw [GoInt.toInt_add_exact _ _ (by rw [hu, hd]; omega), hu, hd, h2]
        omega
      have hp0 : resp.UpvotePercentage = 0 := by
        rw [hperc]
        exact upvotePercentage_zero _ _ hz
      exact ⟨by omega, fun _ => hp0, fun hne => absurd h0 hne, fun hne => absurd h0 hne⟩
    · have heq : resp.UpvotePercentage = roundedPercent up (up + down) := by
        rw [hperc]
        exact upvotePercentage_eq _ _ up down hu hd hs h0
      refine ⟨?_, fun hz => absurd hz h0, fun _ => heq, ?_⟩
      · rw [heq]
        exact roundedPercent_le (by omega) (by omega)
      · intro _ h44
        rw [heq]
        exact roundedPercent_near up down h0 h44

/-- C23 on concrete posts: `createResponse` returns the responses of `samplePost`, with the
counters 1 and 0, and of `downPost`, with the counters 0 and 1: the scores are 1 and -1
and the percentages 100 and 0. -/
theorem C23_score_example :
    createResponse sampleComments sampleUsers [samplePost, downPost] =
        Except.ok [sampleResponse, downResponse] ∧
      (samplePost.UpvotesCount, samplePost.DownvotesCount) = (1, 0) ∧
      (sampleResponse.Score, sampleResponse.UpvotePercentage) = (1, 100) ∧
      (downPost.UpvotesCount, downPost.DownvotesCount) = (0, 1) ∧
      (downResponse.Score, downResponse.UpvotePercentage) = (-1, 0) ∧
      (∃ resps, createResponse sampleComments sampleUsers [samplePost, downPost] =
        Except.ok resps) ∧
      List.Forall₂
        (fun p resp =>
          resp.Score = p.UpvotesCount - p.DownvotesCount ∧
          resp.Score.toInt = wrapInt (p.UpvotesCount.toInt - p.DownvotesCount.toInt) ∧
          (-2 ^ 63 ≤ p.UpvotesCount.toInt - p.DownvotesCount.toInt ∧
              p.UpvotesCount.toInt - p.DownvotesCount.toInt < 2 ^ 63 →
            resp.Score.toInt = p.UpvotesCount.toInt - p.DownvotesCount.toInt) ∧
          (p.UpvotesCount + p.DownvotesCount = 0 → resp.UpvotePercentage = 0) ∧
          ∀ up down : Nat, p.UpvotesCount.toInt = (up : Int) →
            p.DownvotesCount.toInt = (down : Int) → up + down < 2 ^ 63 →
            resp.UpvotePercentage ≤ 100 ∧
            (up + down = 0 → resp.UpvotePercentage = 0) ∧
            (up + down ≠ 0 → resp.UpvotePercentage = roundedPercent up (up + down)) ∧
            (up + down ≠ 0 → up + down ≤ 2 ^ 44 →
              resp.UpvotePercentage ≤ exactPercentage up down ∧
              exactPercentage up down ≤ resp.UpvotePercentage + 1 ∧
              ((200 * up + (up + down)) % (2 * (up + down)) ≠ 0 →
                resp.UpvotePercentage = exactPercentage up down)))
        [samplePost, downPost] [sampleResponse, downResponse] :=
  ⟨rfl, rfl, rfl, rfl, rfl,
    (C23_score_and_float_percentage sampleComments sampleUsers [samplePost, downPost]).1
      (by
        intro p hp
        simp only [List.mem_cons, List.mem_singleton, List.not_mem_nil, or_false] at hp
        rcases hp with rfl | rfl
        · refine ⟨?_, _, rfl⟩
          intro id hid
          simp only [samplePost, List.mem_cons, List.mem_singleton, List.not_mem_nil,
            or_false] at hid
          rcases hid with rfl | rfl | rfl <;> exact ⟨_, _, rfl, rfl⟩
        · refine ⟨?_, _, rfl⟩
          intro id hid
          simp [downPost, mkPost] at hid),
    (C23_score_and_float_percentage sampleComments sampleUsers [samplePost, downPost]).2
      [sampleResponse, downResponse] rfl⟩

end RedditClone
